import Mathlib

/-!
Verification development for the infinite-islands chunk-streaming /
deterministic-generation / resource-cache engine.

The TypeScript sources are shallowly embedded:
* JavaScript 32-bit integer arithmetic is modelled on `Int` with an explicit
  wrap to the signed 32-bit range (`toInt32`).
* JavaScript floating-point numbers are modelled by exact rationals.  Where a
  computation can produce `NaN`/`Infinity` (divisions inside the procedural
  vertex transforms), values are wrapped in `JSNum`, which propagates
  non-finite values the way IEEE/JS arithmetic does.  Float rounding and
  overflow are not modelled: every number handled by the generator is small
  and every constant in the source is an exact short decimal, so rounding
  never changes a comparison or a hash input in the fragments embedded here.
* Transcendental collaborator functions (`Math.cos`, `Math.sin`,
  `Math.atan2`, `Math.sqrt`) are abstracted into an explicit context
  (`TrigCtx`) of rational-valued functions; the generator only needs that
  they send finite inputs to finite outputs, which the `JSNum` lifting
  provides by construction.
* Mutable heaps of `three.js` geometry objects are modelled explicitly
  (`HeapState`) so that aliasing between cache entries and the buffers held
  by callers is observable.
-/

set_option maxRecDepth 4000
set_option linter.unusedVariables false

namespace Islands

/-! ## JavaScript 32-bit integer arithmetic -/

/-- Wrap an integer to the signed 32-bit range, as JavaScript's `| 0`,
`& hash` and `<<` coercions do. -/
def toInt32 (n : Int) : Int :=
  (n + 2 ^ 31) % 2 ^ 32 - 2 ^ 31

/-- One step of the rolling hash loop `hash = ((hash << 5) - hash) + char;
hash = hash & hash;` from the source.  `hash << 5` is itself a 32-bit
operation in JavaScript, hence the inner wrap. -/
def hashStep (h : Int) (c : Nat) : Int :=
  toInt32 (toInt32 (h * 32) - h + c)

/-- Character codes of a string (`charCodeAt`); all strings hashed by the
program are ASCII, where `Char.toNat` agrees with `charCodeAt`. -/
def charCodes (s : String) : List Nat :=
  s.data.map Char.toNat

/-- `IslandGenerator.hashCode` (src/unnamed/part_000, lines 896-904 and
1754-1762): rolling hash over the whole string, absolute value taken. -/
def hashCode (s : String) : Nat :=
  ((charCodes s).foldl hashStep 0).natAbs

/-- `ChunkManager.simpleHash` (src/ship-game/src/ChunkManager.ts, lines
542-552): same loop, but only over the first `min(length, 10)` characters. -/
def simpleHash (s : String) : Nat :=
  (((charCodes s).take 10).foldl hashStep 0).natAbs

/-- One step of the spec's wording of the hash: `hash = hash*31 + charCode`,
wrapped to 32-bit. -/
def polyStep (h : Int) (c : Nat) : Int :=
  toInt32 (h * 31 + c)

/-- Modelled from the spec: "classic polynomial rolling hash
(`hash = hash*31 + charCode`, wrapped to 32-bit, magnitude taken)" over the
whole input.  Used as the comparison point for claim C9. -/
def specPolyHash (s : String) : Nat :=
  ((charCodes s).foldl polyStep 0).natAbs

lemma toInt32_congr {x y : Int} (h : x % 2 ^ 32 = y % 2 ^ 32) :
    toInt32 x = toInt32 y := by
  unfold toInt32
  omega

lemma toInt32_mod (x : Int) : toInt32 x % 2 ^ 32 = x % 2 ^ 32 := by
  unfold toInt32
  omega

lemma hashStep_eq_poly (h : Int) (c : Nat) :
    hashStep h c = polyStep h c := by
  unfold hashStep polyStep
  refine toInt32_congr ?_
  have h32 : toInt32 (h * 32) % 2 ^ 32 = h * 32 % 2 ^ 32 := toInt32_mod _
  omega

lemma foldl_hashStep_eq_poly (l : List Nat) (h : Int) :
    l.foldl hashStep h = l.foldl polyStep h := by
  induction l generalizing h with
  | nil => rfl
  | cons c t ih =>
      rw [List.foldl_cons, List.foldl_cons, hashStep_eq_poly, ih]

/-! ## Exact rational arithmetic that evaluates in the kernel

`Mathlib`'s `Rat` operations do not reduce under `decide`, so the JavaScript
numbers handled by the program are modelled by explicit fractions with a
positive denominator.  Value equality and order are read through `Q.toRat`. -/

/-- A rational as an explicit fraction.  All constructors used by the model
keep `d` positive. -/
structure Q where
  n : Int
  d : Int
deriving DecidableEq, Repr

instance : OfNat Q m where
  ofNat := ⟨m, 1⟩

/-- Decimal literals: `0.8` is exactly `8/10`, matching the exact decimal
constants of the source. -/
instance : OfScientific Q where
  ofScientific m b e := if b then ⟨m, 10 ^ e⟩ else ⟨m * 10 ^ e, 1⟩

def Q.ofInt (i : Int) : Q := ⟨i, 1⟩

def Q.add (a b : Q) : Q := ⟨a.n * b.d + b.n * a.d, a.d * b.d⟩

def Q.neg (a : Q) : Q := ⟨-a.n, a.d⟩

def Q.sub (a b : Q) : Q := ⟨a.n * b.d - b.n * a.d, a.d * b.d⟩

def Q.mul (a b : Q) : Q := ⟨a.n * b.n, a.d * b.d⟩

/-- Division; only ever used with a nonzero divisor (the `JSNum` layer
checks for zero first), the zero case is an arbitrary total default. -/
def Q.div (a b : Q) : Q :=
  if b.n = 0 then ⟨0, 1⟩
  else if b.n < 0 then ⟨-(a.n * b.d), -(a.d * b.n)⟩
  else ⟨a.n * b.d, a.d * b.n⟩

instance : Add Q := ⟨Q.add⟩
instance : Neg Q := ⟨Q.neg⟩
instance : Sub Q := ⟨Q.sub⟩
instance : Mul Q := ⟨Q.mul⟩
instance : Div Q := ⟨Q.div⟩

/-- `Math.abs`. -/
def Q.abs (a : Q) : Q := ⟨|a.n|, a.d⟩

/-- Value comparison `a < b` (valid for positive denominators). -/
def Q.ltB (a b : Q) : Bool := a.n * b.d < b.n * a.d

def Q.leB (a b : Q) : Bool := a.n * b.d ≤ b.n * a.d

/-- Value equality (valid for nonzero denominators). -/
def Q.eqB (a b : Q) : Bool := a.n * b.d == b.n * a.d

/-- Value-zero test (valid for nonzero denominators). -/
def Q.isZero (a : Q) : Bool := a.n == 0

/-- `Math.floor` (valid for positive denominators). -/
def Q.floor (a : Q) : Int := a.n.fdiv a.d

/-- `Math.round`, which in JavaScript is `⌊x + 1/2⌋`. -/
def Q.round (a : Q) : Int := Q.floor (a + ⟨1, 2⟩)

/-- The denominator-positivity invariant. -/
def Q.pos (a : Q) : Prop := 0 < a.d

/-- Interpretation into `ℚ`; used only in proofs about order and signs. -/
def Q.toRat (a : Q) : ℚ := (a.n : ℚ) / (a.d : ℚ)

/-! ### Reading `Q` operations through `ℚ` -/

lemma Q.toRat_add {a b : Q} (ha : 0 < a.d) (hb : 0 < b.d) :
    (a + b).toRat = a.toRat + b.toRat := by
  show (Q.add a b).toRat = _
  unfold Q.add Q.toRat
  have ha' : (a.d : ℚ) ≠ 0 := Int.cast_ne_zero.mpr (by omega)
  have hb' : (b.d : ℚ) ≠ 0 := Int.cast_ne_zero.mpr (by omega)
  push_cast
  field_simp
  all_goals ring

lemma Q.toRat_mul {a b : Q} (ha : 0 < a.d) (hb : 0 < b.d) :
    (a * b).toRat = a.toRat * b.toRat := by
  show (Q.mul a b).toRat = _
  unfold Q.mul Q.toRat
  have ha' : (a.d : ℚ) ≠ 0 := Int.cast_ne_zero.mpr (by omega)
  have hb' : (b.d : ℚ) ≠ 0 := Int.cast_ne_zero.mpr (by omega)
  push_cast
  field_simp

lemma Q.toRat_neg (a : Q) : (-a).toRat = -a.toRat := by
  show (Q.neg a).toRat = _
  unfold Q.neg Q.toRat
  push_cast
  ring

lemma Q.toRat_sub {a b : Q} (ha : 0 < a.d) (hb : 0 < b.d) :
    (a - b).toRat = a.toRat - b.toRat := by
  show (Q.sub a b).toRat = _
  unfold Q.sub Q.toRat
  have ha' : (a.d : ℚ) ≠ 0 := Int.cast_ne_zero.mpr (by omega)
  have hb' : (b.d : ℚ) ≠ 0 := Int.cast_ne_zero.mpr (by omega)
  push_cast
  field_simp
  all_goals ring

lemma Q.toRat_abs {a : Q} (ha : 0 < a.d) : (Q.abs a).toRat = |a.toRat| := by
  unfold Q.abs Q.toRat
  rw [abs_div]
  have : |(a.d : ℚ)| = (a.d : ℚ) := abs_of_pos (by exact_mod_cast ha)
  rw [this]
  push_cast
  rfl

lemma Q.ltB_iff {a b : Q} (ha : 0 < a.d) (hb : 0 < b.d) :
    Q.ltB a b = true ↔ a.toRat < b.toRat := by
  unfold Q.ltB Q.toRat
  have ha' : (0 : ℚ) < (a.d : ℚ) := by exact_mod_cast ha
  have hb' : (0 : ℚ) < (b.d : ℚ) := by exact_mod_cast hb
  rw [div_lt_div_iff ha' hb']
  simp only [decide_eq_true_eq]
  constructor
  · intro h; exact_mod_cast h
  · intro h; exact_mod_cast h

lemma Q.leB_iff {a b : Q} (ha : 0 < a.d) (hb : 0 < b.d) :
    Q.leB a b = true ↔ a.toRat ≤ b.toRat := by
  unfold Q.leB Q.toRat
  have ha' : (0 : ℚ) < (a.d : ℚ) := by exact_mod_cast ha
  have hb' : (0 : ℚ) < (b.d : ℚ) := by exact_mod_cast hb
  rw [div_le_div_iff ha' hb']
  simp only [decide_eq_true_eq]
  constructor
  · intro h; exact_mod_cast h
  · intro h; exact_mod_cast h

lemma Q.isZero_iff {a : Q} (ha : 0 < a.d) :
    Q.isZero a = true ↔ a.toRat = 0 := by
  unfold Q.isZero Q.toRat
  have ha' : (a.d : ℚ) ≠ 0 := Int.cast_ne_zero.mpr (by omega)
  rw [div_eq_zero_iff]
  constructor
  · intro h
    left
    have hn : a.n = 0 := by simpa using h
    simp [hn]
  · intro h
    rcases h with h | h
    · have hn : a.n = 0 := by exact_mod_cast h
      simp [hn]
    · exact absurd h ha'

lemma Q.floor_toRat {a : Q} (ha : 0 < a.d) : a.floor = ⌊a.toRat⌋ := by
  unfold Q.floor Q.toRat
  rw [Int.fdiv_eq_ediv _ (by omega)]
  have h1 : ((a.d : ℤ) : ℚ) = ((a.d.toNat : ℕ) : ℚ) := by
    norm_cast
    omega
  rw [h1, Rat.floor_intCast_div_natCast a.n a.d.toNat]
  congr 1
  omega

lemma Q.toRat_half : (⟨1, 2⟩ : Q).toRat = 1 / 2 := by
  unfold Q.toRat
  norm_num

lemma Q.round_toRat {a : Q} (ha : 0 < a.d) :
    a.round = ⌊a.toRat + 1 / 2⌋ := by
  unfold Q.round
  rw [Q.floor_toRat (by show (0 : Int) < a.d * 2; omega),
    Q.toRat_add ha (by norm_num), Q.toRat_half]

/-! ### Denominator positivity is preserved by every operation -/

lemma Q.add_den_pos {a b : Q} (ha : 0 < a.d) (hb : 0 < b.d) :
    0 < (a + b).d := mul_pos ha hb

lemma Q.mul_den_pos {a b : Q} (ha : 0 < a.d) (hb : 0 < b.d) :
    0 < (a * b).d := mul_pos ha hb

lemma Q.sub_den_pos {a b : Q} (ha : 0 < a.d) (hb : 0 < b.d) :
    0 < (a - b).d := mul_pos ha hb

lemma Q.neg_den_pos {a : Q} (ha : 0 < a.d) : 0 < (-a).d := ha

lemma Q.abs_den_pos {a : Q} (ha : 0 < a.d) : 0 < (Q.abs a).d := ha

lemma Q.div_den_pos {a b : Q} (ha : 0 < a.d) : 0 < (a / b).d := by
  show 0 < (Q.div a b).d
  unfold Q.div
  by_cases h0 : b.n = 0
  · simp [h0]
  · by_cases hneg : b.n < 0
    · simp only [h0, if_false, hneg, if_true]
      nlinarith
    · simp only [h0, if_false, hneg, if_true]
      have : 0 < b.n := by omega
      positivity

/-! ## JavaScript number semantics with NaN and infinities

Vertex coordinates flow through divisions that can produce `NaN`/`Infinity`
in JavaScript; `JSNum` models a JS number as NaN, a signed infinity, or a
finite rational. -/

inductive JSNum
  | nan
  | inf (isPos : Bool)
  | fin (q : Q)
deriving DecidableEq, Repr

/-- A finite JS number. -/
def jq (q : Q) : JSNum := JSNum.fin q

def JSNum.isNaN : JSNum → Bool
  | .nan => true
  | _ => false

def JSNum.isFin : JSNum → Bool
  | .fin _ => true
  | _ => false

def JSNum.add : JSNum → JSNum → JSNum
  | .nan, _ => .nan
  | _, .nan => .nan
  | .inf s, .inf t => if s = t then .inf s else .nan
  | .inf s, .fin _ => .inf s
  | .fin _, .inf t => .inf t
  | .fin a, .fin b => .fin (a + b)

def JSNum.neg : JSNum → JSNum
  | .nan => .nan
  | .inf s => .inf (!s)
  | .fin a => .fin (-a)

def JSNum.sub (a b : JSNum) : JSNum := a.add b.neg

def JSNum.mul : JSNum → JSNum → JSNum
  | .nan, _ => .nan
  | _, .nan => .nan
  | .inf s, .inf t => .inf (s = t)
  | .inf s, .fin b =>
      if b.isZero then .nan else .inf (s = Q.ltB 0 b)
  | .fin a, .inf t =>
      if a.isZero then .nan else .inf (t = Q.ltB 0 a)
  | .fin a, .fin b => .fin (a * b)

/-- JS division: `0/0 = NaN`, `x/0 = ±Infinity` for `x ≠ 0`. -/
def JSNum.div : JSNum → JSNum → JSNum
  | .nan, _ => .nan
  | _, .nan => .nan
  | .inf _, .inf _ => .nan
  | .inf s, .fin b => .inf (s = Q.leB 0 b)
  | .fin _, .inf _ => .fin 0
  | .fin a, .fin b =>
      if b.isZero then
        if a.isZero then .nan else .inf (Q.ltB 0 a)
      else .fin (a / b)

def JSNum.abs : JSNum → JSNum
  | .nan => .nan
  | .inf _ => .inf true
  | .fin a => .fin a.abs

/-- JS `<`: false whenever either side is NaN. -/
def JSNum.ltB : JSNum → JSNum → Bool
  | .nan, _ => false
  | _, .nan => false
  | .inf s, .inf t => !s && t
  | .inf s, .fin _ => !s
  | .fin _, .inf t => t
  | .fin a, .fin b => Q.ltB a b

/-- JS `>`. -/
def JSNum.gtB (a b : JSNum) : Bool := JSNum.ltB b a

/-! ## The trigonometric collaborators

`Math.cos`, `Math.sin`, `Math.atan2` and `Math.sqrt` are abstracted as
rational-valued functions.  `cosU`/`sinU`/`cosV`/`sinV` take the unit
grid parameters from which `three.js` derives its angles (the constant
angle scale is absorbed into the abstract function); `cosA`/`sinA` take
the angle values produced by `atan2`. -/

structure TrigCtx where
  cosU : Q → Q
  sinU : Q → Q
  cosV : Q → Q
  sinV : Q → Q
  cosA : Q → Q
  sinA : Q → Q
  atan2 : Q → Q → Q
  sqrt : Q → Q
  /-- Seed substituted for an empty landmass id
  (`islandData.id || Math.random().toString()`). -/
  fallbackSeed : String

/-- `Math.cos` on a JS number: finite on finite input, NaN otherwise. -/
def jcosA (c : TrigCtx) : JSNum → JSNum
  | .fin q => .fin (c.cosA q)
  | _ => .nan

def jsinA (c : TrigCtx) : JSNum → JSNum
  | .fin q => .fin (c.sinA q)
  | _ => .nan

/-- `Math.atan2` on JS numbers: finite (even at `(0,0)`) for finite inputs.
The infinite-argument cases (which also yield finite angles in JS) are
mapped to NaN; they are unreachable in the embedded generator. -/
def jatan2 (c : TrigCtx) : JSNum → JSNum → JSNum
  | .fin a, .fin b => .fin (c.atan2 a b)
  | _, _ => .nan

/-- `Math.sqrt`: NaN on negative input. -/
def jsqrt (c : TrigCtx) : JSNum → JSNum
  | .fin q => if Q.ltB q 0 then .nan else .fin (c.sqrt q)
  | .inf s => if s then .inf true else .nan
  | .nan => .nan

/-- A vertex position. -/
structure V3 where
  x : JSNum
  y : JSNum
  z : JSNum
deriving DecidableEq, Repr

def finV3 (v : Q × Q × Q) : V3 := ⟨jq v.1, jq v.2.1, jq v.2.2⟩

/-- A geometry's vertex position buffer. -/
abbrev Geometry := List V3

/-- `Math.min` on JS numbers (NaN-poisoning). -/
def jmin : JSNum → JSNum → JSNum
  | .nan, _ => .nan
  | _, .nan => .nan
  | .inf s, .inf t => .inf (s && t)
  | .inf s, .fin b => if s then .fin b else .inf false
  | .fin a, .inf t => if t then .fin a else .inf false
  | .fin a, .fin b => if Q.ltB a b then .fin a else .fin b

/-- `Math.max` on JS numbers (NaN-poisoning). -/
def jmax : JSNum → JSNum → JSNum
  | .nan, _ => .nan
  | _, .nan => .nan
  | .inf s, .inf t => .inf (s || t)
  | .inf s, .fin b => if s then .inf true else .fin b
  | .fin a, .inf t => if t then .inf true else .fin a
  | .fin a, .fin b => if Q.ltB a b then .fin b else .fin a

/-! ## Collaborator geometry constructors

Models of the `three.js` primitive constructors at the level of their vertex
position buffers: a torso grid of `(heightSegments+1) × (radialSegments+1)`
vertices plus, for each cap of a cylinder with nonzero cap radius,
`radialSegments` center vertices and a ring of `radialSegments+1` vertices. -/

/-- One cap of a cylinder: `radialSegs` center vertices plus a ring;
generated only when the cap radius is positive. -/
def cylinderCap (c : TrigCtx) (height radius sign : Q) (radialSegs : Nat) :
    List (Q × Q × Q) :=
  if Q.ltB 0 radius then
    (List.range radialSegs).map
      (fun _ => ((0 : Q), sign * (height / 2), (0 : Q))) ++
    (List.range (radialSegs + 1)).map (fun ix =>
      let u : Q := ⟨ix, radialSegs⟩
      (radius * c.cosU u, sign * (height / 2), radius * c.sinU u))
  else []

/-- `THREE.CylinderGeometry(rTop, rBot, height, radialSegs, heightSegs,
false)` vertex positions. -/
def cylinderVertices (c : TrigCtx) (rTop rBot height : Q)
    (radialSegs heightSegs : Nat) : List (Q × Q × Q) :=
  let torso :=
    (List.range (heightSegs + 1)).flatMap fun iy =>
      (List.range (radialSegs + 1)).map fun ix =>
        let v : Q := ⟨iy, heightSegs⟩
        let u : Q := ⟨ix, radialSegs⟩
        let radius := v * (rBot - rTop) + rTop
        let y := -v * height + height / 2
        (radius * c.cosU u, y, radius * c.sinU u)
  torso ++ cylinderCap c height rTop 1 radialSegs ++
    cylinderCap c height rBot (-1) radialSegs

/-- `THREE.SphereGeometry(radius, widthSegs, heightSegs, 0, 2π, 0, π/2)`
vertex positions (the upper hemisphere used for smooth hills). -/
def sphereVertices (c : TrigCtx) (radius : Q) (widthSegs heightSegs : Nat) :
    List (Q × Q × Q) :=
  (List.range (heightSegs + 1)).flatMap fun iy =>
    (List.range (widthSegs + 1)).map fun ix =>
      let v : Q := ⟨iy, heightSegs⟩
      let u : Q := ⟨ix, widthSegs⟩
      (-(radius * c.cosU u * c.sinV v), radius * c.cosV v,
        radius * c.sinU u * c.sinV v)

/-- `THREE.PlaneGeometry(width, height)` vertex positions. -/
def planeVertices (width height : Q) : List (Q × Q × Q) :=
  [(-(width / 2), height / 2, 0), (width / 2, height / 2, 0),
   (-(width / 2), -(height / 2), 0), (width / 2, -(height / 2), 0)]

/-! ## JavaScript number-to-string (for hash seeds)

The seeded random functions hash `key + salt + min.toString() +
max.toString()`.  Every number so printed in the source is an exact short
decimal, for which JavaScript's shortest-round-trip printing is its plain
decimal form, reproduced here by long division. -/

/-- Decimal digits of the fraction `r / d` (`0 ≤ r < d`), by long division;
the fuel bounds the digit count and is never exhausted on the decimal
constants the program prints. -/
def qFracDigits (r d : Int) : Nat → String
  | 0 => ""
  | fuel + 1 =>
    if r = 0 then ""
    else
      let r10 := r * 10
      toString (r10 / d).toNat ++ qFracDigits (r10 % d) d fuel

/-- JavaScript `Number.prototype.toString` on the exact decimals the
program prints. -/
def qToJsString (q : Q) : String :=
  let neg := q.n * q.d < 0
  let a : Int := |q.n|
  let d : Int := |q.d|
  let ip := a / d
  let frac := qFracDigits (a % d) d 25
  (if neg then "-" else "") ++ toString ip.toNat ++
    (if frac.isEmpty then "" else "." ++ frac)

/-! ## The seeded random functions -/

/-- The `random` closure of `IslandGenerator.createProceduralIslandMesh`
(src/unnamed/part_000, lines 422-437): hash of
`seed + min.toString() + max.toString()` through `hashCode`, mapped into
`[min, max)`.  The `isNaN` guards of the source are vacuous on exact
rationals. -/
def randomQ (seed : String) (min max : Q) : Q :=
  min + Q.abs
    ⟨((hashCode (seed ++ qToJsString min ++ qToJsString max) % 1000 : Nat) :
      Int), 1000⟩ * (max - min)

/-- `ChunkManager.getDetailedSeedRandom` (lines 511-522). -/
def seedDetailed (key : String) (min max : Q) (salt : String) : Q :=
  let combinedSeed := key ++ salt ++ qToJsString min ++ qToJsString max
  let hash := simpleHash combinedSeed
  let val : Q := ⟨((hash % 1000 : Nat) : Int), 1000⟩
  min + Q.abs val * (max - min)

/-- `ChunkManager.getSimpleSeedRandom` (lines 527-537). -/
def seedSimple (key : String) (min max : Q) (salt : String) : Q :=
  let hash := simpleHash (key ++ salt)
  min + ⟨((hash % 100 : Nat) : Int), 100⟩ * (max - min)

/-! ## The shape archetypes (src/unnamed/part_000, lines 511-715)

Each archetype builds a base primitive and perturbs its vertex buffer;
perturbation arithmetic runs in `JSNum` so division hazards are visible. -/

/-- The per-vertex loop body of `createJaggedMountain` (lines 526-546);
vertices at odd indices are skipped (`i += 2`), as is the top point. -/
def jaggedStep (c : TrigCtx) (size height : Q) (random : Q → Q → Q)
    (i : Nat) (v : V3) : V3 :=
  if i % 2 ≠ 0 then v
  else if ((v.y.sub (jq (height / 2))).abs.ltB (jq 0.001)) then v
  else
    let heightFactor := (v.y.add (jq (height / 2))).div (jq height)
    let angle := jatan2 c v.z v.x
    let noiseFactor :=
      (((jq (random 0.8 1.2)).mul (jq size)).mul (jq 0.15)).mul heightFactor
    let radius := jsqrt c ((v.x.mul v.x).add (v.z.mul v.z))
    let newRadius := radius.add noiseFactor
    ⟨(jcosA c angle).mul newRadius, v.y, (jsinA c angle).mul newRadius⟩

/-- `IslandGenerator.createJaggedMountain` (lines 511-551). -/
def createJaggedMountain (c : TrigCtx) (size : Q)
    (random : Q → Q → Q) : Geometry :=
  let height := size * random 0.8 1.0
  let segments := min 8 (max 6 size.floor)
  let heightSegments := min 3 (max 2 (size / 4).floor)
  let base := (cylinderVertices c 0 size height segments.toNat
    heightSegments.toNat).map finV3
  base.mapIdx (jaggedStep c size height random)

/-- `IslandGenerator.createSmoothHill` (lines 553-575). -/
def createSmoothHill (c : TrigCtx) (size : Q)
    (random : Q → Q → Q) : Geometry :=
  let segments := min 8 (max 6 size.floor)
  (sphereVertices c (size * 0.7) segments.toNat
    (max 4 (size / 3).floor).toNat).map finV3

/-- `IslandGenerator.createMesa` (lines 577-592). -/
def createMesa (c : TrigCtx) (size : Q) (random : Q → Q → Q) : Geometry :=
  (cylinderVertices c (size * 0.5) size (size * 0.7)
    (max 6 size.floor).toNat 1).map finV3

/-- The per-vertex loop body of `createVolcano` (lines 620-650): crater
depression on top vertices, radial noise below the rim. -/
def volcanoStep (c : TrigCtx) (size height craterRadius craterDepth : Q)
    (random : Q → Q → Q) (v : V3) : V3 :=
  let distFromCenter := jsqrt c ((v.x.mul v.x).add (v.z.mul v.z))
  let y1 :=
    if v.y.gtB (jq (height / 2 - 0.001)) &&
        distFromCenter.ltB (jq (craterRadius * 0.9)) then
      v.y.sub ((jq craterDepth).mul
        ((jq 1).sub (distFromCenter.div (jq craterRadius))))
    else v.y
  if y1.ltB (jq (height / 2)) then
    let heightFactor := (y1.add (jq (height / 2))).div (jq height)
    let noiseFactor :=
      (((jq (random 0.9 1.1)).mul (jq size)).mul (jq 0.05)).mul heightFactor
    let angle := jatan2 c v.z v.x
    let radius := distFromCenter.add noiseFactor
    ⟨(jcosA c angle).mul radius, y1, (jsinA c angle).mul radius⟩
  else ⟨v.x, y1, v.z⟩

/-- `IslandGenerator.createVolcano` (lines 594-655). -/
def createVolcano (c : TrigCtx) (size : Q)
    (random : Q → Q → Q) : Geometry :=
  let height := size * random 0.8 1.2
  let craterRadius := size * random 0.2 0.4
  let craterDepth := height * random 0.15 0.3
  let segments := max 8 (size * 1.2).floor
  let heightSegments := min 4 (max 2 (size / 2.5).floor)
  let base := (cylinderVertices c craterRadius size height segments.toNat
    heightSegments.toNat).map finV3
  base.map (volcanoStep c size height craterRadius craterDepth random)

/-- `IslandGenerator.createArchipelago`, first generator variant
(lines 657-715): one unified cylinder whose surface is rippled; the
radial push divides by the distance from the center axis, which is `0/0`
at cap-center vertices — the NaN hazard the validator repairs. -/
def createArchipelago (c : TrigCtx) (size : Q)
    (random : Q → Q → Q) : Geometry :=
  let height := size * random 0.6 0.8
  let segments := max 8 size.floor
  let heightSegments := max 2 (size / 4).floor
  let base := (cylinderVertices c (size * 0.3) size height segments.toNat
    heightSegments.toNat).map finV3
  base.map fun v =>
    if ((v.y.add (jq (height / 2))).abs.ltB (jq 0.001)) then v
    else
      let distFromCenter := jsqrt c ((v.x.mul v.x).add (v.z.mul v.z))
      let normalizedDist := distFromCenter.div (jq size)
      let angle := jatan2 c v.z v.x
      let wave := ((jsinA c (angle.mul (jq 3))).mul
        (jcosA c (angle.mul (jq 2)))).mul (jq (random 0.8 1.2))
      if v.y.gtB (jq (-(height / 4))) then
        let heightMod := ((jq (size * 0.15)).mul wave).mul
          ((jq 1).sub normalizedDist)
        let y1 := v.y.add heightMod
        let radiusMod := ((jq (random 0.9 1.1 * size * 0.1))).mul wave
        let newRadius := distFromCenter.add radiusMod
        ⟨(v.x.div distFromCenter).mul newRadius, y1,
          (v.z.div distFromCenter).mul newRadius⟩
      else v

/-! ## Association lists (JavaScript objects / Maps keyed by string) -/

/-- Insert-or-replace for a JavaScript object keyed by string
(`obj[key] = value`): an existing key keeps its position, a new key is
appended. -/
def assocSet {α : Type} (l : List (String × α)) (k : String) (v : α) :
    List (String × α) :=
  if l.any (fun e => e.1 == k) then
    l.map (fun e => if e.1 == k then (k, v) else e)
  else
    l ++ [(k, v)]

/-- First-match lookup (`obj[key]`). -/
def assocGet {α : Type} (l : List (String × α)) (k : String) : Option α :=
  (l.find? (fun e => e.1 == k)).map Prod.snd

/-! ## Geometry validation and repair (src/unnamed/part_000, lines 858-893)

`validateSingleMeshGeometry` zeroes any vertex with a NaN component, then
checks the recomputed bounding-sphere radius for NaN.  The bounding sphere
is the collaborator's (`three.js computeBoundingSphere`): bounding-box
center, then the maximum squared distance to it; the radius is its square
root. -/

/-- Squared distance of a vertex from a center point. -/
def vDistSq (cx cy cz : JSNum) (v : V3) : JSNum :=
  (((v.x.sub cx).mul (v.x.sub cx)).add
    ((v.y.sub cy).mul (v.y.sub cy))).add
    ((v.z.sub cz).mul (v.z.sub cz))

/-- `three.js` `computeBoundingSphere`, up to the final square root.  On an
empty position attribute the box stays degenerate and the center — hence
the radius — is NaN. -/
def boundingRadiusSq (geo : Geometry) : JSNum :=
  match geo with
  | [] => .nan
  | v0 :: rest =>
      let cx := ((rest.foldl (fun acc v => jmin acc v.x) v0.x).add
        (rest.foldl (fun acc v => jmax acc v.x) v0.x)).mul (jq ⟨1, 2⟩)
      let cy := ((rest.foldl (fun acc v => jmin acc v.y) v0.y).add
        (rest.foldl (fun acc v => jmax acc v.y) v0.y)).mul (jq ⟨1, 2⟩)
      let cz := ((rest.foldl (fun acc v => jmin acc v.z) v0.z).add
        (rest.foldl (fun acc v => jmax acc v.z) v0.z)).mul (jq ⟨1, 2⟩)
      (v0 :: rest).foldl (fun acc v => jmax acc (vDistSq cx cy cz v)) (jq 0)

/-- The bounding-sphere radius. -/
def boundingRadius (c : TrigCtx) (geo : Geometry) : JSNum :=
  jsqrt c (boundingRadiusSq geo)

/-- The NaN repair pass of `validateSingleMeshGeometry` (lines 865-879):
a vertex any of whose components is NaN is replaced by the origin. -/
def repairVertex (v : V3) : V3 :=
  if v.x.isNaN || v.y.isNaN || v.z.isNaN then finV3 (0, 0, 0) else v

/-- `IslandGenerator.validateSingleMeshGeometry` (lines 858-893): repair
NaN vertices in place, then report whether the recomputed bounding-sphere
radius is a number. -/
def validateSingleMeshGeometry (c : TrigCtx) (geo : Geometry) :
    Geometry × Bool :=
  let geo2 := geo.map repairVertex
  (geo2, !(boundingRadius c geo2).isNaN)

/-- The geometry finally attached to the island mesh by
`IslandGenerator.addIslandMesh` (lines 160-170): the validated/repaired
buffer, or the fallback cone `CylinderGeometry(0, size, size*0.8, 8)` when
validation fails. -/
def addIslandMeshGeometry (c : TrigCtx) (islandSize : Q) (geo : Geometry) :
    Geometry :=
  let r := validateSingleMeshGeometry c geo
  if r.2 then r.1
  else (cylinderVertices c 0 islandSize (islandSize * 0.8) 8 1).map finV3

/-- No vertex position is NaN or infinite. -/
def allFiniteB (g : Geometry) : Bool :=
  g.all (fun v => v.x.isFin && v.y.isFin && v.z.isFin)

/-! ## Claim C5 groundwork: well-formedness of values and geometries -/

/-- A JS number that is finite, with the positive-denominator encoding
invariant. -/
def JSNum.good : JSNum → Prop
  | .fin q => 0 < q.d
  | _ => False

def goodV3 (v : V3) : Prop := v.x.good ∧ v.y.good ∧ v.z.good

def goodGeom (g : Geometry) : Prop := ∀ v ∈ g, goodV3 v

/-- Every trig collaborator returns a well-formed fraction; true of any
encoding of the real-valued `Math` functions. -/
structure CtxGood (c : TrigCtx) : Prop where
  cosU : ∀ q, 0 < (c.cosU q).d
  sinU : ∀ q, 0 < (c.sinU q).d
  cosV : ∀ q, 0 < (c.cosV q).d
  sinV : ∀ q, 0 < (c.sinV q).d
  cosA : ∀ q, 0 < (c.cosA q).d
  sinA : ∀ q, 0 < (c.sinA q).d
  atanG : ∀ a b, 0 < (c.atan2 a b).d
  sqrtG : ∀ q, 0 < (c.sqrt q).d

lemma JSNum.good_fin {q : Q} (h : 0 < q.d) : (JSNum.fin q).good := h

lemma JSNum.good_elim {x : JSNum} (h : x.good) :
    ∃ q, x = JSNum.fin q ∧ 0 < q.d := by
  cases x with
  | fin q => exact ⟨q, rfl, h⟩
  | nan => exact h.elim
  | inf s => exact h.elim

lemma JSNum.good_add : ∀ {a b : JSNum}, a.good → b.good → (a.add b).good
  | .fin qa, .fin qb, ha, hb => Q.add_den_pos ha hb
  | .nan, _, ha, _ => ha.elim
  | .inf _, _, ha, _ => ha.elim
  | .fin _, .nan, _, hb => hb.elim
  | .fin _, .inf _, _, hb => hb.elim

lemma JSNum.good_neg : ∀ {a : JSNum}, a.good → a.neg.good
  | .fin _, ha => ha
  | .nan, ha => ha.elim
  | .inf _, ha => ha.elim

lemma JSNum.good_sub {a b : JSNum} (ha : a.good) (hb : b.good) :
    (a.sub b).good :=
  JSNum.good_add ha (JSNum.good_neg hb)

lemma JSNum.good_mul : ∀ {a b : JSNum}, a.good → b.good → (a.mul b).good
  | .fin qa, .fin qb, ha, hb => Q.mul_den_pos ha hb
  | .nan, _, ha, _ => ha.elim
  | .inf _, _, ha, _ => ha.elim
  | .fin _, .nan, _, hb => hb.elim
  | .fin _, .inf _, _, hb => hb.elim

lemma JSNum.good_abs : ∀ {a : JSNum}, a.good → a.abs.good
  | .fin _, ha => ha
  | .nan, ha => ha.elim
  | .inf _, ha => ha.elim

/-- Division by a finite value that is not (value-)zero stays finite. -/
lemma JSNum.good_div_fin {a : JSNum} {h : Q} (ha : a.good) (hd : 0 < h.d)
    (hz : Q.isZero h = false) : (a.div (jq h)).good := by
  obtain ⟨qa, rfl, hqa⟩ := JSNum.good_elim ha
  show ((JSNum.fin qa).div (.fin h)).good
  simp only [JSNum.div, hz]
  simp only [Bool.false_eq_true, if_false]
  exact Q.div_den_pos hqa

lemma good_jcosA (c : TrigCtx) (hc : CtxGood c) {a : JSNum} (ha : a.good) :
    (jcosA c a).good := by
  obtain ⟨q, rfl, _⟩ := JSNum.good_elim ha
  exact hc.cosA q

lemma good_jsinA (c : TrigCtx) (hc : CtxGood c) {a : JSNum} (ha : a.good) :
    (jsinA c a).good := by
  obtain ⟨q, rfl, _⟩ := JSNum.good_elim ha
  exact hc.sinA q

lemma good_jatan2 (c : TrigCtx) (hc : CtxGood c) {a b : JSNum} (ha : a.good)
    (hb : b.good) : (jatan2 c a b).good := by
  obtain ⟨qa, rfl, _⟩ := JSNum.good_elim ha
  obtain ⟨qb, rfl, _⟩ := JSNum.good_elim hb
  exact hc.atanG qa qb

/-- The value of a good JS number. -/
def JSNum.val : JSNum → ℚ
  | .fin q => q.toRat
  | _ => 0

lemma JSNum.good_sq_nonneg {a : JSNum} (ha : a.good) :
    (a.mul a).good ∧ 0 ≤ (a.mul a).val := by
  obtain ⟨q, rfl, hq⟩ := JSNum.good_elim ha
  refine ⟨Q.mul_den_pos hq hq, ?_⟩
  show 0 ≤ (q * q).toRat
  rw [Q.toRat_mul hq hq]
  exact mul_self_nonneg _

lemma JSNum.good_add_nonneg {a b : JSNum} (ha : a.good) (hb : b.good)
    (hav : 0 ≤ a.val) (hbv : 0 ≤ b.val) :
    (a.add b).good ∧ 0 ≤ (a.add b).val := by
  obtain ⟨qa, rfl, hqa⟩ := JSNum.good_elim ha
  obtain ⟨qb, rfl, hqb⟩ := JSNum.good_elim hb
  refine ⟨Q.add_den_pos hqa hqb, ?_⟩
  show 0 ≤ (qa + qb).toRat
  rw [Q.toRat_add hqa hqb]
  exact add_nonneg hav hbv

/-- The square root of a sum of two squares of good values is good (the
radicand is nonnegative, so `Math.sqrt` does not produce NaN). -/
lemma good_jsqrt_sumsq (c : TrigCtx) (hc : CtxGood c) {x z : JSNum}
    (hx : x.good) (hz : z.good) :
    (jsqrt c ((x.mul x).add (z.mul z))).good := by
  obtain ⟨hg1, hv1⟩ := JSNum.good_sq_nonneg hx
  obtain ⟨hg2, hv2⟩ := JSNum.good_sq_nonneg hz
  obtain ⟨hg, hv⟩ := JSNum.good_add_nonneg hg1 hg2 hv1 hv2
  obtain ⟨q, he, hq⟩ := JSNum.good_elim hg
  rw [he] at hv ⊢
  have hlt : Q.ltB q 0 = false := by
    rw [← Bool.not_eq_true, Q.ltB_iff hq (by decide)]
    have h0 : (0 : Q).toRat = 0 := by
      have hn : Q.n 0 = 0 := rfl
      unfold Q.toRat
      rw [hn]
      norm_num
    rw [h0]
    simpa [JSNum.val] using hv
  simp only [jsqrt, hlt]
  simp only [Bool.false_eq_true, if_false]
  exact hc.sqrtG q

/-! ### Well-formedness of the base primitives -/

lemma Q.one_den_pos : 0 < (1 : Q).d := by decide

lemma Q.negone_den_pos : 0 < (-1 : Q).d := by decide

lemma cylinderCap_den_pos (c : TrigCtx) (hc : CtxGood c)
    {height radius sign : Q} (hh : 0 < height.d) (hr : 0 < radius.d)
    (hsgn : 0 < sign.d) (rs : Nat) :
    ∀ t ∈ cylinderCap c height radius sign rs,
      0 < t.1.d ∧ 0 < t.2.1.d ∧ 0 < t.2.2.d := by
  intro t ht
  unfold cylinderCap at ht
  split at ht
  · rcases List.mem_append.mp ht with hcen | hring
    · rcases List.mem_map.mp hcen with ⟨i, _, rfl⟩
      exact ⟨Int.one_pos, Q.mul_den_pos hsgn (Q.div_den_pos hh), Int.one_pos⟩
    · rcases List.mem_map.mp hring with ⟨ix, _, rfl⟩
      exact ⟨Q.mul_den_pos hr (hc.cosU _),
        Q.mul_den_pos hsgn (Q.div_den_pos hh),
        Q.mul_den_pos hr (hc.sinU _)⟩
  · simp at ht

lemma cylinderVertices_den_pos (c : TrigCtx) (hc : CtxGood c)
    {rTop rBot height : Q} (h1 : 0 < rTop.d) (h2 : 0 < rBot.d)
    (h3 : 0 < height.d) {rs hs : Nat} (hhs : 0 < hs) :
    ∀ t ∈ cylinderVertices c rTop rBot height rs hs,
      0 < t.1.d ∧ 0 < t.2.1.d ∧ 0 < t.2.2.d := by
  intro t ht
  unfold cylinderVertices at ht
  have hhsd : (0 : Int) < (hs : Int) := by exact_mod_cast hhs
  rcases List.mem_append.mp ht with ht1 | hcap2
  · rcases List.mem_append.mp ht1 with htorso | hcap1
    · rcases List.mem_flatMap.mp htorso with ⟨iy, _, hmem⟩
      rcases List.mem_map.mp hmem with ⟨ix, _, rfl⟩
      have hv : 0 < (⟨(iy : Int), (hs : Int)⟩ : Q).d := hhsd
      have hrad : 0 < ((⟨(iy : Int), (hs : Int)⟩ : Q) * (rBot - rTop) + rTop).d :=
        Q.add_den_pos (Q.mul_den_pos hv (Q.sub_den_pos h2 h1)) h1
      refine ⟨Q.mul_den_pos hrad (hc.cosU _), ?_,
        Q.mul_den_pos hrad (hc.sinU _)⟩
      exact Q.add_den_pos (Q.mul_den_pos (Q.neg_den_pos hv) h3)
        (Q.div_den_pos h3)
    · exact cylinderCap_den_pos c hc h3 h1 Q.one_den_pos rs t hcap1
  · exact cylinderCap_den_pos c hc h3 h2 Q.negone_den_pos rs t hcap2

lemma sphereVertices_den_pos (c : TrigCtx) (hc : CtxGood c)
    {radius : Q} (hr : 0 < radius.d) {ws hs : Nat} (hhs : 0 < hs)
    (hws : 0 < ws) :
    ∀ t ∈ sphereVertices c radius ws hs,
      0 < t.1.d ∧ 0 < t.2.1.d ∧ 0 < t.2.2.d := by
  intro t ht
  unfold sphereVertices at ht
  rcases List.mem_flatMap.mp ht with ⟨iy, _, hmem⟩
  rcases List.mem_map.mp hmem with ⟨ix, _, rfl⟩
  exact ⟨Q.neg_den_pos
      (Q.mul_den_pos (Q.mul_den_pos hr (hc.cosU _)) (hc.sinV _)),
    Q.mul_den_pos hr (hc.cosV _),
    Q.mul_den_pos (Q.mul_den_pos hr (hc.sinU _)) (hc.sinV _)⟩

/-! ### Properties of the seeded random function -/

lemma randomQ_den_pos (seed : String) {a b : Q} (ha : 0 < a.d)
    (hb : 0 < b.d) : 0 < (randomQ seed a b).d := by
  unfold randomQ
  refine Q.add_den_pos ha
    (Q.mul_den_pos (Q.abs_den_pos ?_) (Q.sub_den_pos hb ha))
  show (0 : Int) < 1000
  norm_num

lemma randomQ_ge (seed : String) {a b : Q} (ha : 0 < a.d) (hb : 0 < b.d)
    (hab : a.toRat ≤ b.toRat) : a.toRat ≤ (randomQ seed a b).toRat := by
  unfold randomQ
  set v : Q :=
    ⟨((hashCode (seed ++ qToJsString a ++ qToJsString b) % 1000 : Nat) :
      Int), 1000⟩ with hv
  have hvd : (0 : Int) < v.d := by
    rw [hv]
    norm_num
  rw [Q.toRat_add ha (Q.mul_den_pos (Q.abs_den_pos hvd) (Q.sub_den_pos hb ha)),
    Q.toRat_mul (Q.abs_den_pos hvd) (Q.sub_den_pos hb ha),
    Q.toRat_abs hvd, Q.toRat_sub hb ha]
  have h0 : 0 ≤ |v.toRat| * (b.toRat - a.toRat) :=
    mul_nonneg (abs_nonneg _) (by linarith)
  linarith

/-! ### Preservation lemmas for folds and maps -/

lemma foldl_preserve {σ α : Type} (P : σ → Prop) (f : σ → α → σ)
    (l : List α) (init : σ) (hi : P init)
    (hstep : ∀ s a, a ∈ l → P s → P (f s a)) : P (l.foldl f init) := by
  induction l generalizing init with
  | nil => exact hi
  | cons a t ih =>
      exact ih _ (hstep init a (by simp) hi)
        (fun s b hb hs => hstep s b (by simp [hb]) hs)

lemma goodGeom_map_finV3 {l : List (Q × Q × Q)}
    (h : ∀ t ∈ l, 0 < t.1.d ∧ 0 < t.2.1.d ∧ 0 < t.2.2.d) :
    goodGeom (l.map finV3) := by
  intro v hv
  rcases List.mem_map.mp hv with ⟨t, ht, rfl⟩
  obtain ⟨h1, h2, h3⟩ := h t ht
  exact ⟨h1, h2, h3⟩

lemma goodGeom_mapIdx : ∀ (g : List V3) (f : Nat → V3 → V3),
    (∀ i v, goodV3 v → goodV3 (f i v)) → goodGeom g →
    goodGeom (g.mapIdx f) := by
  intro g
  induction g with
  | nil =>
      intro f hf hg v hv
      simp at hv
  | cons a t ih =>
      intro f hf hg
      rw [List.mapIdx_cons]
      intro v hv
      rcases List.mem_cons.mp hv with rfl | hv
      · exact hf 0 a (hg a (by simp))
      · exact ih (fun i => f (i + 1)) (fun i w h => hf (i + 1) w h)
          (fun w hw => hg w (by simp [hw])) v hv

lemma goodGeom_map (g : List V3) (f : V3 → V3)
    (hf : ∀ v, goodV3 v → goodV3 (f v)) (hg : goodGeom g) :
    goodGeom (g.map f) := by
  intro v hv
  rcases List.mem_map.mp hv with ⟨w, hw, rfl⟩
  exact hf w (hg w hw)

/-! ### The shape archetypes preserve well-formed finiteness -/

lemma goodV3_if {p : Prop} [Decidable p] {u w : V3}
    (hu : goodV3 u) (hw : goodV3 w) : goodV3 (if p then u else w) := by
  split
  · exact hu
  · exact hw

lemma good_jaggedStep (c : TrigCtx) (hc : CtxGood c) {size height : Q}
    (hsd : 0 < size.d) (hh : 0 < height.d) (hz : Q.isZero height = false)
    (random : Q → Q → Q)
    (hr : ∀ a b : Q, 0 < a.d → 0 < b.d → 0 < (random a b).d)
    (i : Nat) (v : V3) (hv : goodV3 v) :
    goodV3 (jaggedStep c size height random i v) := by
  obtain ⟨hvx, hvy, hvz⟩ := hv
  unfold jaggedStep
  split
  · exact ⟨hvx, hvy, hvz⟩
  split
  · exact ⟨hvx, hvy, hvz⟩
  have hHF : ((v.y.add (jq (height / 2))).div (jq height)).good :=
    JSNum.good_div_fin (JSNum.good_add hvy (Q.div_den_pos hh)) hh hz
  have hNF :
      ((((jq (random 0.8 1.2)).mul (jq size)).mul (jq 0.15)).mul
        ((v.y.add (jq (height / 2))).div (jq height))).good :=
    JSNum.good_mul
      (JSNum.good_mul
        (JSNum.good_mul (hr _ _ (by decide) (by decide)) hsd)
        (JSNum.good_fin (by decide)))
      hHF
  have hR : (jsqrt c ((v.x.mul v.x).add (v.z.mul v.z))).good :=
    good_jsqrt_sumsq c hc hvx hvz
  exact ⟨JSNum.good_mul (good_jcosA c hc (good_jatan2 c hc hvz hvx))
      (JSNum.good_add hR hNF), hvy,
    JSNum.good_mul (good_jsinA c hc (good_jatan2 c hc hvz hvx))
      (JSNum.good_add hR hNF)⟩

lemma good_volcanoStep (c : TrigCtx) (hc : CtxGood c)
    {size height craterRadius craterDepth : Q} (hsd : 0 < size.d)
    (hh : 0 < height.d) (hzh : Q.isZero height = false)
    (hcr : 0 < craterRadius.d) (hzcr : Q.isZero craterRadius = false)
    (hcd : 0 < craterDepth.d) (random : Q → Q → Q)
    (hr : ∀ a b : Q, 0 < a.d → 0 < b.d → 0 < (random a b).d)
    (v : V3) (hv : goodV3 v) :
    goodV3 (volcanoStep c size height craterRadius craterDepth random v) := by
  obtain ⟨hvx, hvy, hvz⟩ := hv
  have hDC : (jsqrt c ((v.x.mul v.x).add (v.z.mul v.z))).good :=
    good_jsqrt_sumsq c hc hvx hvz
  have hy1 : (if v.y.gtB (jq (height / 2 - 0.001)) &&
      (jsqrt c ((v.x.mul v.x).add (v.z.mul v.z))).ltB
        (jq (craterRadius * 0.9)) then
      v.y.sub ((jq craterDepth).mul
        ((jq 1).sub ((jsqrt c ((v.x.mul v.x).add (v.z.mul v.z))).div
          (jq craterRadius))))
    else v.y).good := by
    split
    · exact JSNum.good_sub hvy
        (JSNum.good_mul hcd (JSNum.good_sub (JSNum.good_fin (by decide))
          (JSNum.good_div_fin hDC hcr hzcr)))
    · exact hvy
  have hNF :
      ((((jq (random 0.9 1.1)).mul (jq size)).mul (jq 0.05)).mul
        (((if v.y.gtB (jq (height / 2 - 0.001)) &&
      (jsqrt c ((v.x.mul v.x).add (v.z.mul v.z))).ltB
        (jq (craterRadius * 0.9)) then
      v.y.sub ((jq craterDepth).mul
        ((jq 1).sub ((jsqrt c ((v.x.mul v.x).add (v.z.mul v.z))).div
          (jq craterRadius))))
    else v.y).add (jq (height / 2))).div (jq height))).good :=
    JSNum.good_mul
      (JSNum.good_mul
        (JSNum.good_mul (hr _ _ (by decide) (by decide)) hsd)
        (JSNum.good_fin (by decide)))
      (JSNum.good_div_fin (JSNum.good_add hy1 (Q.div_den_pos hh)) hh hzh)
  exact goodV3_if
    ⟨JSNum.good_mul (good_jcosA c hc (good_jatan2 c hc hvz hvx))
        (JSNum.good_add hDC hNF), hy1,
      JSNum.good_mul (good_jsinA c hc (good_jatan2 c hc hvz hvx))
        (JSNum.good_add hDC hNF)⟩
    ⟨hvx, hy1, hvz⟩

lemma Q.toRat_lit {a : Q} {n d : Int} (hn : a.n = n) (hd : a.d = d) :
    a.toRat = (n : ℚ) / (d : ℚ) := by
  unfold Q.toRat
  rw [hn, hd]

lemma Q.isZero_false_of_pos {a : Q} (hd : 0 < a.d) (hpos : 0 < a.toRat) :
    Q.isZero a = false :=
  Bool.eq_false_iff.mpr
    (fun hT => ne_of_gt hpos ((Q.isZero_iff hd).mp hT))

lemma good_createJaggedMountain (c : TrigCtx) (hc : CtxGood c) {size : Q}
    (hd : 0 < size.d) (hpos : 0 < size.toRat) (random : Q → Q → Q)
    (hr : ∀ a b : Q, 0 < a.d → 0 < b.d → 0 < (random a b).d)
    (hrge : ∀ a b : Q, 0 < a.d → 0 < b.d → a.toRat ≤ b.toRat →
      a.toRat ≤ (random a b).toRat) :
    goodGeom (createJaggedMountain c size random) := by
  have hrd : 0 < (random 0.8 1.0).d := hr _ _ (by decide) (by decide)
  have hhd : 0 < (size * random 0.8 1.0).d := Q.mul_den_pos hd hrd
  have hge : (0.8 : Q).toRat ≤ (random 0.8 1.0).toRat :=
    hrge _ _ (by decide) (by decide)
      (by rw [@Q.toRat_lit 0.8 8 10 rfl rfl,
        @Q.toRat_lit 1.0 10 10 rfl rfl]; norm_num)
  have hrpos : 0 < (random 0.8 1.0).toRat := by
    refine lt_of_lt_of_le ?_ hge
    rw [@Q.toRat_lit 0.8 8 10 rfl rfl]
    norm_num
  have hhpos : 0 < (size * random 0.8 1.0).toRat := by
    rw [Q.toRat_mul hd hrd]
    exact mul_pos hpos hrpos
  have hzh := Q.isZero_false_of_pos hhd hhpos
  simp only [createJaggedMountain]
  refine goodGeom_mapIdx _ _
    (fun i v hv => good_jaggedStep c hc hd hhd hzh random hr i v hv) ?_
  refine goodGeom_map_finV3 (cylinderVertices_den_pos c hc (by decide) hd
    hhd ?_)
  generalize (size / 4).floor = m
  omega

lemma good_createSmoothHill (c : TrigCtx) (hc : CtxGood c) {size : Q}
    (hd : 0 < size.d) (random : Q → Q → Q) :
    goodGeom (createSmoothHill c size random) := by
  simp only [createSmoothHill]
  refine goodGeom_map_finV3 (sphereVertices_den_pos c hc
    (Q.mul_den_pos hd (by decide)) ?_ ?_)
  · generalize (size / 3).floor = m
    omega
  · generalize size.floor = m
    omega

lemma good_createMesa (c : TrigCtx) (hc : CtxGood c) {size : Q}
    (hd : 0 < size.d) (random : Q → Q → Q) :
    goodGeom (createMesa c size random) := by
  simp only [createMesa]
  exact goodGeom_map_finV3 (cylinderVertices_den_pos c hc
    (Q.mul_den_pos hd (by decide)) hd (Q.mul_den_pos hd (by decide))
    Nat.one_pos)

lemma good_createVolcano (c : TrigCtx) (hc : CtxGood c) {size : Q}
    (hd : 0 < size.d) (hpos : 0 < size.toRat) (random : Q → Q → Q)
    (hr : ∀ a b : Q, 0 < a.d → 0 < b.d → 0 < (random a b).d)
    (hrge : ∀ a b : Q, 0 < a.d → 0 < b.d → a.toRat ≤ b.toRat →
      a.toRat ≤ (random a b).toRat) :
    goodGeom (createVolcano c size random) := by
  have hrd : 0 < (random 0.8 1.2).d := hr _ _ (by decide) (by decide)
  have hhd : 0 < (size * random 0.8 1.2).d := Q.mul_den_pos hd hrd
  have hge : (0.8 : Q).toRat ≤ (random 0.8 1.2).toRat :=
    hrge _ _ (by decide) (by decide)
      (by rw [@Q.toRat_lit 0.8 8 10 rfl rfl,
        @Q.toRat_lit 1.2 12 10 rfl rfl]; norm_num)
  have hhpos : 0 < (size * random 0.8 1.2).toRat := by
    rw [Q.toRat_mul hd hrd]
    refine mul_pos hpos (lt_of_lt_of_le ?_ hge)
    rw [@Q.toRat_lit 0.8 8 10 rfl rfl]
    norm_num
  have hzh := Q.isZero_false_of_pos hhd hhpos
  have hcrd : 0 < (random 0.2 0.4).d := hr _ _ (by decide) (by decide)
  have hcd : 0 < (size * random 0.2 0.4).d := Q.mul_den_pos hd hcrd
  have hcge : (0.2 : Q).toRat ≤ (random 0.2 0.4).toRat :=
    hrge _ _ (by decide) (by decide)
      (by rw [@Q.toRat_lit 0.2 2 10 rfl rfl,
        @Q.toRat_lit 0.4 4 10 rfl rfl]; norm_num)
  have hcpos : 0 < (size * random 0.2 0.4).toRat := by
    rw [Q.toRat_mul hd hcrd]
    refine mul_pos hpos (lt_of_lt_of_le ?_ hcge)
    rw [@Q.toRat_lit 0.2 2 10 rfl rfl]
    norm_num
  have hzcr := Q.isZero_false_of_pos hcd hcpos
  have hdd : 0 < ((size * random 0.8 1.2) * random 0.15 0.3).d :=
    Q.mul_den_pos hhd (hr _ _ (by decide) (by decide))
  simp only [createVolcano]
  refine goodGeom_map _ _
    (fun v hv => good_volcanoStep c hc hd hhd hzh hcd hzcr hdd random hr
      v hv) ?_
  refine goodGeom_map_finV3 (cylinderVertices_den_pos c hc hcd hd hhd ?_)
  generalize (size / 2.5).floor = m
  omega

/-! ### Validation, repair and the bounding sphere on good geometry -/

lemma Q.toRat_zero : (0 : Q).toRat = 0 := by
  rw [@Q.toRat_lit 0 0 1 rfl rfl]
  norm_num

lemma JSNum.isNaN_eq_false_of_good {a : JSNum} (h : a.good) :
    a.isNaN = false := by
  obtain ⟨q, rfl, _⟩ := JSNum.good_elim h
  rfl

lemma JSNum.isFin_eq_true_of_good {a : JSNum} (h : a.good) :
    a.isFin = true := by
  obtain ⟨q, rfl, _⟩ := JSNum.good_elim h
  rfl

lemma JSNum.good_jmin {a b : JSNum} (ha : a.good) (hb : b.good) :
    (jmin a b).good := by
  obtain ⟨qa, rfl, hqa⟩ := JSNum.good_elim ha
  obtain ⟨qb, rfl, hqb⟩ := JSNum.good_elim hb
  simp only [jmin]
  split
  · exact hqa
  · exact hqb

lemma JSNum.good_jmax {a b : JSNum} (ha : a.good) (hb : b.good) :
    (jmax a b).good := by
  obtain ⟨qa, rfl, hqa⟩ := JSNum.good_elim ha
  obtain ⟨qb, rfl, hqb⟩ := JSNum.good_elim hb
  simp only [jmax]
  split
  · exact hqb
  · exact hqa

lemma JSNum.good_jmax_nonneg {a b : JSNum} (ha : a.good) (hav : 0 ≤ a.val)
    (hb : b.good) (hbv : 0 ≤ b.val) :
    (jmax a b).good ∧ 0 ≤ (jmax a b).val := by
  obtain ⟨qa, rfl, hqa⟩ := JSNum.good_elim ha
  obtain ⟨qb, rfl, hqb⟩ := JSNum.good_elim hb
  simp only [jmax]
  split
  · exact ⟨hqb, hbv⟩
  · exact ⟨hqa, hav⟩

lemma vDistSq_good_nonneg {cx cy cz : JSNum} (hcx : cx.good)
    (hcy : cy.good) (hcz : cz.good) {v : V3} (hv : goodV3 v) :
    (vDistSq cx cy cz v).good ∧ 0 ≤ (vDistSq cx cy cz v).val := by
  obtain ⟨hvx, hvy, hvz⟩ := hv
  have h1 := JSNum.good_sq_nonneg (JSNum.good_sub hvx hcx)
  have h2 := JSNum.good_sq_nonneg (JSNum.good_sub hvy hcy)
  have h3 := JSNum.good_sq_nonneg (JSNum.good_sub hvz hcz)
  have h12 := JSNum.good_add_nonneg h1.1 h2.1 h1.2 h2.2
  exact JSNum.good_add_nonneg h12.1 h3.1 h12.2 h3.2

lemma boundingRadiusSq_good {g : Geometry} (hg : goodGeom g)
    (hne : g ≠ []) :
    (boundingRadiusSq g).good ∧ 0 ≤ (boundingRadiusSq g).val := by
  cases g with
  | nil => exact absurd rfl hne
  | cons v0 rest =>
    have hv0 : goodV3 v0 := hg v0 (by simp)
    have hrest : ∀ v ∈ rest, goodV3 v := fun v hv => hg v (by simp [hv])
    have hminx : (rest.foldl (fun acc v => jmin acc v.x) v0.x).good :=
      foldl_preserve JSNum.good _ rest v0.x hv0.1
        (fun s a ha hs => JSNum.good_jmin hs (hrest a ha).1)
    have hmaxx : (rest.foldl (fun acc v => jmax acc v.x) v0.x).good :=
      foldl_preserve JSNum.good _ rest v0.x hv0.1
        (fun s a ha hs => JSNum.good_jmax hs (hrest a ha).1)
    have hminy : (rest.foldl (fun acc v => jmin acc v.y) v0.y).good :=
      foldl_preserve JSNum.good _ rest v0.y hv0.2.1
        (fun s a ha hs => JSNum.good_jmin hs (hrest a ha).2.1)
    have hmaxy : (rest.foldl (fun acc v => jmax acc v.y) v0.y).good :=
      foldl_preserve JSNum.good _ rest v0.y hv0.2.1
        (fun s a ha hs => JSNum.good_jmax hs (hrest a ha).2.1)
    have hminz : (rest.foldl (fun acc v => jmin acc v.z) v0.z).good :=
      foldl_preserve JSNum.good _ rest v0.z hv0.2.2
        (fun s a ha hs => JSNum.good_jmin hs (hrest a ha).2.2)
    have hmaxz : (rest.foldl (fun acc v => jmax acc v.z) v0.z).good :=
      foldl_preserve JSNum.good _ rest v0.z hv0.2.2
        (fun s a ha hs => JSNum.good_jmax hs (hrest a ha).2.2)
    have hcx : (((rest.foldl (fun acc v => jmin acc v.x) v0.x).add
        (rest.foldl (fun acc v => jmax acc v.x) v0.x)).mul
          (jq ⟨1, 2⟩)).good :=
      JSNum.good_mul (JSNum.good_add hminx hmaxx)
        (JSNum.good_fin (by decide))
    have hcy : (((rest.foldl (fun acc v => jmin acc v.y) v0.y).add
        (rest.foldl (fun acc v => jmax acc v.y) v0.y)).mul
          (jq ⟨1, 2⟩)).good :=
      JSNum.good_mul (JSNum.good_add hminy hmaxy)
        (JSNum.good_fin (by decide))
    have hcz : (((rest.foldl (fun acc v => jmin acc v.z) v0.z).add
        (rest.foldl (fun acc v => jmax acc v.z) v0.z)).mul
          (jq ⟨1, 2⟩)).good :=
      JSNum.good_mul (JSNum.good_add hminz hmaxz)
        (JSNum.good_fin (by decide))
    simp only [boundingRadiusSq]
    refine foldl_preserve (fun s => s.good ∧ 0 ≤ s.val) _ (v0 :: rest)
      (jq 0) ⟨JSNum.good_fin (by decide), ?_⟩
      (fun s a ha hs => JSNum.good_jmax_nonneg hs.1 hs.2
        (vDistSq_good_nonneg hcx hcy hcz (hg a ha)).1
        (vDistSq_good_nonneg hcx hcy hcz (hg a ha)).2)
    show (0 : ℚ) ≤ (0 : Q).toRat
    rw [Q.toRat_zero]

lemma boundingRadius_good {c : TrigCtx} (hc : CtxGood c)
    (hsqrt : ∀ q : Q, 0 < q.d → 0 ≤ q.toRat → 0 ≤ (c.sqrt q).toRat)
    {g : Geometry} (hg : goodGeom g) (hne : g ≠ []) :
    ∃ r : Q, boundingRadius c g = JSNum.fin r ∧ 0 < r.d ∧ 0 ≤ r.toRat := by
  obtain ⟨hgood, hval⟩ := boundingRadiusSq_good hg hne
  obtain ⟨q, he, hq⟩ := JSNum.good_elim hgood
  rw [he] at hval
  have hval' : (0 : ℚ) ≤ q.toRat := by simpa [JSNum.val] using hval
  have hlt : Q.ltB q 0 = false := by
    rw [← Bool.not_eq_true, Q.ltB_iff hq (by decide)]
    rw [Q.toRat_zero]
    exact not_lt.mpr hval'
  unfold boundingRadius
  rw [he]
  simp only [jsqrt, hlt]
  exact ⟨c.sqrt q, by simp, hc.sqrtG q, hsqrt q hq hval'⟩

lemma repairVertex_eq_of_good {v : V3} (hv : goodV3 v) :
    repairVertex v = v := by
  obtain ⟨h1, h2, h3⟩ := hv
  simp [repairVertex, JSNum.isNaN_eq_false_of_good h1,
    JSNum.isNaN_eq_false_of_good h2, JSNum.isNaN_eq_false_of_good h3]

lemma map_repairVertex_eq : ∀ {g : Geometry}, goodGeom g →
    g.map repairVertex = g := by
  intro g
  induction g with
  | nil => intro _; rfl
  | cons a t ih =>
      intro hg
      rw [List.map_cons, repairVertex_eq_of_good (hg a (by simp)),
        ih (fun v hv => hg v (by simp [hv]))]

lemma validateSingleMeshGeometry_of_good (c : TrigCtx) (hc : CtxGood c)
    (hsqrt : ∀ q : Q, 0 < q.d → 0 ≤ q.toRat → 0 ≤ (c.sqrt q).toRat)
    {g : Geometry} (hg : goodGeom g) (hne : g ≠ []) :
    validateSingleMeshGeometry c g = (g, true) := by
  obtain ⟨r, hr, hrd, hrv⟩ := boundingRadius_good hc hsqrt hg hne
  simp only [validateSingleMeshGeometry, map_repairVertex_eq hg]
  rw [hr]
  rfl

lemma addIslandMeshGeometry_of_good (c : TrigCtx) (hc : CtxGood c)
    (hsqrt : ∀ q : Q, 0 < q.d → 0 ≤ q.toRat → 0 ≤ (c.sqrt q).toRat)
    (islandSize : Q) {g : Geometry} (hg : goodGeom g) (hne : g ≠ []) :
    addIslandMeshGeometry c islandSize g = g := by
  simp only [addIslandMeshGeometry,
    validateSingleMeshGeometry_of_good c hc hsqrt hg hne]
  rw [if_pos trivial]

lemma allFiniteB_of_good {g : Geometry} (hg : goodGeom g) :
    allFiniteB g = true := by
  unfold allFiniteB
  rw [List.all_eq_true]
  intro v hv
  obtain ⟨h1, h2, h3⟩ := hg v hv
  simp [JSNum.isFin_eq_true_of_good h1, JSNum.isFin_eq_true_of_good h2,
    JSNum.isFin_eq_true_of_good h3]

lemma cylinderVertices_length_pos (c : TrigCtx) (rTop rBot height : Q)
    (rs hs : Nat) :
    0 < (cylinderVertices c rTop rBot height rs hs).length := by
  rw [List.length_pos]
  intro hnil
  simp [cylinderVertices] at hnil
  exact absurd (hnil.1 0 (by omega) 0) (by omega)

lemma sphereVertices_length_pos (c : TrigCtx) (radius : Q)
    (ws hs : Nat) :
    0 < (sphereVertices c radius ws hs).length := by
  rw [List.length_pos]
  intro hnil
  simp [sphereVertices] at hnil
  exact absurd (hnil 0 (by omega) 0) (by omega)

/-! ## IslandGenerator: geometry caches over an explicit heap

`IslandGenerator`'s geometry cache and billboard-geometry cache store
mutable `three.js` objects; they are modelled over an explicit heap so
aliasing is observable.  A heap address stands for one `BufferGeometry`
object; `clone()` allocates a fresh address carrying the same vertex
buffer.  (The texture cache, whose eviction uses `Math.random`, is not
needed by any claim and is left unmodelled.) -/

/-- The biome table (`BIOMES`, src/unnamed/part_001). -/
def BIOMES : List (String × Int) :=
  [("Jungle", 0x228B22), ("Desert", 0xC2B280),
   ("Snow", 0xFFFFFF), ("Volcano", 0x8B0000)]

/-- The `switch (biome.name)` selecting a shape archetype
(src/unnamed/part_000, lines 440-462). -/
def shapeTypeOf (biomeName : String) : Nat :=
  if biomeName == "Forest" || biomeName == "Jungle" then 1
  else if biomeName == "Desert" then 2
  else if biomeName == "Volcano" then 3
  else if biomeName == "Snow" then 0
  else if biomeName == "Swamp" then 4
  else 1

/-- The `switch (shapeType)` dispatch (lines 474-493), including the
fallback cone. -/
def genGeometryByShape (c : TrigCtx) (shapeType : Nat) (sizeGroup : Int)
    (random : Q → Q → Q) : Geometry :=
  let sizeQ : Q := ⟨sizeGroup, 1⟩
  if shapeType = 0 then createJaggedMountain c sizeQ random
  else if shapeType = 1 then createSmoothHill c sizeQ random
  else if shapeType = 2 then createMesa c sizeQ random
  else if shapeType = 3 then createVolcano c sizeQ random
  else if shapeType = 4 then createArchipelago c sizeQ random
  else (cylinderVertices c 0 sizeQ (sizeQ * 0.8) 6 1).map finV3

lemma good_genGeometryByShape (c : TrigCtx) (hc : CtxGood c)
    (shapeType : Nat) (hst : shapeType ≠ 4) {sizeGroup : Int}
    (hsg : 0 < sizeGroup) (random : Q → Q → Q)
    (hr : ∀ a b : Q, 0 < a.d → 0 < b.d → 0 < (random a b).d)
    (hrge : ∀ a b : Q, 0 < a.d → 0 < b.d → a.toRat ≤ b.toRat →
      a.toRat ≤ (random a b).toRat) :
    goodGeom (genGeometryByShape c shapeType sizeGroup random) := by
  have hd : 0 < (⟨sizeGroup, 1⟩ : Q).d := Int.one_pos
  have hpos : 0 < (⟨sizeGroup, 1⟩ : Q).toRat := by
    show (0 : ℚ) < (sizeGroup : ℚ) / ((1 : Int) : ℚ)
    push_cast
    rw [div_one]
    exact_mod_cast hsg
  simp only [genGeometryByShape]
  split
  · exact good_createJaggedMountain c hc hd hpos random hr hrge
  split
  · exact good_createSmoothHill c hc hd random
  split
  · exact good_createMesa c hc hd random
  split
  · exact good_createVolcano c hc hd hpos random hr hrge
  exact goodGeom_map_finV3 (cylinderVertices_den_pos c hc (by decide) hd
    (Q.mul_den_pos hd (by decide)) Nat.one_pos)

lemma genGeometryByShape_ne_nil (c : TrigCtx) (shapeType : Nat)
    (hst : shapeType ≠ 4) (sizeGroup : Int) (random : Q → Q → Q) :
    genGeometryByShape c shapeType sizeGroup random ≠ [] := by
  apply List.ne_nil_of_length_pos
  simp only [genGeometryByShape]
  split
  · simp only [createJaggedMountain, List.length_mapIdx, List.length_map]
    exact cylinderVertices_length_pos c _ _ _ _ _
  split
  · simp only [createSmoothHill, List.length_map]
    exact sphereVertices_length_pos c _ _ _
  split
  · simp only [createMesa, List.length_map]
    exact cylinderVertices_length_pos c _ _ _ _ _
  split
  · simp only [createVolcano, List.length_map]
    exact cylinderVertices_length_pos c _ _ _ _ _
  simp only [List.length_map]
  exact cylinderVertices_length_pos c _ _ _ _ _

/-- C5: for every biome of the biome table, every positive size bucket and
every seed string — the full parameter space of the generator — the mesh a
landmass ends up with after `validateSingleMeshGeometry`'s repair pass and
`addIslandMesh`'s fallback substitution has no NaN and no infinite vertex
position, and its bounding-sphere radius is a finite non-negative number.
The trig collaborators are abstract, constrained only to return
well-formed finite fractions with `Math.sqrt` non-negative on non-negative
input. -/
theorem c5_no_nan_mesh (c : TrigCtx) (hc : CtxGood c)
    (hsqrt : ∀ q : Q, 0 < q.d → 0 ≤ q.toRat → 0 ≤ (c.sqrt q).toRat)
    (biomeName : String) (hb : biomeName ∈ BIOMES.map Prod.fst)
    (sizeGroup : Int) (hsg : 0 < sizeGroup) (seed : String)
    (islandSize : Q) :
    allFiniteB (addIslandMeshGeometry c islandSize
      (genGeometryByShape c (shapeTypeOf biomeName) sizeGroup
        (randomQ seed))) = true ∧
    ∃ r : Q, boundingRadius c (addIslandMeshGeometry c islandSize
      (genGeometryByShape c (shapeTypeOf biomeName) sizeGroup
        (randomQ seed))) = JSNum.fin r ∧ 0 ≤ r.toRat := by
  have hst : shapeTypeOf biomeName ≠ 4 := by
    simp [BIOMES] at hb
    rcases hb with rfl | rfl | rfl | rfl <;> decide
  have hgood : goodGeom (genGeometryByShape c (shapeTypeOf biomeName)
      sizeGroup (randomQ seed)) :=
    good_genGeometryByShape c hc _ hst hsg _
      (fun a b ha hb2 => randomQ_den_pos seed ha hb2)
      (fun a b ha hb2 hab => randomQ_ge seed ha hb2 hab)
  have hne := genGeometryByShape_ne_nil c _ hst sizeGroup (randomQ seed)
  rw [addIslandMeshGeometry_of_good c hc hsqrt islandSize hgood hne]
  obtain ⟨r, hr, hrd, hrv⟩ := boundingRadius_good hc hsqrt hgood hne
  exact ⟨allFiniteB_of_good hgood, r, hr, hrv⟩

/-- A trig context whose collaborators all return `0`: the simplest
environment satisfying the well-formedness contract. -/
def flatCtx : TrigCtx :=
  ⟨fun _ => 0, fun _ => 0, fun _ => 0, fun _ => 0, fun _ => 0, fun _ => 0,
   fun _ _ => 0, fun _ => 0, "fallback"⟩

lemma flatCtx_good : CtxGood flatCtx :=
  ⟨fun _ => Int.one_pos, fun _ => Int.one_pos, fun _ => Int.one_pos,
   fun _ => Int.one_pos, fun _ => Int.one_pos, fun _ => Int.one_pos,
   fun _ _ => Int.one_pos, fun _ => Int.one_pos⟩

/-- Witness for C5: the Snow biome, size bucket 5, the seed of landmass
`island_0_0_0`. -/
theorem c5_no_nan_mesh_witness :
    allFiniteB (addIslandMeshGeometry flatCtx 5
      (genGeometryByShape flatCtx (shapeTypeOf "Snow") 5
        (randomQ "island_0_0_0"))) = true ∧
    ∃ r : Q, boundingRadius flatCtx (addIslandMeshGeometry flatCtx 5
      (genGeometryByShape flatCtx (shapeTypeOf "Snow") 5
        (randomQ "island_0_0_0"))) = JSNum.fin r ∧ 0 ≤ r.toRat :=
  c5_no_nan_mesh flatCtx flatCtx_good
    (fun q h1 h2 => by rw [@Q.toRat_lit (flatCtx.sqrt q) 0 1 rfl rfl]; norm_num)
    "Snow" (by decide) 5 (by decide) "island_0_0_0" 5

/-- Heap of live geometry objects plus the two geometry caches. -/
structure HeapState where
  heap : List (Nat × Geometry)
  next : Nat
  geometryCache : List (String × Nat)
  billboardGeometryCache : List (String × Nat)
deriving DecidableEq, Repr

def emptyHeap : HeapState := ⟨[], 0, [], []⟩

/-- Dereference an address (all reads hit live objects in the source; a
dangling address yields an empty buffer). -/
def heapRead (s : HeapState) (a : Nat) : Geometry :=
  ((s.heap.find? (fun e => e.1 == a)).map Prod.snd).getD []

/-- Allocate a fresh geometry object. -/
def heapAlloc (s : HeapState) (g : Geometry) : Nat × HeapState :=
  (s.next, { s with heap := (s.next, g) :: s.heap, next := s.next + 1 })

/-- Overwrite the vertex buffer of an existing object (an in-place
per-instance perturbation). -/
def heapWrite (s : HeapState) (a : Nat) (g : Geometry) : HeapState :=
  { s with heap := s.heap.map (fun e => if e.1 == a then (a, g) else e) }

/-- The cache-backed part of `IslandGenerator.createProceduralIslandMesh`
(lines 419-509): derive seed and shape from the record, then either clone
the cached template or generate a fresh geometry and cache a clone of it.
Returns the address handed to the new mesh. -/
def cacheFetchClone (cacheKey : String) (g : Geometry) (s : HeapState) :
    Nat × HeapState :=
  match assocGet s.geometryCache cacheKey with
  | some addr => heapAlloc s (heapRead s addr)
  | none =>
      let (a, s1) := heapAlloc s g
      let (cl, s2) := heapAlloc s1 g
      (a, { s2 with geometryCache := assocSet s2.geometryCache cacheKey cl })

/-- The content key `biome.name_shapeType_sizeGroup` (line 466). -/
def cacheKeyOf (biomeName : String) (size : Q) : String :=
  biomeName ++ "_" ++ toString (shapeTypeOf biomeName) ++ "_" ++
    toString size.round

def createProceduralIslandMesh (c : TrigCtx) (id biomeName : String)
    (size : Q) (s : HeapState) : Nat × HeapState :=
  let seed := if id == "" then c.fallbackSeed else id
  let random := fun (mn mx : Q) => randomQ seed mn mx
  cacheFetchClone (cacheKeyOf biomeName size)
    (genGeometryByShape c (shapeTypeOf biomeName) size.round random) s

/-- `IslandGenerator.getBillboardGeometry` (lines 722-733): key by the
dimensions rounded to halves; on a miss, insert a fresh plane; return the
cached object itself — not a clone. -/
def getBillboardGeometry (width height : Q) (s : HeapState) :
    Nat × HeapState :=
  let rw : Q := ⟨(width * 2).round, 2⟩
  let rh : Q := ⟨(height * 2).round, 2⟩
  let key := qToJsString rw ++ "_" ++ qToJsString rh
  match assocGet s.billboardGeometryCache key with
  | some addr => (addr, s)
  | none =>
      let (a, s1) := heapAlloc s ((planeVertices rw rh).map finV3)
      (a, { s1 with
        billboardGeometryCache := assocSet s1.billboardGeometryCache key a })

/-- The geometry-cache portion of `IslandGenerator.clearUnusedCaches`
(lines 798-838): each store is emptied only when it exceeds its ceiling. -/
def clearUnusedCachesHeap (s : HeapState) : HeapState :=
  let s1 :=
    if s.geometryCache.length > 50 then { s with geometryCache := [] } else s
  if s1.billboardGeometryCache.length > 20 then
    { s1 with billboardGeometryCache := [] }
  else s1

/-- A session-level cache event: a landmass's terrain geometry is built, or
the orchestrator's periodic cache clearing runs. -/
inductive GenEvent
  | gen (id biomeName : String) (size : Q)
  | clear

def runGenEvent (c : TrigCtx) : GenEvent → HeapState → HeapState
  | .gen id biomeName size, s => (createProceduralIslandMesh c id biomeName size s).2
  | .clear, s => clearUnusedCachesHeap s

def runGenEvents (c : TrigCtx) (l : List GenEvent) (s : HeapState) :
    HeapState :=
  l.foldl (fun s e => runGenEvent c e s) s

/-! ## Value equality of vertex buffers -/

/-- Bit-level equality of two JS numbers (value equality for finite
numbers, NaN equal to NaN as a stored bit pattern). -/
def JSNum.valEqB : JSNum → JSNum → Bool
  | .fin a, .fin b => Q.eqB a b
  | .nan, .nan => true
  | .inf s, .inf t => s == t
  | _, _ => false

def V3.valEqB (a b : V3) : Bool :=
  JSNum.valEqB a.x b.x && JSNum.valEqB a.y b.y && JSNum.valEqB a.z b.z

/-- Bit-identical vertex arrays: same length, equal values position by
position. -/
def geomValEqB (g1 g2 : Geometry) : Bool :=
  g1.length == g2.length && (g1.zip g2).all fun p => V3.valEqB p.1 p.2

/-! ## Heap and cache access lemmas -/

lemma heapRead_alloc_self (s : HeapState) (g : Geometry) :
    heapRead (heapAlloc s g).2 (heapAlloc s g).1 = g := by
  simp [heapRead, heapAlloc, List.find?]

lemma heapRead_alloc (s : HeapState) (g : Geometry) (a : Nat) :
    heapRead (heapAlloc s g).2 a = if a = s.next then g else heapRead s a := by
  by_cases h : a = s.next
  · simp [heapRead, heapAlloc, List.find?, h]
  · have h2 : (s.next == a) = false := by
      simp
      omega
    simp [heapRead, heapAlloc, List.find?, h, h2]

lemma find?_map_write (t : List (Nat × Geometry)) (b : Nat) (g : Geometry)
    (a : Nat) (h : a ≠ b) :
    (t.map (fun e => if e.1 == b then (b, g) else e)).find?
        (fun e => e.1 == a) =
      t.find? (fun e => e.1 == a) := by
  induction t with
  | nil => rfl
  | cons e t ih =>
      by_cases he : e.1 = b
      · have h1 : (e.1 == b) = true := by simp [he]
        have h3 : ¬ e.1 = a := by omega
        rw [List.map_cons, if_pos h1,
          List.find?_cons_of_neg _ (by simp; omega),
          List.find?_cons_of_neg _ (by simp [h3])]
        exact ih
      · have h1 : ¬ ((e.1 == b) = true) := by simp [he]
        rw [List.map_cons, if_neg h1]
        cases hea : (e.1 == a) with
        | true =>
            rw [List.find?_cons_of_pos _ (by simp [hea]),
              List.find?_cons_of_pos _ (by simp [hea])]
        | false =>
            rw [List.find?_cons_of_neg _ (by simp [hea]),
              List.find?_cons_of_neg _ (by simp [hea])]
            exact ih

lemma heapRead_write_other (s : HeapState) (b : Nat) (g : Geometry) (a : Nat)
    (h : a ≠ b) : heapRead (heapWrite s b g) a = heapRead s a := by
  unfold heapRead heapWrite
  rw [find?_map_write _ _ _ _ h]

lemma find?_map_set {α : Type} (t : List (String × α)) (k : String) (v : α)
    (h : t.any (fun e => e.1 == k) = true) :
    (t.map (fun e => if e.1 == k then (k, v) else e)).find?
        (fun e => e.1 == k) = some (k, v) := by
  induction t with
  | nil => simp at h
  | cons e t ih =>
      by_cases he : e.1 = k
      · have h1 : (e.1 == k) = true := by simp [he]
        rw [List.map_cons, if_pos h1, List.find?_cons_of_pos _ (by simp)]
      · have h1 : (e.1 == k) = false := by simp [he]
        simp only [List.any_cons, h1, Bool.false_or] at h
        rw [List.map_cons, if_neg (by simp [he]),
          List.find?_cons_of_neg _ (by simp [he])]
        exact ih h

lemma find?_append_last {α : Type} (t : List (String × α)) (k : String)
    (v : α) (h : t.any (fun e => e.1 == k) = false) :
    (t ++ [(k, v)]).find? (fun e => e.1 == k) = some (k, v) := by
  induction t with
  | nil => simp [List.find?]
  | cons e t ih =>
      simp only [List.any_cons, Bool.or_eq_false_iff] at h
      rw [List.cons_append, List.find?_cons_of_neg _ (by simp [h.1])]
      exact ih h.2

lemma assocGet_set_self {α : Type} (l : List (String × α)) (k : String)
    (v : α) : assocGet (assocSet l k v) k = some v := by
  unfold assocGet assocSet
  cases h : l.any (fun e => e.1 == k) with
  | true =>
      rw [if_pos rfl, find?_map_set l k v h]
      rfl
  | false =>
      rw [if_neg (by simp), find?_append_last l k v h]
      rfl

/-! ## Claim C1: determinism of terrain-mesh generation -/

/-- A concrete instantiation of the trig collaborators, used to evaluate the
model on concrete inputs. -/
def sampleCtx : TrigCtx :=
  ⟨fun _ => 0, fun _ => 0, fun _ => 0, fun _ => 0, fun _ => 0, fun _ => 0,
   fun _ _ => 0, fun q => q, "fallback"⟩

/-- Fifty landmass generations whose content keys are pairwise distinct and
distinct from `Snow_0_5`, filling the geometry cache past its ceiling of
fifty entries. -/
def c1Fillers : List GenEvent :=
  ((List.range 13).map (fun i => GenEvent.gen "f" "Jungle" ⟨5 + i, 1⟩)) ++
  ((List.range 13).map (fun i => GenEvent.gen "f" "Desert" ⟨5 + i, 1⟩)) ++
  ((List.range 12).map (fun i => GenEvent.gen "f" "Snow" ⟨6 + i, 1⟩)) ++
  ((List.range 12).map (fun i => GenEvent.gen "f" "Volcano" ⟨5 + i, 1⟩))

/-- Session prefix: the landmass `island_0_0_1` (Snow, size 5) is generated
first, caching a `Snow_0_5` template derived from *its* id. -/
def c1s1 : HeapState :=
  runGenEvents sampleCtx [GenEvent.gen "island_0_0_1" "Snow" 5] emptyHeap

/-- First generation call for `island_0_0_0` (Snow, size 5): a cache hit on
the template seeded by `island_0_0_1`. -/
def c1call1 : Nat × HeapState :=
  createProceduralIslandMesh sampleCtx "island_0_0_0" "Snow" 5 c1s1

/-- The session continues: fifty more landmasses push the geometry cache to
51 entries, and the orchestrator's periodic cache clearing empties it. -/
def c1s2 : HeapState :=
  runGenEvents sampleCtx (c1Fillers ++ [GenEvent.clear]) c1call1.2

/-- Second generation call for the same input, later in the same session:
now a cache miss, generating from `island_0_0_0`'s own seed. -/
def c1call2 : Nat × HeapState :=
  createProceduralIslandMesh sampleCtx "island_0_0_0" "Snow" 5 c1s2

/-- C1 (counterexample): within a single session, two calls of the
terrain-mesh generation for the same fixed input (landmass id
`island_0_0_0`, biome Snow, size bucket 5) yield vertex arrays that are not
bit-identical: the first call hits a cache template that was seeded by a
*different* landmass id with the same content key, the second call (after
the cache-ceiling clearing) regenerates from the landmass's own id. -/
theorem c1_counterexample :
    geomValEqB (heapRead c1call2.2 c1call2.1)
      (heapRead c1call1.2 c1call1.1) = false := by
  decide

/-- C1 (amended): with the cache state held fixed between them, repeated
generation is deterministic — calling the terrain-mesh generation a second
time directly after the first, for the same (id, biome, size) input, yields
exactly the same vertex array, from any starting cache state and for any
trig collaborators. -/
lemma cacheFetchClone_repeat (key : String) (g : Geometry) (s : HeapState) :
    heapRead (cacheFetchClone key g (cacheFetchClone key g s).2).2
      (cacheFetchClone key g (cacheFetchClone key g s).2).1 =
    heapRead (cacheFetchClone key g s).2 (cacheFetchClone key g s).1 := by
  unfold cacheFetchClone
  cases hget : assocGet s.geometryCache key with
  | some addr =>
      have hc : (heapAlloc s (heapRead s addr)).2.geometryCache =
          s.geometryCache := rfl
      simp only [heapAlloc] at hc ⊢
      simp only [hget, heapRead_alloc_self, heapRead_alloc]
      have : heapRead (heapAlloc s (heapRead s addr)).2 addr =
          heapRead s addr := by
        rw [heapRead_alloc, ite_self]
      simp only [heapAlloc] at this
      simp only [heapRead, List.find?, heapAlloc]
      cases hna : (s.next == addr) <;> simp [hna]
  | none =>
      simp only [hget, heapAlloc, assocGet_set_self]
      have h1 : (s.next + 1 == s.next + 1) = true := by simp
      have h2 : (s.next + 1 == s.next) = false := by
        simp
      simp [heapRead, List.find?, h1, h2]

theorem c1_amended (c : TrigCtx) (id biomeName : String) (size : Q)
    (s : HeapState) :
    heapRead (createProceduralIslandMesh c id biomeName size
        (createProceduralIslandMesh c id biomeName size s).2).2
      (createProceduralIslandMesh c id biomeName size
        (createProceduralIslandMesh c id biomeName size s).2).1 =
    heapRead (createProceduralIslandMesh c id biomeName size s).2
      (createProceduralIslandMesh c id biomeName size s).1 := by
  unfold createProceduralIslandMesh
  exact cacheFetchClone_repeat _ _ s

/-! ## Claim C3: cache privacy and aliasing -/

/-- Heap well-formedness: every address referenced by the terrain-geometry
cache was allocated before `next`.  Holds in every reachable state. -/
def heapWFB (s : HeapState) : Bool :=
  s.geometryCache.all (fun e => e.2 < s.next)

lemma assocGet_lt_next {s : HeapState} {k : String} {v : Nat}
    (hwf : heapWFB s = true) (h : assocGet s.geometryCache k = some v) :
    v < s.next := by
  unfold assocGet at h
  cases hf : s.geometryCache.find? (fun e => e.1 == k) with
  | none => rw [hf] at h; simp at h
  | some e =>
      rw [hf] at h
      have hv : e.2 = v := by simpa using h
      have hmem := List.mem_of_find?_eq_some hf
      have hlt := (List.all_eq_true.mp hwf) e hmem
      simp only [decide_eq_true_eq] at hlt
      omega

/-- First billboard-geometry request for a 6 × 4 billboard, from the empty
cache. -/
def c3bb1 : Nat × HeapState := getBillboardGeometry 6 4 emptyHeap

/-- Second billboard-geometry request with the same rounded dimensions. -/
def c3bb2 : Nat × HeapState := getBillboardGeometry 6 4 c3bb1.2

/-- C3 (counterexample): not every cache fetch hands callers a private
clone — `getBillboardGeometry` returns the cached geometry object itself,
so two requests with the same rounded-dimension key receive the *same*
object, which is also exactly the object the cache retains: the buffers are
aliased, not independent. -/
theorem c3_counterexample :
    c3bb2.1 = c3bb1.1 ∧
    assocGet c3bb2.2.billboardGeometryCache "6_4" = some c3bb2.1 := by
  refine ⟨by decide, by decide⟩

lemma cacheFetchClone_private (key : String) (g : Geometry) (s : HeapState)
    (hwf : heapWFB s = true) :
    (cacheFetchClone key g s).1 ≠
      (cacheFetchClone key g (cacheFetchClone key g s).2).1 ∧
    (∀ caddr,
      assocGet (cacheFetchClone key g (cacheFetchClone key g s).2).2.geometryCache
          key = some caddr →
      caddr ≠ (cacheFetchClone key g s).1 ∧
      caddr ≠ (cacheFetchClone key g (cacheFetchClone key g s).2).1) ∧
    (∀ w : Geometry, ∀ caddr,
      assocGet (cacheFetchClone key g (cacheFetchClone key g s).2).2.geometryCache
          key = some caddr →
      heapRead
          (heapWrite (cacheFetchClone key g (cacheFetchClone key g s).2).2
            (cacheFetchClone key g s).1 w)
          (cacheFetchClone key g (cacheFetchClone key g s).2).1 =
        heapRead (cacheFetchClone key g (cacheFetchClone key g s).2).2
          (cacheFetchClone key g (cacheFetchClone key g s).2).1 ∧
      heapRead
          (heapWrite (cacheFetchClone key g (cacheFetchClone key g s).2).2
            (cacheFetchClone key g s).1 w) caddr =
        heapRead (cacheFetchClone key g (cacheFetchClone key g s).2).2
          caddr) := by
  unfold cacheFetchClone
  cases hget : assocGet s.geometryCache key with
  | some addr =>
      have haddr : addr < s.next := assocGet_lt_next hwf hget
      simp only [heapAlloc, hget]
      refine ⟨by omega, ?_, ?_⟩
      · intro caddr hcaddr
        have he : addr = caddr := by simpa using hcaddr
        constructor <;> omega
      · intro w caddr hcaddr
        have he : addr = caddr := by simpa using hcaddr
        constructor
        · exact heapRead_write_other _ _ _ _ (by omega)
        · exact heapRead_write_other _ _ _ _ (by omega)
  | none =>
      simp only [hget, heapAlloc, assocGet_set_self]
      refine ⟨by omega, ?_, ?_⟩
      · intro caddr hcaddr
        have he : s.next + 1 = caddr := by simpa using hcaddr
        constructor <;> omega
      · intro w caddr hcaddr
        have he : s.next + 1 = caddr := by simpa using hcaddr
        constructor
        · exact heapRead_write_other _ _ _ _ (by omega)
        · exact heapRead_write_other _ _ _ _ (by omega)

/-- C3 (amended): for the *terrain* geometry cache the claim holds — from
any well-formed heap, two successive terrain-geometry requests with the same
(biome, archetype, size-bucket) content key return two distinct objects,
both distinct from the object the cache retains, and perturbing the first
caller's buffer in place changes neither the second caller's buffer nor the
cached template.  (The billboard cache instead hands out the shared
template itself, per `c3_counterexample`.) -/
theorem c3_amended (c : TrigCtx) (id biomeName : String) (size : Q)
    (s : HeapState) (hwf : heapWFB s = true) :
    (createProceduralIslandMesh c id biomeName size s).1 ≠
      (createProceduralIslandMesh c id biomeName size
        (createProceduralIslandMesh c id biomeName size s).2).1 ∧
    (∀ caddr,
      assocGet (createProceduralIslandMesh c id biomeName size
          (createProceduralIslandMesh c id biomeName size s).2).2.geometryCache
          (cacheKeyOf biomeName size) = some caddr →
      caddr ≠ (createProceduralIslandMesh c id biomeName size s).1 ∧
      caddr ≠ (createProceduralIslandMesh c id biomeName size
        (createProceduralIslandMesh c id biomeName size s).2).1) ∧
    (∀ w : Geometry, ∀ caddr,
      assocGet (createProceduralIslandMesh c id biomeName size
          (createProceduralIslandMesh c id biomeName size s).2).2.geometryCache
          (cacheKeyOf biomeName size) = some caddr →
      heapRead
          (heapWrite (createProceduralIslandMesh c id biomeName size
              (createProceduralIslandMesh c id biomeName size s).2).2
            (createProceduralIslandMesh c id biomeName size s).1 w)
          (createProceduralIslandMesh c id biomeName size
            (createProceduralIslandMesh c id biomeName size s).2).1 =
        heapRead (createProceduralIslandMesh c id biomeName size
            (createProceduralIslandMesh c id biomeName size s).2).2
          (createProceduralIslandMesh c id biomeName size
            (createProceduralIslandMesh c id biomeName size s).2).1 ∧
      heapRead
          (heapWrite (createProceduralIslandMesh c id biomeName size
              (createProceduralIslandMesh c id biomeName size s).2).2
            (createProceduralIslandMesh c id biomeName size s).1 w) caddr =
        heapRead (createProceduralIslandMesh c id biomeName size
            (createProceduralIslandMesh c id biomeName size s).2).2 caddr) := by
  unfold createProceduralIslandMesh
  exact cacheFetchClone_private _ _ s hwf

/-- C3 witness: the amended theorem applied at the empty heap for a concrete
landmass (Snow, size 5). -/
theorem c3_amended_witness :
    heapWFB emptyHeap = true ∧
    (createProceduralIslandMesh sampleCtx "island_0_0_0" "Snow" 5
        emptyHeap).1 ≠
      (createProceduralIslandMesh sampleCtx "island_0_0_0" "Snow" 5
        (createProceduralIslandMesh sampleCtx "island_0_0_0" "Snow" 5
          emptyHeap).2).1 :=
  ⟨by decide,
    (c3_amended sampleCtx "island_0_0_0" "Snow" 5 emptyHeap (by decide)).1⟩

/-! ## DataManager: records, persistence (claim C4)

`DataManager` (src/unnamed/part_000, lines 1783-1845) holds the landmass
records and the generated-region set and serializes both to two storage
keys.  Runtime object handles (three.js objects, DOM elements) are modelled
as opaque `Nat` tokens. -/

/-- The `outdoor` advertisement decoration attached to a landmass record.
`billboard` is the runtime handle to the billboard mesh that
`IslandGenerator.addOutdoorToIsland` stores into the record
(src/unnamed/part_000, line 275). -/
structure Outdoor where
  image : String
  url : String
  active : Bool
  adRank : Int
  lastInteractionTime : Option Int
  billboard : Option Nat
deriving DecidableEq, Repr

/-- A position; `y` is sea level. -/
structure Pos where
  x : Q
  y : Q
  z : Q
deriving DecidableEq, Repr

/-- A landmass record as held in `DataManager.islandData`.  `mesh` and
`label` are the transient runtime handles (scene group, DOM label). -/
structure IslandData where
  id : String
  pos : Pos
  biome : String
  size : Q
  name : Option String
  chunk : String
  outdoor : Option Outdoor
  mesh : Option Nat
  label : Option Nat
deriving DecidableEq, Repr

/-- The shape of one serialized record: `const { mesh, label, ...rest } =
island` drops exactly the top-level `mesh` and `label` fields and keeps
every other field — including the whole `outdoor` object. -/
structure SavedIsland where
  id : String
  pos : Pos
  biome : String
  size : Q
  name : Option String
  chunk : String
  outdoor : Option Outdoor
deriving DecidableEq, Repr

/-- `DataManager`'s in-memory state. -/
structure DMState where
  islandData : List (String × IslandData)
  generatedChunks : List String
deriving DecidableEq, Repr

/-- The durable key-value storage (`localStorage`) under the two well-known
keys; `none` models an absent key. -/
structure Storage where
  islandDataEntry : Option (List SavedIsland)
  generatedChunksEntry : Option (List String)
deriving DecidableEq, Repr

/-- The `...rest` of the destructuring in `saveData`. -/
def stripTransient (r : IslandData) : SavedIsland :=
  { id := r.id, pos := r.pos, biome := r.biome, size := r.size,
    name := r.name, chunk := r.chunk, outdoor := r.outdoor }

/-- A loaded record: parsed back from storage, so the dropped `mesh` and
`label` fields are absent (`undefined`). -/
def unstrip (r : SavedIsland) : IslandData :=
  { id := r.id, pos := r.pos, biome := r.biome, size := r.size,
    name := r.name, chunk := r.chunk, outdoor := r.outdoor,
    mesh := none, label := none }

/-- `DataManager.saveData` (lines 1818-1830): map records through the
destructuring and store both collections. -/
def saveData (s : DMState) : Storage :=
  { islandDataEntry := some ((s.islandData.map Prod.snd).map stripTransient),
    generatedChunksEntry := some s.generatedChunks }

/-- `DataManager.loadData` (lines 1791-1816) on a fresh instance: rebuild the
id-keyed map with `reduce`, rebuild the generated set; an absent key leaves
the empty collection. -/
def loadData (st : Storage) : DMState :=
  { islandData :=
      match st.islandDataEntry with
      | none => []
      | some l => l.foldl (fun acc r => assocSet acc r.id (unstrip r)) []
    generatedChunks := st.generatedChunksEntry.getD [] }

/-- A store state in which one ad landmass has its billboard handle attached,
as `IslandGenerator.addOutdoorToIsland` does when the landmass is
materialized; handle `7` stands for the billboard scene object. -/
def c4FailingState : DMState :=
  { islandData :=
      [("ad_island_0_0_2_rank10",
        { id := "ad_island_0_0_2_rank10",
          pos := { x := 37 / 2, y := 0, z := 81 },
          biome := "Desert", size := 17 / 2, name := some "Ilha",
          chunk := "0_0",
          outdoor := some
            { image := "https://picsum.photos/seed/3/300/200",
              url := "https://example.com/ad/3_tier_Premium Plus",
              active := true, adRank := 10,
              lastInteractionTime := none,
              billboard := some 7 },
          mesh := some 3, label := some 4 })],
    generatedChunks := ["0_0"] }

/-- C4 (code bug, evaluation): `saveData` strips only the top-level `mesh`
and `label` handles.  The `outdoor.billboard` handle — a visual object
reference — survives into the serialized record and into the reloaded state,
so the serialized form does not exclude every transient handle field.  (In a
browser, `JSON.stringify` on the attached billboard's cyclic scene graph
throws, aborting the save; the model records the field simply being kept.)
The semantic fields (id, position, biome, size, name) and the
generated-region set themselves do round-trip. -/
theorem c4_code_bug_eval :
    ((saveData c4FailingState).islandDataEntry.getD []).map
        (fun r => r.outdoor.map Outdoor.billboard) = [some (some 7)] ∧
    (loadData (saveData c4FailingState)).generatedChunks =
      c4FailingState.generatedChunks ∧
    (loadData (saveData c4FailingState)).islandData =
      [("ad_island_0_0_2_rank10",
        { id := "ad_island_0_0_2_rank10",
          pos := { x := 37 / 2, y := 0, z := 81 },
          biome := "Desert", size := 17 / 2, name := some "Ilha",
          chunk := "0_0",
          outdoor := some
            { image := "https://picsum.photos/seed/3/300/200",
              url := "https://example.com/ad/3_tier_Premium Plus",
              active := true, adRank := 10,
              lastInteractionTime := none,
              billboard := some 7 },
          mesh := none, label := none })] := by
  refine ⟨by decide, by decide, by decide⟩

/-- C9 (counterexample): the claim states that the string hash used to derive
seeded randomness equals the polynomial rolling hash of its *whole* input, so
that the result depends on every character.  `ChunkManager.simpleHash` only
hashes the first 10 characters: on the 11-character input "0123456789A" it
disagrees with the whole-input polynomial hash, and it cannot distinguish
"0123456789A" from "0123456789B" even though the whole-input hash does. -/
theorem c9_counterexample :
    simpleHash "0123456789A" ≠ specPolyHash "0123456789A" ∧
    simpleHash "0123456789A" = simpleHash "0123456789B" ∧
    specPolyHash "0123456789A" ≠ specPolyHash "0123456789B" := by
  refine ⟨by decide, by decide, by decide⟩

/-- C9 (amended): `IslandGenerator.hashCode` equals the spec's polynomial
rolling hash (`hash*31 + charCode`, wrapped to 32 bits, magnitude taken) of
its whole input; `ChunkManager.simpleHash` equals that polynomial hash of
only the first 10 characters of its input, so for longer strings its result
is independent of every later character. -/
theorem c9_amended :
    (∀ s : String, hashCode s = specPolyHash s) ∧
    (∀ s : String, simpleHash s = specPolyHash (String.mk (s.data.take 10))) := by
  constructor
  · intro s
    unfold hashCode specPolyHash
    rw [foldl_hashStep_eq_poly]
  · intro s
    unfold simpleHash specPolyHash charCodes
    rw [List.map_take, foldl_hashStep_eq_poly]

/-! ## Decimal chunk keys and `parseInt`

`ChunkManager` stores chunk keys as the template literal `x_z` and
reparses them with `split('_')` and `parseInt`, so decimal printing and
parsing are modelled down to the digits.  JavaScript prints an integral
number in plain decimal, which is exactly Lean's `toString` on `Int`. -/

def digitVal (c : Char) : Nat := c.toNat - 48

/-- Value of a most-significant-first decimal digit string. -/
def natOfDigitChars (l : List Char) : Nat :=
  l.foldl (fun a c => 10 * a + digitVal c) 0

lemma natOfDigitChars_append (l : List Char) (c : Char) :
    natOfDigitChars (l ++ [c]) = 10 * natOfDigitChars l + digitVal c := by
  unfold natOfDigitChars
  rw [List.foldl_append]
  rfl

lemma digitVal_digitChar {m : Nat} (h : m < 10) :
    digitVal (Nat.digitChar m) = m := by
  interval_cases m <;> rfl

lemma digitChar_range {m : Nat} (h : m < 10) :
    48 ≤ (Nat.digitChar m).toNat ∧ (Nat.digitChar m).toNat ≤ 57 := by
  interval_cases m <;> decide

lemma toDigitsCore_append (fuel : Nat) : ∀ (n : Nat) (ds : List Char),
    Nat.toDigitsCore 10 fuel n ds = Nat.toDigitsCore 10 fuel n [] ++ ds := by
  induction fuel with
  | zero => intro n ds; rfl
  | succ f ih =>
      intro n ds
      simp only [Nat.toDigitsCore]
      split
      · rfl
      · rw [ih (n / 10) (Nat.digitChar (n % 10) :: ds),
          ih (n / 10) [Nat.digitChar (n % 10)], List.append_assoc]
        rfl

lemma toDigitsCore_val : ∀ (fuel n : Nat), n < 10 ^ fuel →
    natOfDigitChars (Nat.toDigitsCore 10 fuel n []) = n ∧
    ∀ c ∈ Nat.toDigitsCore 10 fuel n [], 48 ≤ c.toNat ∧ c.toNat ≤ 57 := by
  intro fuel
  induction fuel with
  | zero =>
      intro n hn
      have hn0 : n = 0 := by simpa using hn
      subst hn0
      refine ⟨rfl, ?_⟩
      intro c hc
      simp [Nat.toDigitsCore] at hc
  | succ f ih =>
      intro n hn
      have hmod : n % 10 < 10 := Nat.mod_lt n (by norm_num)
      simp only [Nat.toDigitsCore]
      split
      · next h0 =>
          have hn10 : n < 10 := by omega
          have hmn : n % 10 = n := Nat.mod_eq_of_lt hn10
          refine ⟨?_, ?_⟩
          · show natOfDigitChars [Nat.digitChar (n % 10)] = n
            show 10 * 0 + digitVal (Nat.digitChar (n % 10)) = n
            rw [hmn, digitVal_digitChar hn10]
            omega
          · intro c hc
            have hceq : c = Nat.digitChar (n % 10) := by simpa using hc
            subst hceq
            exact digitChar_range hmod
      · next h0 =>
          rw [toDigitsCore_append]
          have hdiv : n / 10 < 10 ^ f := by
            rw [Nat.div_lt_iff_lt_mul (by norm_num)]
            calc n < 10 ^ (f + 1) := hn
            _ = 10 ^ f * 10 := by rw [pow_succ]
          obtain ⟨ihv, ihd⟩ := ih (n / 10) hdiv
          refine ⟨?_, ?_⟩
          · rw [natOfDigitChars_append, ihv, digitVal_digitChar hmod]
            omega
          · intro c hc
            rcases List.mem_append.mp hc with h | h
            · exact ihd c h
            · have hceq : c = Nat.digitChar (n % 10) := by simpa using h
              subst hceq
              exact digitChar_range hmod

lemma natOfDigitChars_toDigits (n : Nat) :
    natOfDigitChars (Nat.toDigits 10 n) = n ∧
    ∀ c ∈ Nat.toDigits 10 n, 48 ≤ c.toNat ∧ c.toNat ≤ 57 := by
  have h : n < 10 ^ (n + 1) :=
    lt_of_lt_of_le (Nat.lt_pow_self (by norm_num) n)
      (Nat.pow_le_pow_right (by norm_num) (by omega))
  exact toDigitsCore_val (n + 1) n h

lemma toDigits_ne_nil (n : Nat) : Nat.toDigits 10 n ≠ [] := by
  unfold Nat.toDigits
  simp only [Nat.toDigitsCore]
  split
  · exact List.cons_ne_nil _ _
  · rw [toDigitsCore_append]
    intro h
    rcases List.append_eq_nil.mp h with ⟨_, h2⟩
    exact List.cons_ne_nil _ _ h2

/-- JS `parseInt` restricted to canonical `-?digits` inputs (the only form
the pipeline ever feeds it). -/
def parseIntChars (l : List Char) : Int :=
  if l.head? = some '-' then -(natOfDigitChars l.tail : Int)
  else (natOfDigitChars l : Int)

/-- JS `String.prototype.split(sep)` on character lists. -/
def splitOnCharL (sep : Char) : List Char → List (List Char)
  | [] => [[]]
  | c :: rest =>
      if c = sep then [] :: splitOnCharL sep rest
      else
        match splitOnCharL sep rest with
        | [] => [[c]]
        | h :: t => (c :: h) :: t

lemma splitOnCharL_not_mem {sep : Char} : ∀ {l : List Char}, sep ∉ l →
    splitOnCharL sep l = [l] := by
  intro l
  induction l with
  | nil => intro _; rfl
  | cons c rest ih =>
      intro h
      have hc : ¬c = sep := fun he => h (by simp [he])
      have hr : sep ∉ rest := fun hm => h (by simp [hm])
      simp only [splitOnCharL]
      rw [if_neg hc, ih hr]

lemma splitOnCharL_append {sep : Char} : ∀ (a b : List Char), sep ∉ a →
    splitOnCharL sep (a ++ sep :: b) = a :: splitOnCharL sep b := by
  intro a
  induction a with
  | nil =>
      intro b _
      show splitOnCharL sep (sep :: b) = [] :: splitOnCharL sep b
      simp [splitOnCharL]
  | cons c a' ih =>
      intro b h
      have hc : ¬c = sep := fun he => h (by simp [he])
      have ha' : sep ∉ a' := fun hm => h (by simp [hm])
      simp only [List.cons_append, splitOnCharL, List.append_eq]
      rw [if_neg hc, ih b ha']

/-- The chunk key template literal `${chunkX}_${chunkZ}`
(src/ship-game/src/ChunkManager.ts, line 43). -/
def chunkKey (x z : Int) : String := toString x ++ "_" ++ toString z

/-- The key parse of `processNextPendingChunk` (lines 188-190):
`split('_')` and `parseInt` on the first two parts. -/
def parseChunkKey (s : String) : Int × Int :=
  match splitOnCharL '_' s.data with
  | xs :: zs :: _ => (parseIntChars xs, parseIntChars zs)
  | _ => (0, 0)

lemma toString_int_digits (x : Int) :
    ∀ c ∈ (toString x).data, c = '-' ∨ (48 ≤ c.toNat ∧ c.toNat ≤ 57) := by
  cases x with
  | ofNat m =>
      intro c hc
      exact Or.inr ((natOfDigitChars_toDigits m).2 c hc)
  | negSucc m =>
      intro c hc
      rcases List.mem_cons.mp hc with h | h
      · exact Or.inl h
      · exact Or.inr ((natOfDigitChars_toDigits (m + 1)).2 c h)

lemma toString_int_no_underscore (x : Int) : '_' ∉ (toString x).data := by
  intro h
  rcases toString_int_digits x '_' h with h1 | h1
  · exact absurd h1 (by decide)
  · exact absurd h1.2 (by decide)

lemma parseIntChars_toString (x : Int) :
    parseIntChars (toString x).data = x := by
  cases x with
  | ofNat m =>
      show parseIntChars (Nat.toDigits 10 m) = Int.ofNat m
      cases hE : Nat.toDigits 10 m with
      | nil => exact absurd hE (toDigits_ne_nil m)
      | cons c t =>
          have hcd : 48 ≤ c.toNat ∧ c.toNat ≤ 57 :=
            (natOfDigitChars_toDigits m).2 c (by rw [hE]; simp)
          have hne : ¬(c :: t).head? = some '-' := by
            simp only [List.head?]
            intro hcon
            have : c = '-' := by simpa using hcon
            subst this
            exact absurd hcd.1 (by decide)
          unfold parseIntChars
          rw [if_neg hne, ← hE, (natOfDigitChars_toDigits m).1]
          rfl
  | negSucc m =>
      show parseIntChars ('-' :: Nat.toDigits 10 (m + 1)) = Int.negSucc m
      unfold parseIntChars
      have hp : ('-' :: Nat.toDigits 10 (m + 1)).head? = some '-' := rfl
      rw [if_pos hp]
      show -((natOfDigitChars (Nat.toDigits 10 (m + 1)) : Nat) : Int) = _
      rw [(natOfDigitChars_toDigits (m + 1)).1]
      rfl

lemma parseChunkKey_chunkKey (x z : Int) :
    parseChunkKey (chunkKey x z) = (x, z) := by
  unfold parseChunkKey chunkKey
  rw [show (toString x ++ "_" ++ toString z).data =
      ((toString x).data ++ ['_']) ++ (toString z).data from rfl,
    List.append_assoc,
    show ['_'] ++ (toString z).data = '_' :: (toString z).data from rfl,
    splitOnCharL_append _ _ (toString_int_no_underscore x),
    splitOnCharL_not_mem (toString_int_no_underscore z)]
  show (parseIntChars (toString x).data, parseIntChars (toString z).data)
    = (x, z)
  rw [parseIntChars_toString, parseIntChars_toString]

/-! ## ChunkManager: the chunk pipeline state machine

State of a `ChunkManager` together with the collaborators it drives: the
scene (observed through the mesh ids it holds), `DataManager`'s records
and generated set, and the pending `setTimeout` callback of
`processNextPendingChunk` (`scheduled`).  Placeholder and island scene
objects are identified by their map keys / island ids; `Math.random` draws
(placeholder counts) enter as an oracle argument, and the occasional
`saveData` call touches only storage, which is outside this state. -/

/-- `AD_RANK_TIERS` (src/unnamed/part_001): rank, size boost, tier name. -/
def AD_RANK_TIERS : List (Int × Q × String) :=
  [(10, 1.7, "Premium Plus"), (8, 1.6, "Premium"), (6, 1.5, "Plus"),
   (4, 1.4, "Standard"), (2, 1.3, "Basic")]

structure CMState where
  loadedChunks : List String
  pendingChunks : List String
  isGeneratingChunk : Bool
  /-- Keys of the `lowPolyIslands` placeholder map. -/
  lowPolyIslands : List String
  /-- Placeholder objects currently in the scene (by their map key). -/
  scenePlaceholders : List String
  /-- Island group objects currently in the scene (by island id). -/
  sceneIslands : List String
  islandData : List (String × IslandData)
  generatedChunks : List String
  chunkUpdateCounter : Nat
  /-- The deferred generation callback, if one is scheduled. -/
  scheduled : List (Int × Int × Bool)
deriving DecidableEq, Repr

/-- The placeholder id template `placeholder_${chunkKey}_${i}` (line 153). -/
def phId (ck : String) (i : Nat) : String :=
  "placeholder_" ++ ck ++ "_" ++ toString i

/-- JS `String.prototype.startsWith`. -/
def startsWithB (s pre : String) : Bool := pre.data.isPrefixOf s.data

/-- `ChunkManager.removePlaceholdersForChunk` (lines 356-364): delete every
placeholder whose id starts with `placeholder_${chunkKey}` from the scene
and the map. -/
def removePlaceholdersForChunk (ck : String) (s : CMState) : CMState :=
  { s with
    lowPolyIslands := s.lowPolyIslands.filter
      (fun id0 => !(startsWithB id0 ("placeholder_" ++ ck))),
    scenePlaceholders := s.scenePlaceholders.filter
      (fun id0 => !(startsWithB id0 ("placeholder_" ++ ck))) }

/-- `ChunkManager.createPlaceholdersForChunk` (lines 139-168).  `rng` is
the oracle for `Math.floor(Math.random() * 2)`; the placeholder's
position, biome and size decorate the opaque scene object and are not
otherwise observed. -/
def createPlaceholdersForChunk (ck : String) (rng : Nat) (s : CMState) :
    CMState :=
  (List.range (min 3 (1 + rng))).foldl
    (fun st i =>
      let pid := phId ck i
      if st.lowPolyIslands.contains pid then st
      else { st with
             scenePlaceholders := st.scenePlaceholders ++ [pid],
             lowPolyIslands := st.lowPolyIslands ++ [pid] }) s

/-- `IslandGenerator.addIslandMesh` as it affects the scene and the record
store: a fresh island group enters the scene and the record's `mesh`
handle is set (an unknown biome aborts).  Label creation is skipped for
the unnamed records this pipeline creates. -/
def addIslandMeshCM (r : IslandData) (s : CMState) : CMState :=
  if BIOMES.any (fun b => b.1 == r.biome) then
    { s with sceneIslands := s.sceneIslands ++ [r.id],
             islandData := assocSet s.islandData r.id { r with mesh := some 1 } }
  else s

/-- `IslandGenerator.removeIslandMesh`: if the record holds a mesh handle,
remove that group from the scene and clear the handle. -/
def removeIslandMeshCM (r : IslandData) (s : CMState) : CMState :=
  if r.mesh.isSome then
    { s with sceneIslands := s.sceneIslands.erase r.id,
             islandData := assocSet s.islandData r.id { r with mesh := none } }
  else s

/-- `ChunkManager.loadChunk` (lines 369-376). -/
def loadChunk (key : String) (s : CMState) : CMState :=
  if s.loadedChunks.contains key then s
  else
    let s1 := { s with loadedChunks := s.loadedChunks ++ [key] }
    ((s1.islandData.map Prod.snd).filter (fun r => r.chunk == key)).foldl
      (fun st r => addIslandMeshCM r st) s1

/-- `ChunkManager.unloadChunk` (lines 381-388). -/
def unloadChunk (key : String) (s : CMState) : CMState :=
  if !(s.loadedChunks.contains key) then s
  else
    let s1 := { s with loadedChunks := s.loadedChunks.erase key }
    ((s1.islandData.map Prod.snd).filter (fun r => r.chunk == key)).foldl
      (fun st r => removeIslandMeshCM r st) s1

/-- The regular island id template `island_${x}_${z}_${i}` (line 328). -/
def islandId (cx cz : Int) (i : Nat) : String :=
  "island_" ++ toString cx ++ "_" ++ toString cz ++ "_" ++ toString i

/-- The ad island id template `ad_island_${x}_${z}_${i}_rank${rank}`
(line 303). -/
def adIslandId (cx cz : Int) (i : Nat) (rank : Int) : String :=
  "ad_island_" ++ toString cx ++ "_" ++ toString cz ++ "_" ++ toString i ++
    "_rank" ++ toString rank

/-- One island of `ChunkManager.generateChunk`'s loop (lines 247-339).
The accumulator is `(islandData, adIslandPositions, adIslandsCreated)`. -/
def generateChunkStep (key : String) (cx cz : Int)
    (f : Q → Q → String → Q) (isStartingArea : Bool)
    (acc : List (String × IslandData) × List (Q × Q) × Nat) (i : Nat) :
    List (String × IslandData) × List (Q × Q) × Nat :=
  let posX : Q := ⟨cx * 100, 1⟩ + f 0 100 ("posX_" ++ toString i)
  let posZ : Q := ⟨cz * 100, 1⟩ + f 0 100 ("posZ_" ++ toString i)
  let size0 := f 5 10 ("size_" ++ toString i)
  let biomeIndex := (f 0 4 ("biome_" ++ toString i)).floor
  let biome0 := (BIOMES.getD biomeIndex.toNat ("", 0)).1
  -- `(CHUNK_SIZE/3)**2 = 10000/9`; the distance loop breaks on a close hit
  let canBeAd := decide (acc.2.2 < 1) &&
    !(acc.2.1.any (fun p =>
      Q.ltB ((posX - p.1) * (posX - p.1) + (posZ - p.2) * (posZ - p.2))
        ⟨10000, 9⟩))
  let adChance : Q := if isStartingArea then 0.15 * 2 else 0.15
  let adRandom := f 0 1 ("adRoll_" ++ toString i)
  if canBeAd && Q.ltB adRandom adChance then
    let adTierIndex : Int :=
      if isStartingArea then
        min 4 ((f 0 5 ("adTier_" ++ toString i) * 0.7 + 1).floor)
      else (f 0 5 ("adTier_" ++ toString i)).floor
    let adTier := AD_RANK_TIERS.getD adTierIndex.toNat (2, 1.3, "Basic")
    let size := size0 * adTier.2.1
    let biome := if Q.ltB (f 0 1 ("adBiomeType_" ++ toString i)) 0.5
      then "Desert" else "Volcano"
    let adIndex : Int := 1 + min 5 ((f 0 6 ("adImage_" ++ toString i)).floor)
    let aid := adIslandId cx cz i adTier.1
    (assocSet acc.1 aid
      { id := aid, pos := { x := posX, y := 0, z := posZ }, biome := biome,
        size := size, name := none, chunk := key,
        outdoor := some
          { image := "https://picsum.photos/seed/" ++ toString adIndex ++
              "/300/200",
            url := "https://example.com/ad/" ++ toString adIndex ++
              "_tier_" ++ adTier.2.2,
            active := true, adRank := adTier.1,
            lastInteractionTime := none, billboard := none },
        mesh := none, label := none },
     acc.2.1 ++ [(posX, posZ)], acc.2.2 + 1)
  else
    let iid := islandId cx cz i
    (assocSet acc.1 iid
      { id := iid, pos := { x := posX, y := 0, z := posZ }, biome := biome0,
        size := size0, name := none, chunk := key, outdoor := none,
        mesh := none, label := none },
     acc.2.1, acc.2.2)

/-- `ChunkManager.generateChunk` (lines 224-351).  `isStartingArea` is
`Math.sqrt(x²+z²) ≤ 2`, i.e. `x²+z² ≤ 4`; the low-detail island bounds
`max(1, 3-1)` and `max(2, 6-2)` are folded.  The trailing probabilistic
`saveData` touches only storage. -/
def generateChunk (cx cz : Int) (highDetail : Bool) (s : CMState) :
    CMState :=
  let key := chunkKey cx cz
  if s.generatedChunks.contains key then s
  else
    let f := if highDetail then seedDetailed key else seedSimple key
    let isStartingArea := decide (cx * cx + cz * cz ≤ 4)
    let minI : Q := if highDetail then 3 else 2
    let maxI : Q := if highDetail then 6 else 4
    let islandCount := (f minI (maxI + 0.99) "").floor.toNat
    let res := (List.range islandCount).foldl
      (generateChunkStep key cx cz f isStartingArea) (s.islandData, [], 0)
    removePlaceholdersForChunk key
      { s with islandData := res.1,
               generatedChunks := s.generatedChunks ++ [key] }

/-- `-d..d`, the neighbourhood offsets of the two scan loops. -/
def neighborOffsets (d : Nat) : List Int :=
  (List.range (2 * d + 1)).map (fun i => (i : Int) - d)

/-- The keys of the high-detail 3×3 neighbourhood, in loop order. -/
def highKeys (cx cz : Int) : List String :=
  (neighborOffsets 1).flatMap (fun dx =>
    (neighborOffsets 1).map (fun dz => chunkKey (cx + dx) (cz + dz)))

/-- The 5×5 ring outside the high-detail square, in loop order. -/
def lowExtraPairs (cx cz : Int) : List (Int × Int) :=
  (neighborOffsets 2).flatMap (fun dx =>
    (neighborOffsets 2).filterMap (fun dz =>
      if dx.natAbs ≤ 1 ∧ dz.natAbs ≤ 1 then none
      else some (cx + dx, cz + dz)))

/-- The contents of the `lowDetailChunks` set. -/
def lowKeys (cx cz : Int) : List String :=
  highKeys cx cz ++ (lowExtraPairs cx cz).map (fun p => chunkKey p.1 p.2)

/-- The pending-queue push guard (lines 49-51 and 68-70). -/
def enqueue (generated : List String) (pending : List String)
    (key : String) : List String :=
  if generated.contains key || pending.contains key then pending
  else pending ++ [key]

/-- `ChunkManager.processNextPendingChunk` (lines 173-219): drain one key
off the queue and schedule its deferred generation under the busy flag. -/
def processNextPendingChunk (px pz : Q) (s : CMState) : CMState :=
  if s.isGeneratingChunk || s.pendingChunks.isEmpty then s
  else
    match s.pendingChunks with
    | [] => s
    | ck :: rest =>
        if ck = "" then
          { s with pendingChunks := rest, isGeneratingChunk := false }
        else
          let xz := parseChunkKey ck
          let dist := (xz.1 - (px / 100).floor).natAbs +
            (xz.2 - (pz / 100).floor).natAbs
          { s with pendingChunks := rest, isGeneratingChunk := true,
                   scheduled := s.scheduled ++
                     [(xz.1, xz.2, decide (dist ≤ 1))] }

/-- The `setTimeout` callback of `processNextPendingChunk` (lines
201-218): generate, immediately load a high-priority chunk, drop the busy
flag. -/
def runScheduled (s : CMState) : CMState :=
  match s.scheduled with
  | [] => s
  | (cx, cz, high) :: rest =>
      let s1 := generateChunk cx cz high { s with scheduled := rest }
      let key := chunkKey cx cz
      let s2 := if high && !(s1.loadedChunks.contains key) then
          loadChunk key s1
        else s1
      { s2 with isGeneratingChunk := false }

/-- The high-detail scan (lines 39-53): queue ungenerated chunks. -/
def tickScanHigh (cx cz : Int) (s : CMState) : CMState :=
  { s with pendingChunks :=
      (highKeys cx cz).foldl (enqueue s.generatedChunks) s.pendingChunks }

/-- The low-detail ring scan (lines 56-78): queue ungenerated chunks and
create placeholders for chunks neither loaded nor generated. -/
def tickScanLow (cx cz : Int) (rng : String → Nat) (s : CMState) :
    CMState :=
  (lowExtraPairs cx cz).foldl (fun st p =>
      let key := chunkKey p.1 p.2
      let st1 := { st with
        pendingChunks := enqueue st.generatedChunks st.pendingChunks key }
      if !(st1.loadedChunks.contains key) &&
          !(st1.generatedChunks.contains key) then
        createPlaceholdersForChunk key (rng key) st1
      else st1) s

/-- One island of the high-detail load loop (lines 86-99): add the mesh,
then drop any placeholder stored under `placeholder_${island.id}`. -/
def tickLoadIsland (st2 : CMState) (r : IslandData) : CMState :=
  let st3 := addIslandMeshCM r st2
  let pid := "placeholder_" ++ r.id
  if st3.lowPolyIslands.contains pid then
    { st3 with lowPolyIslands := st3.lowPolyIslands.erase pid,
               scenePlaceholders := st3.scenePlaceholders.erase pid }
  else st3

/-- The high-detail load loop (lines 81-110). -/
def tickLoadHigh (cx cz : Int) (s : CMState) : CMState :=
  (highKeys cx cz).foldl (fun st key =>
      if !(st.loadedChunks.contains key) &&
          st.generatedChunks.contains key then
        let st1 := ((st.islandData.map Prod.snd).filter
            (fun r => r.chunk == key)).foldl tickLoadIsland st
        { st1 with loadedChunks := st1.loadedChunks ++ [key] }
      else st) s

/-- The unload loop (lines 113-121), iterating over a snapshot of the
loaded set. -/
def tickUnload (cx cz : Int) (s : CMState) : CMState :=
  s.loadedChunks.foldl (fun st key =>
      if !((lowKeys cx cz).contains key) then unloadChunk key st
      else st) s

/-- The four scene/queue loops of one frame, before the queue drain. -/
def tickPre (cx cz : Int) (rng : String → Nat) (s : CMState) : CMState :=
  tickUnload cx cz (tickLoadHigh cx cz
    (tickScanLow cx cz rng (tickScanHigh cx cz s)))

/-- `ChunkManager.updateChunks` (lines 28-134), one frame: scan the
high-detail square (queueing generation), scan the low-detail ring
(queueing generation and creating placeholders), load generated
high-detail chunks, unload chunks outside the low-detail set, drain one
pending chunk, and step the cache-clear counter. -/
def updateChunks (px pz : Q) (rng : String → Nat) (s : CMState) : CMState :=
  let cx := (px / 100).floor
  let cz := (pz / 100).floor
  let s5 := processNextPendingChunk px pz (tickPre cx cz rng s)
  { s5 with chunkUpdateCounter :=
      if s5.chunkUpdateCounter + 1 > 50 then 0
      else s5.chunkUpdateCounter + 1 }

/-- An external event: one frame's `updateChunks` call at an observer
position (with the frame's `Math.random` draws), or the firing of the
scheduled generation timeout. -/
inductive CMEvent where
  | tick (px pz : Q) (rng : String → Nat)
  | run

def cmStep (s : CMState) (e : CMEvent) : CMState :=
  match e with
  | .tick px pz rng => updateChunks px pz rng s
  | .run => runScheduled s

/-- A freshly constructed `ChunkManager` over an empty `DataManager`. -/
def cmInit : CMState :=
  { loadedChunks := [], pendingChunks := [], isGeneratingChunk := false,
    lowPolyIslands := [], scenePlaceholders := [], sceneIslands := [],
    islandData := [], generatedChunks := [], chunkUpdateCounter := 0,
    scheduled := [] }

def runCM (evs : List CMEvent) : CMState := evs.foldl cmStep cmInit

/-! ### Frame lemmas: which state fields each pipeline stage leaves alone -/

lemma createPlaceholdersForChunk_frame (ck : String) (rng : Nat)
    (s : CMState) :
    (createPlaceholdersForChunk ck rng s).loadedChunks = s.loadedChunks ∧
    (createPlaceholdersForChunk ck rng s).pendingChunks = s.pendingChunks ∧
    (createPlaceholdersForChunk ck rng s).isGeneratingChunk =
      s.isGeneratingChunk ∧
    (createPlaceholdersForChunk ck rng s).sceneIslands = s.sceneIslands ∧
    (createPlaceholdersForChunk ck rng s).islandData = s.islandData ∧
    (createPlaceholdersForChunk ck rng s).generatedChunks =
      s.generatedChunks ∧
    (createPlaceholdersForChunk ck rng s).chunkUpdateCounter =
      s.chunkUpdateCounter ∧
    (createPlaceholdersForChunk ck rng s).scheduled = s.scheduled := by
  unfold createPlaceholdersForChunk
  refine foldl_preserve (fun st : CMState => st.loadedChunks = s.loadedChunks ∧
    st.pendingChunks = s.pendingChunks ∧
    st.isGeneratingChunk = s.isGeneratingChunk ∧
    st.sceneIslands = s.sceneIslands ∧ st.islandData = s.islandData ∧
    st.generatedChunks = s.generatedChunks ∧
    st.chunkUpdateCounter = s.chunkUpdateCounter ∧
    st.scheduled = s.scheduled) _ _ s
    ⟨rfl, rfl, rfl, rfl, rfl, rfl, rfl, rfl⟩ ?_
  intro st a _ hst
  dsimp only
  split
  · exact hst
  · exact hst

lemma addIslandMeshCM_frame (r : IslandData) (s : CMState) :
    (addIslandMeshCM r s).loadedChunks = s.loadedChunks ∧
    (addIslandMeshCM r s).pendingChunks = s.pendingChunks ∧
    (addIslandMeshCM r s).isGeneratingChunk = s.isGeneratingChunk ∧
    (addIslandMeshCM r s).lowPolyIslands = s.lowPolyIslands ∧
    (addIslandMeshCM r s).scenePlaceholders = s.scenePlaceholders ∧
    (addIslandMeshCM r s).generatedChunks = s.generatedChunks ∧
    (addIslandMeshCM r s).chunkUpdateCounter = s.chunkUpdateCounter ∧
    (addIslandMeshCM r s).scheduled = s.scheduled := by
  unfold addIslandMeshCM
  split
  · exact ⟨rfl, rfl, rfl, rfl, rfl, rfl, rfl, rfl⟩
  · exact ⟨rfl, rfl, rfl, rfl, rfl, rfl, rfl, rfl⟩

lemma removeIslandMeshCM_frame (r : IslandData) (s : CMState) :
    (removeIslandMeshCM r s).loadedChunks = s.loadedChunks ∧
    (removeIslandMeshCM r s).pendingChunks = s.pendingChunks ∧
    (removeIslandMeshCM r s).isGeneratingChunk = s.isGeneratingChunk ∧
    (removeIslandMeshCM r s).lowPolyIslands = s.lowPolyIslands ∧
    (removeIslandMeshCM r s).scenePlaceholders = s.scenePlaceholders ∧
    (removeIslandMeshCM r s).generatedChunks = s.generatedChunks ∧
    (removeIslandMeshCM r s).chunkUpdateCounter = s.chunkUpdateCounter ∧
    (removeIslandMeshCM r s).scheduled = s.scheduled := by
  unfold removeIslandMeshCM
  split
  · exact ⟨rfl, rfl, rfl, rfl, rfl, rfl, rfl, rfl⟩
  · exact ⟨rfl, rfl, rfl, rfl, rfl, rfl, rfl, rfl⟩

lemma tickLoadIsland_frame (st2 : CMState) (r : IslandData) :
    (tickLoadIsland st2 r).loadedChunks = st2.loadedChunks ∧
    (tickLoadIsland st2 r).pendingChunks = st2.pendingChunks ∧
    (tickLoadIsland st2 r).isGeneratingChunk = st2.isGeneratingChunk ∧
    (tickLoadIsland st2 r).generatedChunks = st2.generatedChunks ∧
    (tickLoadIsland st2 r).chunkUpdateCounter = st2.chunkUpdateCounter ∧
    (tickLoadIsland st2 r).scheduled = st2.scheduled := by
  obtain ⟨h1, h2, h3, _, _, h6, h7, h8⟩ := addIslandMeshCM_frame r st2
  unfold tickLoadIsland
  dsimp only
  split
  · exact ⟨h1, h2, h3, h6, h7, h8⟩
  · exact ⟨h1, h2, h3, h6, h7, h8⟩

lemma loadChunk_frame (key : String) (s : CMState) :
    (loadChunk key s).pendingChunks = s.pendingChunks ∧
    (loadChunk key s).isGeneratingChunk = s.isGeneratingChunk ∧
    (loadChunk key s).lowPolyIslands = s.lowPolyIslands ∧
    (loadChunk key s).scenePlaceholders = s.scenePlaceholders ∧
    (loadChunk key s).generatedChunks = s.generatedChunks ∧
    (loadChunk key s).chunkUpdateCounter = s.chunkUpdateCounter ∧
    (loadChunk key s).scheduled = s.scheduled := by
  unfold loadChunk
  split
  · exact ⟨rfl, rfl, rfl, rfl, rfl, rfl, rfl⟩
  · refine foldl_preserve (fun st : CMState => st.pendingChunks = s.pendingChunks ∧
      st.isGeneratingChunk = s.isGeneratingChunk ∧
      st.lowPolyIslands = s.lowPolyIslands ∧
      st.scenePlaceholders = s.scenePlaceholders ∧
      st.generatedChunks = s.generatedChunks ∧
      st.chunkUpdateCounter = s.chunkUpdateCounter ∧
      st.scheduled = s.scheduled) _ _ _
      ⟨rfl, rfl, rfl, rfl, rfl, rfl, rfl⟩ ?_
    intro st a _ hst
    obtain ⟨h1, h2, h3, h4, h5, h6, h7, h8⟩ := addIslandMeshCM_frame a st
    exact ⟨h2.trans hst.1, h3.trans hst.2.1, h4.trans hst.2.2.1,
      h5.trans hst.2.2.2.1, h6.trans hst.2.2.2.2.1,
      h7.trans hst.2.2.2.2.2.1, h8.trans hst.2.2.2.2.2.2⟩

lemma unloadChunk_frame (key : String) (s : CMState) :
    (unloadChunk key s).pendingChunks = s.pendingChunks ∧
    (unloadChunk key s).isGeneratingChunk = s.isGeneratingChunk ∧
    (unloadChunk key s).lowPolyIslands = s.lowPolyIslands ∧
    (unloadChunk key s).scenePlaceholders = s.scenePlaceholders ∧
    (unloadChunk key s).generatedChunks = s.generatedChunks ∧
    (unloadChunk key s).chunkUpdateCounter = s.chunkUpdateCounter ∧
    (unloadChunk key s).scheduled = s.scheduled := by
  unfold unloadChunk
  split
  · exact ⟨rfl, rfl, rfl, rfl, rfl, rfl, rfl⟩
  · refine foldl_preserve (fun st : CMState => st.pendingChunks = s.pendingChunks ∧
      st.isGeneratingChunk = s.isGeneratingChunk ∧
      st.lowPolyIslands = s.lowPolyIslands ∧
      st.scenePlaceholders = s.scenePlaceholders ∧
      st.generatedChunks = s.generatedChunks ∧
      st.chunkUpdateCounter = s.chunkUpdateCounter ∧
      st.scheduled = s.scheduled) _ _ _
      ⟨rfl, rfl, rfl, rfl, rfl, rfl, rfl⟩ ?_
    intro st a _ hst
    obtain ⟨h1, h2, h3, h4, h5, h6, h7, h8⟩ := removeIslandMeshCM_frame a st
    exact ⟨h2.trans hst.1, h3.trans hst.2.1, h4.trans hst.2.2.1,
      h5.trans hst.2.2.2.1, h6.trans hst.2.2.2.2.1,
      h7.trans hst.2.2.2.2.2.1, h8.trans hst.2.2.2.2.2.2⟩

lemma generateChunk_frame (cx cz : Int) (hd : Bool) (s : CMState) :
    (generateChunk cx cz hd s).loadedChunks = s.loadedChunks ∧
    (generateChunk cx cz hd s).pendingChunks = s.pendingChunks ∧
    (generateChunk cx cz hd s).isGeneratingChunk = s.isGeneratingChunk ∧
    (generateChunk cx cz hd s).sceneIslands = s.sceneIslands ∧
    (generateChunk cx cz hd s).chunkUpdateCounter = s.chunkUpdateCounter ∧
    (generateChunk cx cz hd s).scheduled = s.scheduled := by
  simp only [generateChunk]
  split
  · exact ⟨rfl, rfl, rfl, rfl, rfl, rfl⟩
  · exact ⟨rfl, rfl, rfl, rfl, rfl, rfl⟩

lemma tickScanLow_frame (cx cz : Int) (rng : String → Nat) (s : CMState) :
    (tickScanLow cx cz rng s).loadedChunks = s.loadedChunks ∧
    (tickScanLow cx cz rng s).isGeneratingChunk = s.isGeneratingChunk ∧
    (tickScanLow cx cz rng s).sceneIslands = s.sceneIslands ∧
    (tickScanLow cx cz rng s).islandData = s.islandData ∧
    (tickScanLow cx cz rng s).generatedChunks = s.generatedChunks ∧
    (tickScanLow cx cz rng s).chunkUpdateCounter = s.chunkUpdateCounter ∧
    (tickScanLow cx cz rng s).scheduled = s.scheduled := by
  unfold tickScanLow
  refine foldl_preserve (fun st : CMState => st.loadedChunks = s.loadedChunks ∧
    st.isGeneratingChunk = s.isGeneratingChunk ∧
    st.sceneIslands = s.sceneIslands ∧ st.islandData = s.islandData ∧
    st.generatedChunks = s.generatedChunks ∧
    st.chunkUpdateCounter = s.chunkUpdateCounter ∧
    st.scheduled = s.scheduled) _ _ s
    ⟨rfl, rfl, rfl, rfl, rfl, rfl, rfl⟩ ?_
  intro st a _ hst
  dsimp only
  split
  · obtain ⟨h1, _, h3, h4, h5, h6, h7, h8⟩ :=
      createPlaceholdersForChunk_frame (chunkKey a.1 a.2)
        (rng (chunkKey a.1 a.2))
        { st with pendingChunks :=
            enqueue st.generatedChunks st.pendingChunks (chunkKey a.1 a.2) }
    exact ⟨h1.trans hst.1, h3.trans hst.2.1, h4.trans hst.2.2.1,
      h5.trans hst.2.2.2.1, h6.trans hst.2.2.2.2.1,
      h7.trans hst.2.2.2.2.2.1, h8.trans hst.2.2.2.2.2.2⟩
  · exact hst

lemma tickLoadHigh_frame (cx cz : Int) (s : CMState) :
    (tickLoadHigh cx cz s).pendingChunks = s.pendingChunks ∧
    (tickLoadHigh cx cz s).isGeneratingChunk = s.isGeneratingChunk ∧
    (tickLoadHigh cx cz s).generatedChunks = s.generatedChunks ∧
    (tickLoadHigh cx cz s).chunkUpdateCounter = s.chunkUpdateCounter ∧
    (tickLoadHigh cx cz s).scheduled = s.scheduled := by
  unfold tickLoadHigh
  refine foldl_preserve (fun st : CMState => st.pendingChunks = s.pendingChunks ∧
    st.isGeneratingChunk = s.isGeneratingChunk ∧
    st.generatedChunks = s.generatedChunks ∧
    st.chunkUpdateCounter = s.chunkUpdateCounter ∧
    st.scheduled = s.scheduled) _ _ s ⟨rfl, rfl, rfl, rfl, rfl⟩ ?_
  intro st a _ hst
  dsimp only
  split
  · have hin : ∀ (l : List IslandData) (st0 : CMState),
        st0.pendingChunks = s.pendingChunks ∧
        st0.isGeneratingChunk = s.isGeneratingChunk ∧
        st0.generatedChunks = s.generatedChunks ∧
        st0.chunkUpdateCounter = s.chunkUpdateCounter ∧
        st0.scheduled = s.scheduled →
        (l.foldl tickLoadIsland st0).pendingChunks = s.pendingChunks ∧
        (l.foldl tickLoadIsland st0).isGeneratingChunk =
          s.isGeneratingChunk ∧
        (l.foldl tickLoadIsland st0).generatedChunks = s.generatedChunks ∧
        (l.foldl tickLoadIsland st0).chunkUpdateCounter =
          s.chunkUpdateCounter ∧
        (l.foldl tickLoadIsland st0).scheduled = s.scheduled := by
      intro l
      induction l with
      | nil => intro st0 h0; exact h0
      | cons b t ih =>
          intro st0 h0
          refine ih (tickLoadIsland st0 b) ?_
          obtain ⟨g1, g2, g3, g4, g5, g6⟩ := tickLoadIsland_frame st0 b
          exact ⟨g2.trans h0.1, g3.trans h0.2.1, g4.trans h0.2.2.1,
            g5.trans h0.2.2.2.1, g6.trans h0.2.2.2.2⟩
    obtain ⟨k1, k2, k3, k4, k5⟩ := hin _ st hst
    exact ⟨k1, k2, k3, k4, k5⟩
  · exact hst

lemma tickUnload_frame (cx cz : Int) (s : CMState) :
    (tickUnload cx cz s).pendingChunks = s.pendingChunks ∧
    (tickUnload cx cz s).isGeneratingChunk = s.isGeneratingChunk ∧
    (tickUnload cx cz s).lowPolyIslands = s.lowPolyIslands ∧
    (tickUnload cx cz s).scenePlaceholders = s.scenePlaceholders ∧
    (tickUnload cx cz s).generatedChunks = s.generatedChunks ∧
    (tickUnload cx cz s).chunkUpdateCounter = s.chunkUpdateCounter ∧
    (tickUnload cx cz s).scheduled = s.scheduled := by
  unfold tickUnload
  refine foldl_preserve (fun st : CMState => st.pendingChunks = s.pendingChunks ∧
    st.isGeneratingChunk = s.isGeneratingChunk ∧
    st.lowPolyIslands = s.lowPolyIslands ∧
    st.scenePlaceholders = s.scenePlaceholders ∧
    st.generatedChunks = s.generatedChunks ∧
    st.chunkUpdateCounter = s.chunkUpdateCounter ∧
    st.scheduled = s.scheduled) _ _ s
    ⟨rfl, rfl, rfl, rfl, rfl, rfl, rfl⟩ ?_
  intro st a _ hst
  dsimp only
  split
  · obtain ⟨h1, h2, h3, h4, h5, h6, h7⟩ := unloadChunk_frame a st
    exact ⟨h1.trans hst.1, h2.trans hst.2.1, h3.trans hst.2.2.1,
      h4.trans hst.2.2.2.1, h5.trans hst.2.2.2.2.1,
      h6.trans hst.2.2.2.2.2.1, h7.trans hst.2.2.2.2.2.2⟩
  · exact hst

lemma processNextPendingChunk_frame (px pz : Q) (s : CMState) :
    (processNextPendingChunk px pz s).loadedChunks = s.loadedChunks ∧
    (processNextPendingChunk px pz s).lowPolyIslands = s.lowPolyIslands ∧
    (processNextPendingChunk px pz s).scenePlaceholders =
      s.scenePlaceholders ∧
    (processNextPendingChunk px pz s).sceneIslands = s.sceneIslands ∧
    (processNextPendingChunk px pz s).islandData = s.islandData ∧
    (processNextPendingChunk px pz s).generatedChunks =
      s.generatedChunks ∧
    (processNextPendingChunk px pz s).chunkUpdateCounter =
      s.chunkUpdateCounter := by
  unfold processNextPendingChunk
  split
  · exact ⟨rfl, rfl, rfl, rfl, rfl, rfl, rfl⟩
  · split
    · exact ⟨rfl, rfl, rfl, rfl, rfl, rfl, rfl⟩
    · split
      · exact ⟨rfl, rfl, rfl, rfl, rfl, rfl, rfl⟩
      · exact ⟨rfl, rfl, rfl, rfl, rfl, rfl, rfl⟩

/-! ### Claim C6 groundwork: queue extension and the busy flag -/

lemma enqueue_extend (g p : List String) (k : String) :
    ∃ add, enqueue g p k = p ++ add := by
  unfold enqueue
  split
  · exact ⟨[], (List.append_nil p).symm⟩
  · exact ⟨[k], rfl⟩

lemma foldl_enqueue_extend (g : List String) :
    ∀ (l : List String) (p : List String),
    ∃ add, l.foldl (enqueue g) p = p ++ add := by
  intro l
  induction l with
  | nil => intro p; exact ⟨[], (List.append_nil p).symm⟩
  | cons a t ih =>
      intro p
      obtain ⟨a1, h1⟩ := enqueue_extend g p a
      obtain ⟨a2, h2⟩ := ih (enqueue g p a)
      refine ⟨a1 ++ a2, ?_⟩
      rw [List.foldl_cons, h2, h1, List.append_assoc]

lemma tickScanLow_pending (cx cz : Int) (rng : String → Nat)
    (s : CMState) :
    ∃ add, (tickScanLow cx cz rng s).pendingChunks =
      s.pendingChunks ++ add := by
  unfold tickScanLow
  refine foldl_preserve
    (fun st : CMState =>
      ∃ add, st.pendingChunks = s.pendingChunks ++ add) _ _ s
    ⟨[], (List.append_nil _).symm⟩ ?_
  intro st a _ hst
  obtain ⟨add, hadd⟩ := hst
  obtain ⟨a1, h1⟩ := enqueue_extend st.generatedChunks st.pendingChunks
    (chunkKey a.1 a.2)
  dsimp only
  split
  · obtain ⟨_, h2, _⟩ := createPlaceholdersForChunk_frame
      (chunkKey a.1 a.2) (rng (chunkKey a.1 a.2))
      { st with pendingChunks :=
          enqueue st.generatedChunks st.pendingChunks (chunkKey a.1 a.2) }
    refine ⟨add ++ a1, ?_⟩
    rw [h2]
    show enqueue st.generatedChunks st.pendingChunks (chunkKey a.1 a.2) = _
    rw [h1, hadd, List.append_assoc]
  · refine ⟨add ++ a1, ?_⟩
    show enqueue st.generatedChunks st.pendingChunks (chunkKey a.1 a.2) = _
    rw [h1, hadd, List.append_assoc]

/-- The queue after the two scans, hence at the entry of
`processNextPendingChunk`, is the old queue plus new keys at the back. -/
lemma tickPre_pending (cx cz : Int) (rng : String → Nat)
    (s : CMState) :
    ∃ add, (tickPre cx cz rng s).pendingChunks =
      s.pendingChunks ++ add := by
  obtain ⟨a1, h1⟩ := foldl_enqueue_extend s.generatedChunks
    (highKeys cx cz) s.pendingChunks
  obtain ⟨a2, h2⟩ := tickScanLow_pending cx cz rng (tickScanHigh cx cz s)
  refine ⟨a1 ++ a2, ?_⟩
  unfold tickPre
  rw [(tickUnload_frame cx cz _).1, (tickLoadHigh_frame cx cz _).1, h2]
  show (highKeys cx cz).foldl (enqueue s.generatedChunks)
    s.pendingChunks ++ a2 = _
  rw [h1, List.append_assoc]

lemma tickPre_sched_busy (cx cz : Int) (rng : String → Nat)
    (s : CMState) :
    (tickPre cx cz rng s).scheduled = s.scheduled ∧
    (tickPre cx cz rng s).isGeneratingChunk = s.isGeneratingChunk := by
  unfold tickPre
  constructor
  · rw [(tickUnload_frame cx cz _).2.2.2.2.2.2,
      (tickLoadHigh_frame cx cz _).2.2.2.2,
      (tickScanLow_frame cx cz rng _).2.2.2.2.2.2]
    rfl
  · rw [(tickUnload_frame cx cz _).2.1, (tickLoadHigh_frame cx cz _).2.1,
      (tickScanLow_frame cx cz rng _).2.1]
    rfl

lemma processNext_busy (px pz : Q) {s : CMState}
    (h : s.isGeneratingChunk = true) :
    processNextPendingChunk px pz s = s := by
  unfold processNextPendingChunk
  rw [if_pos (by rw [h]; rfl)]

lemma processNext_pending (px pz : Q) (s : CMState) :
    (processNextPendingChunk px pz s).pendingChunks = s.pendingChunks ∨
    (processNextPendingChunk px pz s).pendingChunks =
      s.pendingChunks.tail := by
  unfold processNextPendingChunk
  split
  · exact Or.inl rfl
  split
  · exact Or.inl rfl
  next ck rest heq =>
    split
    · exact Or.inr (by rw [heq]; rfl)
    · exact Or.inr (by rw [heq]; rfl)

/-- The in-flight invariant: at most one generation callback is ever
scheduled, and none while the busy flag is down. -/
def InvGen (s : CMState) : Prop :=
  s.scheduled.length ≤ 1 ∧
  (s.isGeneratingChunk = false → s.scheduled = [])

lemma invGen_processNext (px pz : Q) {s : CMState} (h : InvGen s) :
    InvGen (processNextPendingChunk px pz s) := by
  unfold processNextPendingChunk
  split
  · exact h
  next hguard =>
    have hbusy : s.isGeneratingChunk = false := by
      rcases Bool.eq_false_or_eq_true s.isGeneratingChunk with hb | hb
      · exact absurd (by rw [hb]; rfl) hguard
      · exact hb
    have hempty : s.scheduled = [] := h.2 hbusy
    split
    · exact h
    split
    · exact ⟨h.1, fun _ => hempty⟩
    · constructor
      · show (s.scheduled ++ [_]).length ≤ 1
        rw [hempty]
        simp
      · intro hb
        simp at hb

/-- `updateChunks` unfolded: the drained pre-state with the update
counter stepped. -/
lemma updateChunks_eq (px pz : Q) (rng : String → Nat) (s : CMState) :
    updateChunks px pz rng s =
      (let s5 := processNextPendingChunk px pz
        (tickPre ((px / 100).floor) ((pz / 100).floor) rng s)
      { s5 with chunkUpdateCounter :=
          if s5.chunkUpdateCounter + 1 > 50 then 0
          else s5.chunkUpdateCounter + 1 }) := rfl

/-- The per-field unfolding of `updateChunks`: every field except the
update counter is that of the drained pre-state. -/
lemma updateChunks_fields (px pz : Q) (rng : String → Nat) (s : CMState) :
    (updateChunks px pz rng s).scheduled =
      (processNextPendingChunk px pz
        (tickPre ((px / 100).floor) ((pz / 100).floor) rng s)).scheduled ∧
    (updateChunks px pz rng s).isGeneratingChunk =
      (processNextPendingChunk px pz
        (tickPre ((px / 100).floor) ((pz / 100).floor) rng
          s)).isGeneratingChunk ∧
    (updateChunks px pz rng s).pendingChunks =
      (processNextPendingChunk px pz
        (tickPre ((px / 100).floor) ((pz / 100).floor) rng
          s)).pendingChunks ∧
    (updateChunks px pz rng s).loadedChunks =
      (processNextPendingChunk px pz
        (tickPre ((px / 100).floor) ((pz / 100).floor) rng
          s)).loadedChunks ∧
    (updateChunks px pz rng s).lowPolyIslands =
      (processNextPendingChunk px pz
        (tickPre ((px / 100).floor) ((pz / 100).floor) rng
          s)).lowPolyIslands ∧
    (updateChunks px pz rng s).scenePlaceholders =
      (processNextPendingChunk px pz
        (tickPre ((px / 100).floor) ((pz / 100).floor) rng
          s)).scenePlaceholders ∧
    (updateChunks px pz rng s).sceneIslands =
      (processNextPendingChunk px pz
        (tickPre ((px / 100).floor) ((pz / 100).floor) rng
          s)).sceneIslands ∧
    (updateChunks px pz rng s).islandData =
      (processNextPendingChunk px pz
        (tickPre ((px / 100).floor) ((pz / 100).floor) rng
          s)).islandData ∧
    (updateChunks px pz rng s).generatedChunks =
      (processNextPendingChunk px pz
        (tickPre ((px / 100).floor) ((pz / 100).floor) rng
          s)).generatedChunks := by
  rw [updateChunks_eq]
  generalize processNextPendingChunk px pz
    (tickPre ((px / 100).floor) ((pz / 100).floor) rng s) = X
  exact ⟨rfl, rfl, rfl, rfl, rfl, rfl, rfl, rfl, rfl⟩

lemma invGen_tick (px pz : Q) (rng : String → Nat) {s : CMState}
    (h : InvGen s) : InvGen (updateChunks px pz rng s) := by
  obtain ⟨hsched, hbusy⟩ := tickPre_sched_busy ((px / 100).floor)
    ((pz / 100).floor) rng s
  have h4 : InvGen (tickPre ((px / 100).floor) ((pz / 100).floor)
      rng s) := by
    constructor
    · rw [hsched]
      exact h.1
    · intro hb
      rw [hsched]
      refine h.2 ?_
      rw [← hbusy]
      exact hb
  have h5 := invGen_processNext px pz h4
  obtain ⟨f1, f2, _⟩ := updateChunks_fields px pz rng s
  constructor
  · rw [f1]
    exact h5.1
  · intro hb
    rw [f1]
    refine h5.2 ?_
    rw [← f2]
    exact hb

lemma runScheduled_sched_cons {s : CMState} {cx cz : Int} {high : Bool}
    {rest : List (Int × Int × Bool)}
    (heq : s.scheduled = (cx, cz, high) :: rest) :
    (runScheduled s).scheduled = rest ∧
    (runScheduled s).isGeneratingChunk = false := by
  unfold runScheduled
  rw [heq]
  dsimp only
  constructor
  · split
    · rw [(loadChunk_frame _ _).2.2.2.2.2.2,
        (generateChunk_frame cx cz high _).2.2.2.2.2]
    · rw [(generateChunk_frame cx cz high _).2.2.2.2.2]
  · rfl

lemma invGen_run {s : CMState} (h : InvGen s) :
    InvGen (runScheduled s) := by
  cases heq : s.scheduled with
  | nil =>
      have hid : runScheduled s = s := by
        unfold runScheduled
        rw [heq]
      rw [hid]
      exact h
  | cons e rest =>
      have hrest : rest = [] := by
        have h1 := h.1
        rw [heq] at h1
        simpa using h1
      obtain ⟨hs, hb⟩ := runScheduled_sched_cons heq
      constructor
      · rw [hs, hrest]
        exact Nat.zero_le 1
      · intro _
        rw [hs, hrest]

lemma invGen_runCM (evs : List CMEvent) : InvGen (runCM evs) := by
  unfold runCM
  refine foldl_preserve InvGen cmStep evs cmInit
    ⟨Nat.zero_le 1, fun _ => rfl⟩ ?_
  intro s e _ hs
  cases e with
  | tick px pz rng => exact invGen_tick px pz rng hs
  | run => exact invGen_run hs

/-- C6: (1) in every reachable state at most one generation callback is
scheduled, and none at all while the busy flag is down — one region's
generation is in flight at a time; (2) each `updateChunks` tick removes at
most one key from the front of the generation queue (it otherwise only
appends); (3) while the busy flag is up, a tick schedules nothing new and
drains nothing — a second generation cannot start while one is scheduled
or executing. -/
theorem c6_single_generation_in_flight :
    (∀ evs : List CMEvent,
      (runCM evs).scheduled.length ≤ 1 ∧
      ((runCM evs).isGeneratingChunk = false →
        (runCM evs).scheduled = [])) ∧
    (∀ (s : CMState) (px pz : Q) (rng : String → Nat),
      ∃ added,
        (updateChunks px pz rng s).pendingChunks =
            s.pendingChunks ++ added ∨
          (updateChunks px pz rng s).pendingChunks =
            (s.pendingChunks ++ added).tail) ∧
    (∀ (s : CMState) (px pz : Q) (rng : String → Nat),
      s.isGeneratingChunk = true →
        (updateChunks px pz rng s).scheduled = s.scheduled ∧
        (updateChunks px pz rng s).isGeneratingChunk = true ∧
        ∃ added, (updateChunks px pz rng s).pendingChunks =
          s.pendingChunks ++ added) := by
  refine ⟨fun evs => invGen_runCM evs, ?_, ?_⟩
  · intro s px pz rng
    obtain ⟨f1, f2, f3, _⟩ := updateChunks_fields px pz rng s
    obtain ⟨add, hadd⟩ := tickPre_pending ((px / 100).floor)
      ((pz / 100).floor) rng s
    rcases processNext_pending px pz (tickPre ((px / 100).floor)
        ((pz / 100).floor) rng s) with hp | hp
    · exact ⟨add, Or.inl (by rw [f3, hp, hadd])⟩
    · exact ⟨add, Or.inr (by rw [f3, hp, hadd])⟩
  · intro s px pz rng hb
    obtain ⟨f1, f2, f3, _⟩ := updateChunks_fields px pz rng s
    obtain ⟨hsched, hbusy⟩ := tickPre_sched_busy ((px / 100).floor)
      ((pz / 100).floor) rng s
    have hb4 : (tickPre ((px / 100).floor) ((pz / 100).floor) rng
        s).isGeneratingChunk = true := by
      rw [hbusy]
      exact hb
    have hid := processNext_busy px pz hb4
    refine ⟨?_, ?_, ?_⟩
    · rw [f1, hid, hsched]
    · rw [f2, hid, hb4]
    · obtain ⟨add, hadd⟩ := tickPre_pending ((px / 100).floor)
        ((pz / 100).floor) rng s
      exact ⟨add, by rw [f3, hid, hadd]⟩

/-- Witness for C6: the empty session, and a busy tick from a busy state
at the origin. -/
theorem c6_single_generation_in_flight_witness :
    (runCM []).scheduled.length ≤ 1 ∧
    ((updateChunks 0 0 (fun _ => 0)
        { cmInit with isGeneratingChunk := true }).scheduled =
      ({ cmInit with isGeneratingChunk := true } : CMState).scheduled ∧
      (updateChunks 0 0 (fun _ => 0)
        { cmInit with isGeneratingChunk := true }).isGeneratingChunk =
        true ∧
      ∃ added, (updateChunks 0 0 (fun _ => 0)
          { cmInit with isGeneratingChunk := true }).pendingChunks =
        ({ cmInit with isGeneratingChunk := true } :
          CMState).pendingChunks ++ added) :=
  ⟨(c6_single_generation_in_flight.1 []).1,
   c6_single_generation_in_flight.2.2
     { cmInit with isGeneratingChunk := true } 0 0 (fun _ => 0) rfl⟩


/-! ### Claim C8 groundwork: placeholder ids and the no-stale-placeholder
invariant -/

lemma toString_nat_no_underscore (n : Nat) : '_' ∉ (toString n).data := by
  intro h
  have hd := (natOfDigitChars_toDigits n).2 '_' h
  exact absurd hd.2 (by decide)

lemma contains_iff_mem {α : Type} [BEq α] [LawfulBEq α] {l : List α}
    {a : α} : l.contains a = true ↔ a ∈ l := by
  constructor
  · intro h
    obtain ⟨b, hb, he⟩ := List.contains_iff_exists_mem_beq.mp h
    rwa [eq_of_beq he]
  · intro h
    exact List.contains_iff_exists_mem_beq.mpr ⟨a, h, by simp⟩

/-- Every placeholder id of a chunk extends `placeholder_` ++ its key. -/
lemma phId_prefix (k : String) (i : Nat) :
    startsWithB (phId k i) ("placeholder_" ++ k) = true := by
  unfold startsWithB phId
  rw [List.isPrefixOf_iff_prefix]
  rw [show ("placeholder_" ++ k ++ "_" ++ toString i).data =
    ("placeholder_" ++ k).data ++ ('_' :: (toString i).data) from by
      rw [show ("placeholder_" ++ k ++ "_" ++ toString i).data =
        (("placeholder_" ++ k).data ++ ['_']) ++ (toString i).data from rfl,
        List.append_assoc]
      rfl]
  exact List.prefix_append _ _

lemma phId_chunkKey_data (x z : Int) (i : Nat) :
    (phId (chunkKey x z) i).data =
      "placeholder".data ++ '_' :: ((toString x).data ++ '_' ::
        ((toString z).data ++ '_' :: (toString i).data)) := by
  rw [show (phId (chunkKey x z) i).data =
    (("placeholder".data ++ ['_']) ++
      ((((toString x).data ++ ['_']) ++ (toString z).data)) ++ ['_']) ++
      (toString i).data from rfl]
  simp

lemma splitOnCharL_phId (x z : Int) (i : Nat) :
    splitOnCharL '_' (phId (chunkKey x z) i).data =
      ["placeholder".data, (toString x).data, (toString z).data,
        (toString i).data] := by
  rw [phId_chunkKey_data, splitOnCharL_append _ _ (by decide),
    splitOnCharL_append _ _ (toString_int_no_underscore x),
    splitOnCharL_append _ _ (toString_int_no_underscore z),
    splitOnCharL_not_mem (toString_nat_no_underscore i)]

/-- Two placeholder ids built from chunk keys agree on the chunk. -/
lemma phId_chunkKey_inj {x z x' z' : Int} {i i' : Nat}
    (h : phId (chunkKey x z) i = phId (chunkKey x' z') i') :
    x = x' ∧ z = z' := by
  have hs : splitOnCharL '_' (phId (chunkKey x z) i).data =
      splitOnCharL '_' (phId (chunkKey x' z') i').data := by rw [h]
  rw [splitOnCharL_phId, splitOnCharL_phId] at hs
  simp only [List.cons.injEq] at hs
  obtain ⟨-, hx, hz, -⟩ := hs
  constructor
  · have hpx := congrArg parseIntChars hx
    rwa [parseIntChars_toString, parseIntChars_toString] at hpx
  · have hpz := congrArg parseIntChars hz
    rwa [parseIntChars_toString, parseIntChars_toString] at hpz

/-- The placeholder invariant: every entry of the placeholder map is a
placeholder id of some not-yet-generated chunk, and the placeholder
objects in the scene are exactly the map's entries. -/
def InvPh (s : CMState) : Prop :=
  (∀ pid ∈ s.lowPolyIslands, ∃ x z i, pid = phId (chunkKey x z) i ∧
    chunkKey x z ∉ s.generatedChunks) ∧
  s.scenePlaceholders = s.lowPolyIslands

lemma invPh_of_fields {s t : CMState} (hinv : InvPh s)
    (hl : t.lowPolyIslands = s.lowPolyIslands)
    (hp : t.scenePlaceholders = s.scenePlaceholders)
    (hg : t.generatedChunks = s.generatedChunks) : InvPh t := by
  constructor
  · intro pid hpid
    rw [hl] at hpid
    obtain ⟨x, z, i, he, hgn⟩ := hinv.1 pid hpid
    refine ⟨x, z, i, he, ?_⟩
    rw [hg]
    exact hgn
  · rw [hp, hl]
    exact hinv.2

lemma invPh_createPlaceholders {s : CMState} (hinv : InvPh s)
    (x z : Int) (hg : chunkKey x z ∉ s.generatedChunks) (rng : Nat) :
    InvPh (createPlaceholdersForChunk (chunkKey x z) rng s) := by
  unfold createPlaceholdersForChunk
  refine (foldl_preserve (fun st : CMState => InvPh st ∧
    st.generatedChunks = s.generatedChunks) _ _ s ⟨hinv, rfl⟩ ?_).1
  intro st i _ hst
  dsimp only
  split
  · exact hst
  · refine ⟨⟨?_, ?_⟩, hst.2⟩
    · intro pid hpid
      rcases List.mem_append.mp hpid with hm | hm
      · exact hst.1.1 pid hm
      · have hpe : pid = phId (chunkKey x z) i := by simpa using hm
        refine ⟨x, z, i, hpe, ?_⟩
        rw [hst.2]
        exact hg
    · show st.scenePlaceholders ++ _ = st.lowPolyIslands ++ _
      rw [hst.1.2]

lemma invPh_generateChunk {s : CMState} (hinv : InvPh s) (cx cz : Int)
    (hd : Bool) : InvPh (generateChunk cx cz hd s) := by
  simp only [generateChunk]
  split
  · exact hinv
  constructor
  · intro pid hpid
    have hpid2 : pid ∈ s.lowPolyIslands.filter
        (fun id0 => !(startsWithB id0
          ("placeholder_" ++ chunkKey cx cz))) := hpid
    rw [List.mem_filter] at hpid2
    obtain ⟨x, z, i, hpe, hpg⟩ := hinv.1 pid hpid2.1
    refine ⟨x, z, i, hpe, ?_⟩
    intro hmem
    have hmem2 : chunkKey x z ∈ s.generatedChunks ++ [chunkKey cx cz] :=
      hmem
    rcases List.mem_append.mp hmem2 with hm | hm
    · exact hpg hm
    · have hkey : chunkKey x z = chunkKey cx cz := by simpa using hm
      have hps : startsWithB pid
          ("placeholder_" ++ chunkKey cx cz) = true := by
        rw [hpe, ← hkey]
        exact phId_prefix (chunkKey x z) i
      rw [hps] at hpid2
      exact absurd hpid2.2 (by decide)
  · show s.scenePlaceholders.filter _ = s.lowPolyIslands.filter _
    rw [hinv.2]

lemma invPh_tickLoadIsland {s : CMState} (hinv : InvPh s)
    (r : IslandData) : InvPh (tickLoadIsland s r) := by
  obtain ⟨g1, g2, g3, g4, g5, g6, g7, g8⟩ := addIslandMeshCM_frame r s
  unfold tickLoadIsland
  dsimp only
  split
  · constructor
    · intro pid hpid
      have hpid2 : pid ∈ (addIslandMeshCM r s).lowPolyIslands :=
        List.mem_of_mem_erase hpid
      rw [g4] at hpid2
      obtain ⟨x, z, i, he, hgn⟩ := hinv.1 pid hpid2
      refine ⟨x, z, i, he, ?_⟩
      show chunkKey x z ∉ (addIslandMeshCM r s).generatedChunks
      rw [g6]
      exact hgn
    · show ((addIslandMeshCM r s).scenePlaceholders).erase _ =
        ((addIslandMeshCM r s).lowPolyIslands).erase _
      rw [g4, g5, hinv.2]
  · exact invPh_of_fields hinv g4 g5 g6

lemma invPh_loadChunk {s : CMState} (hinv : InvPh s) (key : String) :
    InvPh (loadChunk key s) := by
  obtain ⟨h1, h2, h3, h4, h5, h6, h7⟩ := loadChunk_frame key s
  exact invPh_of_fields hinv h3 h4 h5

lemma invPh_unloadChunk {s : CMState} (hinv : InvPh s) (key : String) :
    InvPh (unloadChunk key s) := by
  obtain ⟨h1, h2, h3, h4, h5, h6, h7⟩ := unloadChunk_frame key s
  exact invPh_of_fields hinv h3 h4 h5

lemma invPh_tickScanLow {s : CMState} (hinv : InvPh s) (cx cz : Int)
    (rng : String → Nat) : InvPh (tickScanLow cx cz rng s) := by
  unfold tickScanLow
  refine foldl_preserve (fun st : CMState => InvPh st) _ _ s hinv ?_
  intro st p _ hst
  dsimp only
  have hst1 : InvPh ({ st with
      pendingChunks := enqueue st.generatedChunks st.pendingChunks
        (chunkKey p.1 p.2) } : CMState) :=
    invPh_of_fields hst rfl rfl rfl
  split
  · next hc =>
      refine invPh_createPlaceholders hst1 p.1 p.2 ?_
        (rng (chunkKey p.1 p.2))
      intro hmem
      have hb := (Bool.and_eq_true _ _).mp hc
      have hcon : ({ st with
          pendingChunks := enqueue st.generatedChunks st.pendingChunks
            (chunkKey p.1 p.2) } : CMState).generatedChunks.contains
          (chunkKey p.1 p.2) = true := contains_iff_mem.mpr hmem
      rw [hcon] at hb
      exact absurd hb.2 (by decide)
  · exact hst1

lemma invPh_tickLoadHigh {s : CMState} (hinv : InvPh s) (cx cz : Int) :
    InvPh (tickLoadHigh cx cz s) := by
  unfold tickLoadHigh
  refine foldl_preserve (fun st : CMState => InvPh st) _ _ s hinv ?_
  intro st key _ hst
  dsimp only
  split
  · have hfold : ∀ (l : List IslandData) (st0 : CMState), InvPh st0 →
        InvPh (l.foldl tickLoadIsland st0) := by
      intro l
      induction l with
      | nil => intro st0 h0; exact h0
      | cons b t ih =>
          intro st0 h0
          exact ih (tickLoadIsland st0 b) (invPh_tickLoadIsland h0 b)
    exact invPh_of_fields (hfold _ st hst) rfl rfl rfl
  · exact hst

lemma invPh_tickUnload {s : CMState} (hinv : InvPh s) (cx cz : Int) :
    InvPh (tickUnload cx cz s) := by
  unfold tickUnload
  refine foldl_preserve (fun st : CMState => InvPh st) _ _ s hinv ?_
  intro st key _ hst
  dsimp only
  split
  · exact invPh_unloadChunk hst key
  · exact hst

lemma invPh_tick (px pz : Q) (rng : String → Nat) {s : CMState}
    (hinv : InvPh s) : InvPh (updateChunks px pz rng s) := by
  obtain ⟨f1, f2, f3, f4, f5, f6, f7, f8, f9⟩ :=
    updateChunks_fields px pz rng s
  obtain ⟨g1, g2, g3, g4, g5, g6, g7⟩ := processNextPendingChunk_frame
    px pz (tickPre ((px / 100).floor) ((pz / 100).floor) rng s)
  have h1 : InvPh (tickScanHigh ((px / 100).floor) ((pz / 100).floor)
      s) := invPh_of_fields hinv rfl rfl rfl
  have h2 := invPh_tickScanLow h1 ((px / 100).floor) ((pz / 100).floor)
    rng
  have h3 := invPh_tickLoadHigh h2 ((px / 100).floor) ((pz / 100).floor)
  have h4 := invPh_tickUnload h3 ((px / 100).floor) ((pz / 100).floor)
  have hpre : InvPh (tickPre ((px / 100).floor) ((pz / 100).floor)
      rng s) := by
    unfold tickPre
    exact h4
  exact invPh_of_fields hpre (f5.trans g2) (f6.trans g3) (f9.trans g6)

lemma invPh_run {s : CMState} (hinv : InvPh s) :
    InvPh (runScheduled s) := by
  unfold runScheduled
  split
  · exact hinv
  next cx cz high rest heq =>
    dsimp only
    have h0 : InvPh ({ s with scheduled := rest } : CMState) :=
      invPh_of_fields hinv rfl rfl rfl
    have h1 : InvPh (generateChunk cx cz high
        { s with scheduled := rest }) :=
      invPh_generateChunk h0 cx cz high
    split
    · exact invPh_of_fields (invPh_loadChunk h1 (chunkKey cx cz))
        rfl rfl rfl
    · exact invPh_of_fields h1 rfl rfl rfl

lemma invPh_runCM (evs : List CMEvent) : InvPh (runCM evs) := by
  unfold runCM
  refine foldl_preserve InvPh cmStep evs cmInit
    ⟨fun pid hpid => absurd hpid (List.not_mem_nil pid), rfl⟩ ?_
  intro s e _ hs
  cases e with
  | tick px pz rng => exact invPh_tick px pz rng hs
  | run => exact invPh_run hs


/-- C8: in every reachable state, once a region's real content has been
generated and materialized (its key is in the generated-region set), no
placeholder for that region remains in the placeholder map or in the
scene: `generateChunk` removes them the moment the region's content is
created, and the scan loop never recreates a placeholder for a generated
region. -/
theorem c8_no_placeholder_after_generation (evs : List CMEvent)
    (x z : Int) (i : Nat)
    (hgen : chunkKey x z ∈ (runCM evs).generatedChunks) :
    phId (chunkKey x z) i ∉ (runCM evs).lowPolyIslands ∧
    phId (chunkKey x z) i ∉ (runCM evs).scenePlaceholders := by
  obtain ⟨hph, hsc⟩ := invPh_runCM evs
  have hmain : phId (chunkKey x z) i ∉ (runCM evs).lowPolyIslands := by
    intro hmem
    obtain ⟨x2, z2, i2, he, hg⟩ := hph _ hmem
    obtain ⟨hx, hz⟩ := phId_chunkKey_inj he
    rw [← hx, ← hz] at hg
    exact hg hgen
  refine ⟨hmain, ?_⟩
  rw [hsc]
  exact hmain

/-- Witness for C8: one frame at the origin queues chunk `-1_-1` first;
firing the scheduled generation puts it into the generated set, after
which no `-1_-1` placeholder exists anywhere. -/
theorem c8_no_placeholder_after_generation_witness :
    chunkKey (-1) (-1) ∈
      (runCM [CMEvent.tick 0 0 (fun _ => 0),
        CMEvent.run]).generatedChunks ∧
    phId (chunkKey (-1) (-1)) 0 ∉
      (runCM [CMEvent.tick 0 0 (fun _ => 0),
        CMEvent.run]).lowPolyIslands ∧
    phId (chunkKey (-1) (-1)) 0 ∉
      (runCM [CMEvent.tick 0 0 (fun _ => 0),
        CMEvent.run]).scenePlaceholders :=
  ⟨by decide,
   (c8_no_placeholder_after_generation
     [CMEvent.tick 0 0 (fun _ => 0), CMEvent.run] (-1) (-1) 0
     (by decide)).1,
   (c8_no_placeholder_after_generation
     [CMEvent.tick 0 0 (fun _ => 0), CMEvent.run] (-1) (-1) 0
     (by decide)).2⟩

/-! ### Claim C7 groundwork: island ids, record-store lemmas, and the
scene invariant -/

lemma islandId_split (x z : Int) (i : Nat) :
    splitOnCharL '_' (islandId x z i).data =
      ["island".data, (toString x).data, (toString z).data,
        (toString i).data] := by
  have hdata : (islandId x z i).data = "island".data ++ '_' ::
      ((toString x).data ++ '_' :: ((toString z).data ++ '_' ::
        (toString i).data)) := by
    unfold islandId
    simp only [String.data_append]
    simp
  rw [hdata]
  rw [splitOnCharL_append _ _ (by decide),
    splitOnCharL_append _ _ (toString_int_no_underscore x),
    splitOnCharL_append _ _ (toString_int_no_underscore z),
    splitOnCharL_not_mem (toString_nat_no_underscore i)]

lemma adIslandId_split (x z : Int) (i : Nat) (rank : Int) :
    splitOnCharL '_' (adIslandId x z i rank).data =
      ["ad".data, "island".data, (toString x).data, (toString z).data,
        (toString i).data, "rank".data ++ (toString rank).data] := by
  have hdata : (adIslandId x z i rank).data = "ad".data ++ '_' ::
      ("island".data ++ '_' :: ((toString x).data ++ '_' ::
        ((toString z).data ++ '_' :: ((toString i).data ++ '_' ::
          ("rank".data ++ (toString rank).data))))) := by
    unfold adIslandId
    simp only [String.data_append]
    simp
  rw [hdata]
  rw [splitOnCharL_append _ _ (by decide),
    splitOnCharL_append _ _ (by decide),
    splitOnCharL_append _ _ (toString_int_no_underscore x),
    splitOnCharL_append _ _ (toString_int_no_underscore z),
    splitOnCharL_append _ _ (toString_nat_no_underscore i),
    splitOnCharL_not_mem ?_]
  intro hmem
  rcases List.mem_append.mp hmem with h | h
  · exact absurd h (by decide)
  · exact toString_int_no_underscore rank h

lemma islandId_chunk_inj {x z x' z' : Int} {i i' : Nat}
    (h : islandId x z i = islandId x' z' i') :
    chunkKey x z = chunkKey x' z' := by
  have hs : splitOnCharL '_' (islandId x z i).data =
      splitOnCharL '_' (islandId x' z' i').data := by rw [h]
  rw [islandId_split, islandId_split] at hs
  simp only [List.cons.injEq] at hs
  obtain ⟨-, hx, hz, -⟩ := hs
  have hpx := congrArg parseIntChars hx
  have hpz := congrArg parseIntChars hz
  rw [parseIntChars_toString, parseIntChars_toString] at hpx
  rw [parseIntChars_toString, parseIntChars_toString] at hpz
  rw [hpx, hpz]

lemma adIslandId_chunk_inj {x z x' z' : Int} {i i' : Nat} {r r' : Int}
    (h : adIslandId x z i r = adIslandId x' z' i' r') :
    chunkKey x z = chunkKey x' z' := by
  have hs : splitOnCharL '_' (adIslandId x z i r).data =
      splitOnCharL '_' (adIslandId x' z' i' r').data := by rw [h]
  rw [adIslandId_split, adIslandId_split] at hs
  simp only [List.cons.injEq] at hs
  obtain ⟨-, -, hx, hz, -⟩ := hs
  have hpx := congrArg parseIntChars hx
  have hpz := congrArg parseIntChars hz
  rw [parseIntChars_toString, parseIntChars_toString] at hpx
  rw [parseIntChars_toString, parseIntChars_toString] at hpz
  rw [hpx, hpz]

lemma islandId_ne_adIslandId (x z : Int) (i : Nat) (x' z' : Int)
    (i' : Nat) (r : Int) : islandId x z i ≠ adIslandId x' z' i' r := by
  intro h
  have hs : splitOnCharL '_' (islandId x z i).data =
      splitOnCharL '_' (adIslandId x' z' i' r).data := by rw [h]
  rw [islandId_split, adIslandId_split] at hs
  exact absurd (congrArg List.length hs) (by simp)

lemma find?_cons_pos {α : Type} (p : α → Bool) (a : α) (l : List α)
    (h : p a = true) : List.find? p (a :: l) = some a := by
  simp [List.find?_cons, h]

lemma find?_cons_neg {α : Type} (p : α → Bool) (a : α) (l : List α)
    (h : p a = false) : List.find? p (a :: l) = List.find? p l := by
  simp [List.find?_cons, h]

lemma find?_map_set_other {α : Type} (k k' : String) (v : α) (hne : k' ≠ k)
    (l : List (String × α)) :
    List.find? (fun e => e.1 == k')
      (List.map (fun e => if (e.1 == k) = true then (k, v) else e) l) =
    List.find? (fun e => e.1 == k') l := by
  induction l with
  | nil => rfl
  | cons e t ih =>
      simp only [List.map_cons]
      cases hek : (e.1 == k) with
      | true =>
          rw [if_pos rfl]
          have he1 : e.1 = k := eq_of_beq hek
          have hke : (((k, v).1 == k') = false) := by
            apply Bool.eq_false_iff.mpr
            intro hcon
            exact hne (eq_of_beq hcon).symm
          have hek' : ((e.1 == k') = false) := by
            rw [he1]
            apply Bool.eq_false_iff.mpr
            intro hcon
            exact hne (eq_of_beq hcon).symm
          rw [find?_cons_neg (fun e => e.1 == k') (k, v) _ hke,
            find?_cons_neg (fun e => e.1 == k') e _ hek']
          exact ih
      | false =>
          rw [if_neg (by simp)]
          cases hpe : (e.1 == k') with
          | true =>
              rw [find?_cons_pos (fun e => e.1 == k') e _ hpe,
                find?_cons_pos (fun e => e.1 == k') e _ hpe]
          | false =>
              rw [find?_cons_neg (fun e => e.1 == k') e _ hpe,
                find?_cons_neg (fun e => e.1 == k') e _ hpe]
              exact ih

lemma assocGet_set_other {α : Type} (l : List (String × α))
    (k k' : String) (v : α) (hne : k' ≠ k) :
    assocGet (assocSet l k v) k' = assocGet l k' := by
  have hke : (((k, v).1 == k') = false) := by
    apply Bool.eq_false_iff.mpr
    intro hcon
    exact hne (eq_of_beq hcon).symm
  unfold assocSet
  split
  · unfold assocGet
    congr 1
    exact find?_map_set_other k k' v hne l
  · unfold assocGet
    congr 1
    rw [List.find?_append,
      find?_cons_neg (fun e => e.1 == k') (k, v) _ hke]
    simp

lemma keys_map_set {α : Type} (k : String) (v : α)
    (l : List (String × α)) :
    (List.map (fun e => if (e.1 == k) = true then (k, v) else e) l).map
      Prod.fst = l.map Prod.fst := by
  induction l with
  | nil => rfl
  | cons e t ih =>
      simp only [List.map_cons]
      cases hek : (e.1 == k) with
      | true =>
          rw [if_pos rfl]
          show k :: _ = e.1 :: _
          rw [ih, eq_of_beq hek]
      | false =>
          rw [if_neg (by simp)]
          show e.1 :: _ = e.1 :: _
          rw [ih]

lemma assocSet_keys_eq {α : Type} (l : List (String × α)) (k : String)
    (v : α) (h : l.any (fun e => e.1 == k) = true) :
    (assocSet l k v).map Prod.fst = l.map Prod.fst := by
  unfold assocSet
  rw [if_pos h]
  exact keys_map_set k v l

lemma assocSet_keys_append {α : Type} (l : List (String × α)) (k : String)
    (v : α) (h : l.any (fun e => e.1 == k) = false) :
    (assocSet l k v).map Prod.fst = l.map Prod.fst ++ [k] := by
  unfold assocSet
  rw [if_neg (by simp [h]), List.map_append]
  rfl

lemma keysNodup_assocSet {α : Type} (l : List (String × α)) (k : String)
    (v : α) (hnd : (l.map Prod.fst).Nodup) :
    ((assocSet l k v).map Prod.fst).Nodup := by
  cases h : l.any (fun e => e.1 == k) with
  | true =>
      rw [assocSet_keys_eq l k v h]
      exact hnd
  | false =>
      rw [assocSet_keys_append l k v h, List.nodup_append]
      refine ⟨hnd, List.nodup_singleton k, ?_⟩
      intro a ha hb
      have hak : a = k := by simpa using hb
      subst hak
      obtain ⟨e, he, hea⟩ := List.mem_map.mp ha
      have hall := List.any_eq_false.mp h e he
      rw [hea] at hall
      simp at hall

lemma assocSet_forall {α : Type} (P : String × α → Prop)
    (l : List (String × α)) (k : String) (v : α)
    (hl : ∀ e ∈ l, P e) (hv : P (k, v)) :
    ∀ e ∈ assocSet l k v, P e := by
  unfold assocSet
  split
  · intro e he
    obtain ⟨e0, he0, heq⟩ := List.mem_map.mp he
    by_cases hk : (e0.1 == k) = true
    · rw [if_pos hk] at heq
      exact heq ▸ hv
    · rw [if_neg hk] at heq
      exact heq ▸ hl e0 he0
  · intro e he
    rcases List.mem_append.mp he with h | h
    · exact hl e h
    · have he2 : e = (k, v) := by simpa using h
      exact he2 ▸ hv

lemma assocGet_of_mem {α : Type} : ∀ (l : List (String × α))
    (e : String × α), e ∈ l → (l.map Prod.fst).Nodup →
    assocGet l e.1 = some e.2 := by
  intro l
  induction l with
  | nil => intro e he; cases he
  | cons a t ih =>
      intro e he hnd
      rw [List.map_cons, List.nodup_cons] at hnd
      rcases List.mem_cons.mp he with rfl | hm
      · unfold assocGet
        rw [List.find?_cons_of_pos _ (by simp)]
        rfl
      · have hne : ¬((a.1 == e.1) = true) := by
          intro hcon
          refine hnd.1 ?_
          rw [eq_of_beq hcon]
          exact List.mem_map.mpr ⟨e, hm, rfl⟩
        unfold assocGet
        rw [find?_cons_neg (fun x => x.1 == e.1) a t
          (Bool.eq_false_iff.mpr hne)]
        exact ih e hm hnd.2

lemma mem_of_assocGet {α : Type} {l : List (String × α)} {k : String}
    {v : α} (h : assocGet l k = some v) : (k, v) ∈ l ∨
    ∃ e ∈ l, e.1 = k ∧ e.2 = v := by
  unfold assocGet at h
  cases hf : List.find? (fun e => e.1 == k) l with
  | none => rw [hf] at h; cases h
  | some e =>
      rw [hf] at h
      have hm := List.mem_of_find?_eq_some hf
      have hp := List.find?_some hf
      have hk : e.1 = k := eq_of_beq hp
      have hv : e.2 = v := by simpa using h
      exact Or.inr ⟨e, hm, hk, hv⟩

/-- C2: running `generateChunk` a second time for a region key whose
generation has already completed is a no-op — the guard on the
generated-region set returns immediately, so the generated set and the
landmass records (their count included) are exactly those of the first
run, for any starting state and any detail levels. -/
theorem c2_generate_idempotent (s : CMState) (cx cz : Int)
    (hd hd' : Bool) :
    generateChunk cx cz hd' (generateChunk cx cz hd s) =
      generateChunk cx cz hd s := by
  by_cases h : s.generatedChunks.contains (chunkKey cx cz) = true
  · have h1 : generateChunk cx cz hd s = s := by
      simp only [generateChunk]
      rw [if_pos h]
    rw [h1]
    simp only [generateChunk]
    rw [if_pos h]
  · set t := generateChunk cx cz hd s with ht
    have h1 : t.generatedChunks =
        s.generatedChunks ++ [chunkKey cx cz] := by
      rw [ht]
      simp only [generateChunk]
      rw [if_neg h]
      rfl
    have h2 : t.generatedChunks.contains (chunkKey cx cz) = true := by
      rw [h1]
      simp
    simp only [generateChunk]
    rw [if_pos h2]

/-! ## Claim C10: the placeholder-removal frame -/

/-- The session behind the C10 counterexample: placeholders are created
for the two distinct chunks `(1,1)` and `(1,10)` (one placeholder each,
`Math.floor(Math.random()*2) = 0`). -/
def c10State : CMState :=
  createPlaceholdersForChunk (chunkKey 1 10) 0
    (createPlaceholdersForChunk (chunkKey 1 1) 0 cmInit)

/-- C10 (counterexample): removing the placeholders of chunk `1_1` also
removes the placeholder of the distinct chunk `1_10` from the map and the
scene, because `id.startsWith("placeholder_" + chunkKey)` matches the key
`1_1` as a string prefix of `1_10` with no trailing separator. -/
theorem c10_counterexample :
    chunkKey 1 10 ≠ chunkKey 1 1 ∧
    phId (chunkKey 1 10) 0 ∈ c10State.lowPolyIslands ∧
    phId (chunkKey 1 10) 0 ∈ c10State.scenePlaceholders ∧
    phId (chunkKey 1 10) 0 ∉
      (removePlaceholdersForChunk (chunkKey 1 1) c10State).lowPolyIslands ∧
    phId (chunkKey 1 10) 0 ∉
      (removePlaceholdersForChunk (chunkKey 1 1)
        c10State).scenePlaceholders := by
  refine ⟨by decide, by decide, by decide, by decide, by decide⟩

/-- C10 (amended): `removePlaceholdersForChunk k` keeps exactly the
placeholders whose id does *not* have `placeholder_` ++ k as a string
prefix — so a placeholder of a different chunk `k'` survives if and only
if its id does not extend `placeholder_` ++ k, which fails for chunks
whose key begins with `k` followed by more characters (e.g. `1_10` when
removing `1_1`). -/
theorem c10_amended (k pid : String) (s : CMState) :
    (pid ∈ (removePlaceholdersForChunk k s).lowPolyIslands ↔
      pid ∈ s.lowPolyIslands ∧
        startsWithB pid ("placeholder_" ++ k) = false) ∧
    (pid ∈ (removePlaceholdersForChunk k s).scenePlaceholders ↔
      pid ∈ s.scenePlaceholders ∧
        startsWithB pid ("placeholder_" ++ k) = false) := by
  unfold removePlaceholdersForChunk
  constructor
  · simp [List.mem_filter]
  · simp [List.mem_filter]

/-! ### Claim C7: the scene invariant and detail demotion -/

/-- The reachable-state invariant behind C7: the loaded set and the scene
are duplicate-free, the record store is keyed by island id, every id
encodes its chunk key, a held mesh handle implies the record's chunk is
loaded, loaded chunks are generated, and every island in the scene has a
stored record holding a mesh handle whose chunk is loaded. -/
structure Inv7 (s : CMState) : Prop where
  loadedNodup : s.loadedChunks.Nodup
  sceneNodup : s.sceneIslands.Nodup
  keysNodup : (s.islandData.map Prod.fst).Nodup
  keyed : ∀ e ∈ s.islandData, e.2.id = e.1
  shaped : ∀ e ∈ s.islandData, ∃ x z, e.2.chunk = chunkKey x z ∧
    ((∃ i, e.1 = islandId x z i) ∨ ∃ i rank, e.1 = adIslandId x z i rank)
  meshLoaded : ∀ e ∈ s.islandData, e.2.mesh.isSome = true →
    e.2.chunk ∈ s.loadedChunks
  loadedGen : ∀ k ∈ s.loadedChunks, k ∈ s.generatedChunks
  sceneOk : ∀ id0 ∈ s.sceneIslands, ∃ r,
    assocGet s.islandData id0 = some r ∧ r.mesh = some 1 ∧
    r.chunk ∈ s.loadedChunks

lemma inv7_congr {s t : CMState} (h1 : t.loadedChunks = s.loadedChunks)
    (h2 : t.sceneIslands = s.sceneIslands)
    (h3 : t.islandData = s.islandData)
    (h4 : t.generatedChunks = s.generatedChunks) (inv : Inv7 s) :
    Inv7 t := by
  refine ⟨?_, ?_, ?_, ?_, ?_, ?_, ?_, ?_⟩
  · rw [h1]; exact inv.loadedNodup
  · rw [h2]; exact inv.sceneNodup
  · rw [h3]; exact inv.keysNodup
  · rw [h3]; exact inv.keyed
  · rw [h3]; exact inv.shaped
  · rw [h3, h1]; exact inv.meshLoaded
  · rw [h1, h4]; exact inv.loadedGen
  · rw [h2, h3, h1]; exact inv.sceneOk

/-- `assocSet` and a pointwise property: it is enough to check the
untouched entries and the new value (the overwritten entry is gone). -/
lemma assocSet_forall_ne {α : Type} (P : String × α → Prop)
    (l : List (String × α)) (k : String) (v : α)
    (hl : ∀ e ∈ l, e.1 ≠ k → P e) (hv : P (k, v)) :
    ∀ e ∈ assocSet l k v, P e := by
  unfold assocSet
  split
  · intro e he
    obtain ⟨e0, he0, heq⟩ := List.mem_map.mp he
    by_cases hk : (e0.1 == k) = true
    · rw [if_pos hk] at heq
      exact heq ▸ hv
    · rw [if_neg hk] at heq
      refine heq ▸ hl e0 he0 ?_
      intro hcon
      exact hk (by rw [hcon]; simp)
  · rename_i hany
    intro e he
    rcases List.mem_append.mp he with h | h
    · refine hl e h ?_
      intro hcon
      have hfa := List.any_eq_false.mp (Bool.eq_false_iff.mpr hany) e h
      rw [hcon] at hfa
      simp at hfa
    · have he2 : e = (k, v) := by simpa using h
      exact he2 ▸ hv

/-- In an id-keyed store with duplicate-free keys, the chunk-`key`
snapshot has pairwise-distinct island ids, and each snapshot record is
retrievable under its id and carries `chunk = key`. -/
lemma snapshot_spec (d : List (String × IslandData)) (key : String)
    (hnd : (d.map Prod.fst).Nodup) (hk : ∀ e ∈ d, e.2.id = e.1) :
    (((d.map Prod.snd).filter (fun r => r.chunk == key)).map
      IslandData.id).Nodup ∧
    ∀ r ∈ (d.map Prod.snd).filter (fun r => r.chunk == key),
      assocGet d r.id = some r ∧ r.chunk = key := by
  constructor
  · have hids : (d.map Prod.snd).map IslandData.id = d.map Prod.fst := by
      rw [List.map_map]
      refine List.map_congr_left ?_
      intro e he
      exact hk e he
    have hsub : List.Sublist
        (((d.map Prod.snd).filter
          (fun r => r.chunk == key)).map IslandData.id)
        ((d.map Prod.snd).map IslandData.id) :=
      (List.filter_sublist _).map IslandData.id
    rw [hids] at hsub
    exact hnd.sublist hsub
  · intro r hr
    obtain ⟨hrm, hrp⟩ := List.mem_filter.mp hr
    obtain ⟨e, he, hre⟩ := List.mem_map.mp hrm
    have hid : r.id = e.1 := by rw [← hre]; exact hk e he
    refine ⟨?_, eq_of_beq hrp⟩
    rw [hid, ← hre]
    exact assocGet_of_mem d e he hnd

/-- An id of chunk shape `(cx, cz)` can only be stored with chunk key
`chunkKey cx cz`. -/
lemma shaped_chunk_eq {d : List (String × IslandData)}
    (hsh : ∀ e ∈ d, ∃ x z, e.2.chunk = chunkKey x z ∧
      ((∃ i, e.1 = islandId x z i) ∨ ∃ i rank, e.1 = adIslandId x z i rank))
    {id0 : String} {r : IslandData} (hget : assocGet d id0 = some r)
    {cx cz : Int}
    (hshape : (∃ i, id0 = islandId cx cz i) ∨
      ∃ i rank, id0 = adIslandId cx cz i rank) :
    r.chunk = chunkKey cx cz := by
  have her : ∃ e ∈ d, e.1 = id0 ∧ e.2 = r := by
    rcases mem_of_assocGet hget with hm | h
    · exact ⟨(id0, r), hm, rfl, rfl⟩
    · exact h
  obtain ⟨e, he, he1, he2⟩ := her
  obtain ⟨x, z, hc, hs⟩ := hsh e he
  rw [he1] at hs
  rw [← he2, hc]
  rcases hshape with ⟨i, hi⟩ | ⟨i, rank, hi⟩ <;>
    rcases hs with ⟨j, hj⟩ | ⟨j, rk, hj⟩
  · exact islandId_chunk_inj (hj.symm.trans hi)
  · exact absurd (hi.symm.trans hj) (islandId_ne_adIslandId _ _ _ _ _ _ _)
  · exact absurd (hj.symm.trans hi) (islandId_ne_adIslandId _ _ _ _ _ _ _)
  · exact adIslandId_chunk_inj (hj.symm.trans hi)

/-- The mid-fold invariant of the two mesh-adding loops (`loadChunk` and
the high-detail load loop), loading chunk `key`: the loaded and generated
sets stay put, the store stays well formed, and every scene island's
record holds a mesh and lives in an already-loaded chunk or in `key`. -/
def LoadInv (key : String) (loaded0 gen0 : List String)
    (s : CMState) : Prop :=
  s.loadedChunks = loaded0 ∧ s.generatedChunks = gen0 ∧
  s.sceneIslands.Nodup ∧ (s.islandData.map Prod.fst).Nodup ∧
  (∀ e ∈ s.islandData, e.2.id = e.1) ∧
  (∀ e ∈ s.islandData, ∃ x z, e.2.chunk = chunkKey x z ∧
    ((∃ i, e.1 = islandId x z i) ∨
      ∃ i rank, e.1 = adIslandId x z i rank)) ∧
  (∀ e ∈ s.islandData, e.2.mesh.isSome = true →
    (e.2.chunk ∈ loaded0 ∨ e.2.chunk = key)) ∧
  (∀ id0 ∈ s.sceneIslands, ∃ r, assocGet s.islandData id0 = some r ∧
    r.mesh = some 1 ∧ (r.chunk ∈ loaded0 ∨ r.chunk = key))

lemma loadInv_congr (key : String) (loaded0 gen0 : List String)
    {s t : CMState} (h1 : t.loadedChunks = s.loadedChunks)
    (h2 : t.sceneIslands = s.sceneIslands)
    (h3 : t.islandData = s.islandData)
    (h4 : t.generatedChunks = s.generatedChunks)
    (h : LoadInv key loaded0 gen0 s) : LoadInv key loaded0 gen0 t := by
  unfold LoadInv
  rw [h1, h2, h3, h4]
  exact h

/-- Adding one snapshot record's mesh preserves the load invariant and
leaves every other id's stored record untouched. -/
lemma addIsland_step (key : String) (loaded0 gen0 : List String)
    {s : CMState} (hinv : LoadInv key loaded0 gen0 s) {r : IslandData}
    (hr : assocGet s.islandData r.id = some r ∧ r.mesh = none ∧
      r.chunk = key) :
    LoadInv key loaded0 gen0 (addIslandMeshCM r s) ∧
    ∀ id0, id0 ≠ r.id →
      assocGet (addIslandMeshCM r s).islandData id0 =
        assocGet s.islandData id0 := by
  obtain ⟨hl, hg, hsn, hkn, hkd, hsh, hml, hso⟩ := hinv
  unfold addIslandMeshCM
  split
  · have hnotin : r.id ∉ s.sceneIslands := by
      intro hmem
      obtain ⟨r2, hget2, hmesh2, -⟩ := hso r.id hmem
      rw [hr.1] at hget2
      have hrr : r = r2 := Option.some_inj.mp hget2
      rw [← hrr, hr.2.1] at hmesh2
      simp at hmesh2
    obtain ⟨e, he, he1, he2⟩ : ∃ e ∈ s.islandData, e.1 = r.id ∧ e.2 = r := by
      rcases mem_of_assocGet hr.1 with hm | h
      · exact ⟨(r.id, r), hm, rfl, rfl⟩
      · exact h
    refine ⟨⟨hl, hg, ?_, ?_, ?_, ?_, ?_, ?_⟩, ?_⟩
    · show (s.sceneIslands ++ [r.id]).Nodup
      rw [List.nodup_append]
      refine ⟨hsn, List.nodup_singleton _, ?_⟩
      intro a ha hb
      have hab : a = r.id := by simpa using hb
      exact hnotin (hab ▸ ha)
    · exact keysNodup_assocSet _ _ _ hkn
    · refine assocSet_forall _ _ _ _ hkd rfl
    · refine assocSet_forall _ _ _ _ hsh ?_
      obtain ⟨x, z, hc, hs⟩ := hsh e he
      rw [he1] at hs
      exact ⟨x, z, by rw [show ({ r with mesh := some 1 } :
        IslandData).chunk = r.chunk from rfl, ← he2]; exact hc, hs⟩
    · refine assocSet_forall _ _ _ _ hml ?_
      intro _
      exact Or.inr hr.2.2
    · intro id0 hmem
      rcases List.mem_append.mp hmem with hm | hm
      · obtain ⟨r2, hget2, hmesh2, hch2⟩ := hso id0 hm
        have hne : id0 ≠ r.id := fun hcon => hnotin (hcon ▸ hm)
        refine ⟨r2, ?_, hmesh2, hch2⟩
        rw [assocGet_set_other _ _ _ _ hne]
        exact hget2
      · have hid : id0 = r.id := by simpa using hm
        refine ⟨{ r with mesh := some 1 }, ?_, rfl, Or.inr hr.2.2⟩
        rw [hid]
        exact assocGet_set_self _ _ _
    · intro id0 hne
      exact assocGet_set_other _ _ _ _ hne
  · exact ⟨⟨hl, hg, hsn, hkn, hkd, hsh, hml, hso⟩, fun _ _ => rfl⟩

/-- Folding a mesh-adding step over a snapshot of meshless records of
chunk `key` (pairwise-distinct ids, each retrievable under its id)
preserves the load invariant; `g` is any step that agrees with
`addIslandMeshCM` on the four relevant fields. -/
lemma foldl_addIsland (key : String) (loaded0 gen0 : List String)
    (g : CMState → IslandData → CMState)
    (hg : ∀ st r,
      (g st r).loadedChunks = (addIslandMeshCM r st).loadedChunks ∧
      (g st r).sceneIslands = (addIslandMeshCM r st).sceneIslands ∧
      (g st r).islandData = (addIslandMeshCM r st).islandData ∧
      (g st r).generatedChunks = (addIslandMeshCM r st).generatedChunks) :
    ∀ (rs : List IslandData) (s : CMState),
      LoadInv key loaded0 gen0 s →
      (rs.map IslandData.id).Nodup →
      (∀ r ∈ rs, assocGet s.islandData r.id = some r ∧ r.mesh = none ∧
        r.chunk = key) →
      LoadInv key loaded0 gen0 (rs.foldl g s) := by
  intro rs
  induction rs with
  | nil => intro s h _ _; exact h
  | cons r t ih =>
      intro s h hnd hrs
      obtain ⟨hstep, hother⟩ := addIsland_step key loaded0 gen0 h
        (hrs r (List.mem_cons_self r t))
      obtain ⟨hg1, hg2, hg3, hg4⟩ := hg s r
      have h2 : LoadInv key loaded0 gen0 (g s r) :=
        loadInv_congr key loaded0 gen0 hg1 hg2 hg3 hg4 hstep
      rw [List.map_cons, List.nodup_cons] at hnd
      refine ih (g s r) h2 hnd.2 ?_
      intro r2 hr2
      have hne : r2.id ≠ r.id := by
        intro hcon
        refine hnd.1 ?_
        rw [← hcon]
        exact List.mem_map.mpr ⟨r2, hr2, rfl⟩
      obtain ⟨ha, hb, hc⟩ := hrs r2 (List.mem_cons_of_mem r hr2)
      refine ⟨?_, hb, hc⟩
      rw [hg3, hother r2.id hne]
      exact ha

lemma loadChunk_eq (key : String) (s : CMState)
    (h : ¬(s.loadedChunks.contains key = true)) :
    loadChunk key s =
      ((s.islandData.map Prod.snd).filter
        (fun r => r.chunk == key)).foldl
        (fun st r => addIslandMeshCM r st)
        { s with loadedChunks := s.loadedChunks ++ [key] } := by
  unfold loadChunk
  rw [if_neg h]

lemma inv7_loadChunk (key : String) {s : CMState} (inv : Inv7 s)
    (hgen : key ∈ s.generatedChunks) : Inv7 (loadChunk key s) := by
  by_cases h : s.loadedChunks.contains key = true
  · have hid : loadChunk key s = s := by
      unfold loadChunk
      rw [if_pos h]
    rw [hid]
    exact inv
  · have hkm : key ∉ s.loadedChunks := fun hm =>
      h (contains_iff_mem.mpr hm)
    rw [loadChunk_eq key s h]
    obtain ⟨hsnd, hsnap⟩ :=
      snapshot_spec s.islandData key inv.keysNodup inv.keyed
    have hbase : LoadInv key (s.loadedChunks ++ [key]) s.generatedChunks
        { s with loadedChunks := s.loadedChunks ++ [key] } := by
      refine ⟨rfl, rfl, inv.sceneNodup, inv.keysNodup, inv.keyed,
        inv.shaped, ?_, ?_⟩
      · intro e he hm
        exact Or.inl (List.mem_append_left _ (inv.meshLoaded e he hm))
      · intro id0 hm
        obtain ⟨r, h1, h2, h3⟩ := inv.sceneOk id0 hm
        exact ⟨r, h1, h2, Or.inl (List.mem_append_left _ h3)⟩
    have hrec : ∀ r ∈ (s.islandData.map Prod.snd).filter
        (fun r => r.chunk == key),
        assocGet s.islandData r.id = some r ∧ r.mesh = none ∧
          r.chunk = key := by
      intro r hr
      obtain ⟨hget, hch⟩ := hsnap r hr
      have hns : ¬(r.mesh.isSome = true) := by
        intro hm
        obtain ⟨e, he, he1, he2⟩ :
            ∃ e ∈ s.islandData, e.1 = r.id ∧ e.2 = r := by
          rcases mem_of_assocGet hget with h2 | h2
          · exact ⟨(r.id, r), h2, rfl, rfl⟩
          · exact h2
        have hin := inv.meshLoaded e he (by rw [he2]; exact hm)
        rw [he2, hch] at hin
        exact hkm hin
      refine ⟨hget, ?_, hch⟩
      cases hmo : r.mesh with
      | none => rfl
      | some v => exact absurd (by rw [hmo]; rfl) hns
    have hfold := foldl_addIsland key (s.loadedChunks ++ [key])
      s.generatedChunks (fun st r => addIslandMeshCM r st)
      (fun st r => ⟨rfl, rfl, rfl, rfl⟩)
      ((s.islandData.map Prod.snd).filter (fun r => r.chunk == key))
      { s with loadedChunks := s.loadedChunks ++ [key] }
      hbase hsnd hrec
    generalize hX : ((s.islandData.map Prod.snd).filter
        (fun r => r.chunk == key)).foldl
        (fun st r => addIslandMeshCM r st)
        { s with loadedChunks := s.loadedChunks ++ [key] } = X at hfold ⊢
    obtain ⟨f1, f2, f3, f4, f5, f6, f7, f8⟩ := hfold
    refine ⟨?_, f3, f4, f5, f6, ?_, ?_, ?_⟩
    · rw [f1, List.nodup_append]
      refine ⟨inv.loadedNodup, List.nodup_singleton _, ?_⟩
      intro a ha hb
      have hab : a = key := by simpa using hb
      exact hkm (hab ▸ ha)
    · intro e he hm
      rw [f1]
      rcases f7 e he hm with hc | hc
      · exact hc
      · rw [hc]
        exact List.mem_append_right _ (by simp)
    · intro k hk
      rw [f1] at hk
      rw [f2]
      rcases List.mem_append.mp hk with hk2 | hk2
      · exact inv.loadedGen k hk2
      · have hke : k = key := by simpa using hk2
        rw [hke]
        exact hgen
    · intro id0 hm
      obtain ⟨r, h1, h2, h3⟩ := f8 id0 hm
      refine ⟨r, h1, h2, ?_⟩
      rw [f1]
      rcases h3 with hc | hc
      · exact hc
      · rw [hc]
        exact List.mem_append_right _ (by simp)

lemma inv7_tickLoadHigh (cx cz : Int) {s : CMState} (inv : Inv7 s) :
    Inv7 (tickLoadHigh cx cz s) := by
  unfold tickLoadHigh
  refine foldl_preserve (fun st : CMState => Inv7 st) _ _ s inv ?_
  intro st key _ hst
  dsimp only
  split
  · rename_i hguard
    rw [Bool.and_eq_true] at hguard
    have hcf : st.loadedChunks.contains key = false := by
      simpa using hguard.1
    have hnl : key ∉ st.loadedChunks := by
      intro hm
      rw [contains_iff_mem.mpr hm] at hcf
      cases hcf
    have hgen : key ∈ st.generatedChunks := contains_iff_mem.mp hguard.2
    obtain ⟨hsnd, hsnap⟩ :=
      snapshot_spec st.islandData key hst.keysNodup hst.keyed
    have hbase : LoadInv key st.loadedChunks st.generatedChunks st := by
      refine ⟨rfl, rfl, hst.sceneNodup, hst.keysNodup, hst.keyed,
        hst.shaped, ?_, ?_⟩
      · intro e he hm
        exact Or.inl (hst.meshLoaded e he hm)
      · intro id0 hm
        obtain ⟨r, h1, h2, h3⟩ := hst.sceneOk id0 hm
        exact ⟨r, h1, h2, Or.inl h3⟩
    have hrec : ∀ r ∈ (st.islandData.map Prod.snd).filter
        (fun r => r.chunk == key),
        assocGet st.islandData r.id = some r ∧ r.mesh = none ∧
          r.chunk = key := by
      intro r hr
      obtain ⟨hget, hch⟩ := hsnap r hr
      have hns : ¬(r.mesh.isSome = true) := by
        intro hm
        obtain ⟨e, he, he1, he2⟩ :
            ∃ e ∈ st.islandData, e.1 = r.id ∧ e.2 = r := by
          rcases mem_of_assocGet hget with h2 | h2
          · exact ⟨(r.id, r), h2, rfl, rfl⟩
          · exact h2
        have hin := hst.meshLoaded e he (by rw [he2]; exact hm)
        rw [he2, hch] at hin
        exact hnl hin
      refine ⟨hget, ?_, hch⟩
      cases hmo : r.mesh with
      | none => rfl
      | some v => exact absurd (by rw [hmo]; rfl) hns
    have hg : ∀ (st2 : CMState) (r : IslandData),
        (tickLoadIsland st2 r).loadedChunks =
          (addIslandMeshCM r st2).loadedChunks ∧
        (tickLoadIsland st2 r).sceneIslands =
          (addIslandMeshCM r st2).sceneIslands ∧
        (tickLoadIsland st2 r).islandData =
          (addIslandMeshCM r st2).islandData ∧
        (tickLoadIsland st2 r).generatedChunks =
          (addIslandMeshCM r st2).generatedChunks := by
      intro st2 r
      unfold tickLoadIsland
      dsimp only
      split
      · exact ⟨rfl, rfl, rfl, rfl⟩
      · exact ⟨rfl, rfl, rfl, rfl⟩
    have hfold := foldl_addIsland key st.loadedChunks st.generatedChunks
      tickLoadIsland hg
      ((st.islandData.map Prod.snd).filter (fun r => r.chunk == key))
      st hbase hsnd hrec
    generalize hX : ((st.islandData.map Prod.snd).filter
        (fun r => r.chunk == key)).foldl tickLoadIsland st = X
      at hfold ⊢
    obtain ⟨f1, f2, f3, f4, f5, f6, f7, f8⟩ := hfold
    refine ⟨?_, f3, f4, f5, f6, ?_, ?_, ?_⟩
    · show (X.loadedChunks ++ [key]).Nodup
      rw [f1, List.nodup_append]
      refine ⟨hst.loadedNodup, List.nodup_singleton _, ?_⟩
      intro a ha hb
      have hab : a = key := by simpa using hb
      exact hnl (hab ▸ ha)
    · intro e he hm
      show e.2.chunk ∈ X.loadedChunks ++ [key]
      rw [f1]
      rcases f7 e he hm with hc | hc
      · exact List.mem_append_left _ hc
      · rw [hc]
        exact List.mem_append_right _ (by simp)
    · intro k hk
      have hk2 : k ∈ X.loadedChunks ++ [key] := hk
      show k ∈ X.generatedChunks
      rw [f1] at hk2
      rw [f2]
      rcases List.mem_append.mp hk2 with hk3 | hk3
      · exact hst.loadedGen k hk3
      · have hke : k = key := by simpa using hk3
        rw [hke]
        exact hgen
    · intro id0 hm
      obtain ⟨r, h1, h2, h3⟩ := f8 id0 hm
      refine ⟨r, h1, h2, ?_⟩
      show r.chunk ∈ X.loadedChunks ++ [key]
      rw [f1]
      rcases h3 with hc | hc
      · exact List.mem_append_left _ hc
      · rw [hc]
        exact List.mem_append_right _ (by simp)
  · exact hst

lemma removeIslandMeshCM_eq_pos (r : IslandData) (s : CMState)
    (h : r.mesh.isSome = true) :
    removeIslandMeshCM r s =
      { s with sceneIslands := s.sceneIslands.erase r.id,
               islandData := assocSet s.islandData r.id
                 { r with mesh := none } } := by
  unfold removeIslandMeshCM
  rw [if_pos h]

lemma removeIslandMeshCM_eq_neg (r : IslandData) (s : CMState)
    (h : ¬(r.mesh.isSome = true)) :
    removeIslandMeshCM r s = s := by
  unfold removeIslandMeshCM
  rw [if_neg h]

/-- What the mesh-removing fold of `unloadChunk` establishes: the chunk's
islands are gone, so every held mesh handle and every scene island again
points into `loaded0` (the loaded set with the unloaded key erased). -/
def UnloadOut (loaded0 gen0 : List String) (s : CMState) : Prop :=
  s.loadedChunks = loaded0 ∧ s.generatedChunks = gen0 ∧
  s.sceneIslands.Nodup ∧ (s.islandData.map Prod.fst).Nodup ∧
  (∀ e ∈ s.islandData, e.2.id = e.1) ∧
  (∀ e ∈ s.islandData, ∃ x z, e.2.chunk = chunkKey x z ∧
    ((∃ i, e.1 = islandId x z i) ∨
      ∃ i rank, e.1 = adIslandId x z i rank)) ∧
  (∀ e ∈ s.islandData, e.2.mesh.isSome = true →
    e.2.chunk ∈ loaded0) ∧
  (∀ id0 ∈ s.sceneIslands, ∃ r2, assocGet s.islandData id0 = some r2 ∧
    r2.mesh = some 1 ∧ r2.chunk ∈ loaded0)

lemma foldl_removeIsland (key : String) (loaded0 gen0 : List String) :
    ∀ (rs : List IslandData) (s : CMState),
      s.loadedChunks = loaded0 →
      s.generatedChunks = gen0 →
      s.sceneIslands.Nodup →
      (s.islandData.map Prod.fst).Nodup →
      (∀ e ∈ s.islandData, e.2.id = e.1) →
      (∀ e ∈ s.islandData, ∃ x z, e.2.chunk = chunkKey x z ∧
        ((∃ i, e.1 = islandId x z i) ∨
          ∃ i rank, e.1 = adIslandId x z i rank)) →
      (rs.map IslandData.id).Nodup →
      (∀ r ∈ rs, assocGet s.islandData r.id = some r ∧ r.chunk = key) →
      (∀ e ∈ s.islandData, e.2.mesh.isSome = true →
        (e.2.chunk ∈ loaded0 ∨ ∃ r ∈ rs, r.id = e.1)) →
      (∀ id0 ∈ s.sceneIslands, ∃ r2,
        assocGet s.islandData id0 = some r2 ∧ r2.mesh = some 1 ∧
        (r2.chunk ∈ loaded0 ∨ ∃ r ∈ rs, r.id = id0)) →
      UnloadOut loaded0 gen0
        (rs.foldl (fun st r => removeIslandMeshCM r st) s) := by
  intro rs
  induction rs with
  | nil =>
      intro s h1 h2 h3 h4 h5 h6 hnd hrs hml hso
      refine ⟨h1, h2, h3, h4, h5, h6, ?_, ?_⟩
      · intro e he hm
        rcases hml e he hm with hc | ⟨r, hr, -⟩
        · exact hc
        · cases hr
      · intro id0 hm
        obtain ⟨r2, hg2, hm2, hc⟩ := hso id0 hm
        rcases hc with hc | ⟨r, hr, -⟩
        · exact ⟨r2, hg2, hm2, hc⟩
        · cases hr
  | cons r t ih =>
      intro s h1 h2 h3 h4 h5 h6 hnd hrs hml hso
      rw [List.map_cons, List.nodup_cons] at hnd
      have hrhead := hrs r (List.mem_cons_self r t)
      rw [List.foldl_cons]
      cases hms : r.mesh.isSome with
      | false =>
          rw [removeIslandMeshCM_eq_neg r s (by simp [hms])]
          refine ih s h1 h2 h3 h4 h5 h6 hnd.2 ?_ ?_ ?_
          · intro r2 hr2
            exact hrs r2 (List.mem_cons_of_mem r hr2)
          · intro e he hm
            rcases hml e he hm with hc | ⟨r0, hr0, hid0⟩
            · exact Or.inl hc
            · rcases List.mem_cons.mp hr0 with heq0 | hr0t
              · exfalso
                rw [heq0] at hid0
                have hge : assocGet s.islandData e.1 = some e.2 :=
                  assocGet_of_mem s.islandData e he h4
                rw [← hid0] at hge
                have he2 : e.2 = r :=
                  Option.some_inj.mp (hge.symm.trans hrhead.1)
                rw [he2, hms] at hm
                cases hm
              · exact Or.inr ⟨r0, hr0t, hid0⟩
          · intro id0 hm0
            obtain ⟨r2, hg2, hm2, hc⟩ := hso id0 hm0
            refine ⟨r2, hg2, hm2, ?_⟩
            rcases hc with hc | ⟨r0, hr0, hid0⟩
            · exact Or.inl hc
            · rcases List.mem_cons.mp hr0 with heq0 | hr0t
              · exfalso
                rw [heq0] at hid0
                rw [← hid0] at hg2
                have hr2r : r2 = r :=
                  Option.some_inj.mp (hg2.symm.trans hrhead.1)
                rw [hr2r] at hm2
                rw [hm2] at hms
                cases hms
              · exact Or.inr ⟨r0, hr0t, hid0⟩
      | true =>
          rw [removeIslandMeshCM_eq_pos r s hms]
          obtain ⟨e0, he0, he01, he02⟩ :
              ∃ e ∈ s.islandData, e.1 = r.id ∧ e.2 = r := by
            rcases mem_of_assocGet hrhead.1 with h2 | h2
            · exact ⟨(r.id, r), h2, rfl, rfl⟩
            · exact h2
          refine ih _ h1 h2 (h3.erase _) (keysNodup_assocSet _ _ _ h4)
            (assocSet_forall _ _ _ _ h5 rfl) ?_ hnd.2 ?_ ?_ ?_
          · refine assocSet_forall _ _ _ _ h6 ?_
            obtain ⟨x, z, hc, hs⟩ := h6 e0 he0
            rw [he01] at hs
            refine ⟨x, z, ?_, hs⟩
            show r.chunk = chunkKey x z
            rw [← he02]
            exact hc
          · intro r2 hr2
            have hne : r2.id ≠ r.id := by
              intro hcon
              refine hnd.1 ?_
              rw [← hcon]
              exact List.mem_map.mpr ⟨r2, hr2, rfl⟩
            obtain ⟨ha, hb⟩ := hrs r2 (List.mem_cons_of_mem r hr2)
            refine ⟨?_, hb⟩
            show assocGet (assocSet s.islandData r.id
              { r with mesh := none }) r2.id = some r2
            rw [assocGet_set_other _ _ _ _ hne]
            exact ha
          · refine assocSet_forall_ne _ _ _ _ ?_ ?_
            · intro e he hene hm
              rcases hml e he hm with hc | ⟨r0, hr0, hid0⟩
              · exact Or.inl hc
              · rcases List.mem_cons.mp hr0 with heq0 | hr0t
                · exfalso
                  rw [heq0] at hid0
                  exact hene hid0.symm
                · exact Or.inr ⟨r0, hr0t, hid0⟩
            · intro hm
              simp at hm
          · intro id0 hm0
            have hmem : id0 ∈ s.sceneIslands :=
              List.mem_of_mem_erase hm0
            have hne : id0 ≠ r.id := (h3.mem_erase_iff.mp hm0).1
            obtain ⟨r2, hg2, hm2, hc⟩ := hso id0 hmem
            refine ⟨r2, ?_, hm2, ?_⟩
            · show assocGet (assocSet s.islandData r.id
                { r with mesh := none }) id0 = some r2
              rw [assocGet_set_other _ _ _ _ hne]
              exact hg2
            · rcases hc with hc | ⟨r0, hr0, hid0⟩
              · exact Or.inl hc
              · rcases List.mem_cons.mp hr0 with heq0 | hr0t
                · exfalso
                  rw [heq0] at hid0
                  exact hne hid0.symm
                · exact Or.inr ⟨r0, hr0t, hid0⟩

lemma unloadChunk_eq (key : String) (s : CMState)
    (h : s.loadedChunks.contains key = true) :
    unloadChunk key s =
      ((s.islandData.map Prod.snd).filter
        (fun r => r.chunk == key)).foldl
        (fun st r => removeIslandMeshCM r st)
        { s with loadedChunks := s.loadedChunks.erase key } := by
  unfold unloadChunk
  rw [if_neg (by rw [h]; decide)]

lemma inv7_unloadChunk (key : String) {s : CMState} (inv : Inv7 s) :
    Inv7 (unloadChunk key s) := by
  by_cases h : s.loadedChunks.contains key = true
  · rw [unloadChunk_eq key s h]
    obtain ⟨hsnd, hsnap⟩ :=
      snapshot_spec s.islandData key inv.keysNodup inv.keyed
    have hkm : key ∉ s.loadedChunks.erase key := by
      intro hm
      exact absurd rfl (inv.loadedNodup.mem_erase_iff.mp hm).1
    have hml0 : ∀ e ∈ s.islandData, e.2.mesh.isSome = true →
        (e.2.chunk ∈ s.loadedChunks.erase key ∨
          ∃ r ∈ (s.islandData.map Prod.snd).filter
            (fun r => r.chunk == key), r.id = e.1) := by
      intro e he hm
      have hin := inv.meshLoaded e he hm
      by_cases hek : e.2.chunk = key
      · refine Or.inr ⟨e.2, ?_, inv.keyed e he⟩
        rw [List.mem_filter]
        exact ⟨List.mem_map.mpr ⟨e, he, rfl⟩, by rw [hek]; simp⟩
      · exact Or.inl (inv.loadedNodup.mem_erase_iff.mpr ⟨hek, hin⟩)
    have hso0 : ∀ id0 ∈ s.sceneIslands, ∃ r2,
        assocGet s.islandData id0 = some r2 ∧ r2.mesh = some 1 ∧
        (r2.chunk ∈ s.loadedChunks.erase key ∨
          ∃ r ∈ (s.islandData.map Prod.snd).filter
            (fun r => r.chunk == key), r.id = id0) := by
      intro id0 hm
      obtain ⟨r2, hg2, hm2, hc⟩ := inv.sceneOk id0 hm
      obtain ⟨e, he, he1, he2⟩ :
          ∃ e ∈ s.islandData, e.1 = id0 ∧ e.2 = r2 := by
        rcases mem_of_assocGet hg2 with h2 | h2
        · exact ⟨(id0, r2), h2, rfl, rfl⟩
        · exact h2
      refine ⟨r2, hg2, hm2, ?_⟩
      by_cases hek : r2.chunk = key
      · refine Or.inr ⟨r2, ?_, ?_⟩
        · rw [List.mem_filter]
          refine ⟨List.mem_map.mpr ⟨e, he, he2⟩, by rw [hek]; simp⟩
        · rw [← he2, inv.keyed e he]
          exact he1
      · exact Or.inl (inv.loadedNodup.mem_erase_iff.mpr ⟨hek, hc⟩)
    have hout := foldl_removeIsland key (s.loadedChunks.erase key)
      s.generatedChunks
      ((s.islandData.map Prod.snd).filter (fun r => r.chunk == key))
      { s with loadedChunks := s.loadedChunks.erase key }
      rfl rfl inv.sceneNodup inv.keysNodup inv.keyed inv.shaped
      hsnd hsnap hml0 hso0
    obtain ⟨f1, f2, f3, f4, f5, f6, f7, f8⟩ := hout
    refine ⟨?_, f3, f4, f5, f6, ?_, ?_, ?_⟩
    · rw [f1]
      exact inv.loadedNodup.erase key
    · intro e he hm
      rw [f1]
      exact f7 e he hm
    · intro k hk
      rw [f1] at hk
      rw [f2]
      exact inv.loadedGen k (List.mem_of_mem_erase hk)
    · intro id0 hm
      obtain ⟨r2, hg2, hm2, hc⟩ := f8 id0 hm
      refine ⟨r2, hg2, hm2, ?_⟩
      rw [f1]
      exact hc
  · have hid : unloadChunk key s = s := by
      unfold unloadChunk
      rw [if_pos (by rw [Bool.eq_false_iff.mpr h]; decide)]
    rw [hid]
    exact inv

lemma inv7_tickUnload (cx cz : Int) {s : CMState} (inv : Inv7 s) :
    Inv7 (tickUnload cx cz s) := by
  unfold tickUnload
  refine foldl_preserve (fun st : CMState => Inv7 st) _ _ s inv ?_
  intro st a _ hst
  dsimp only
  split
  · exact inv7_unloadChunk a hst
  · exact hst

lemma inv7_tickScanHigh (cx cz : Int) {s : CMState} (inv : Inv7 s) :
    Inv7 (tickScanHigh cx cz s) :=
  ⟨inv.loadedNodup, inv.sceneNodup, inv.keysNodup, inv.keyed, inv.shaped,
   inv.meshLoaded, inv.loadedGen, inv.sceneOk⟩

lemma inv7_tickScanLow (cx cz : Int) (rng : String → Nat) {s : CMState}
    (inv : Inv7 s) : Inv7 (tickScanLow cx cz rng s) := by
  unfold tickScanLow
  refine foldl_preserve (fun st : CMState => Inv7 st) _ _ s inv ?_
  intro st a _ hst
  dsimp only
  have hst1 : Inv7 { st with pendingChunks := enqueue st.generatedChunks st.pendingChunks (chunkKey a.1 a.2) } :=
    ⟨hst.loadedNodup, hst.sceneNodup, hst.keysNodup, hst.keyed,
     hst.shaped, hst.meshLoaded, hst.loadedGen, hst.sceneOk⟩
  split
  · obtain ⟨h1, _, _, h4, h5, h6, _, _⟩ :=
      createPlaceholdersForChunk_frame (chunkKey a.1 a.2)
        (rng (chunkKey a.1 a.2))
        { st with pendingChunks :=
            enqueue st.generatedChunks st.pendingChunks (chunkKey a.1 a.2) }
    exact inv7_congr h1 h4 h5 h6 hst1
  · exact hst1

lemma inv7_processNext (px pz : Q) {s : CMState} (inv : Inv7 s) :
    Inv7 (processNextPendingChunk px pz s) := by
  obtain ⟨f1, _, _, f4, f5, f6, _⟩ := processNextPendingChunk_frame px pz s
  exact inv7_congr f1 f4 f5 f6 inv

/-- One island of `generateChunk`'s loop, abstractly: the record store is
updated at one freshly shaped id of this chunk with a meshless record. -/
lemma genStep_props (key : String) (cx cz : Int) (f : Q → Q → String → Q)
    (sa : Bool)
    (acc : List (String × IslandData) × List (Q × Q) × Nat) (i : Nat) :
    ∃ nid rec, (generateChunkStep key cx cz f sa acc i).1 =
      assocSet acc.1 nid rec ∧ rec.id = nid ∧ rec.chunk = key ∧
      rec.mesh = none ∧
      ((∃ j, nid = islandId cx cz j) ∨
        ∃ j rank, nid = adIslandId cx cz j rank) := by
  unfold generateChunkStep
  dsimp only
  split <;> split
  · exact ⟨_, _, rfl, rfl, rfl, rfl, Or.inr ⟨i, _, rfl⟩⟩
  · exact ⟨_, _, rfl, rfl, rfl, rfl, Or.inl ⟨i, rfl⟩⟩
  · exact ⟨_, _, rfl, rfl, rfl, rfl, Or.inr ⟨i, _, rfl⟩⟩
  · exact ⟨_, _, rfl, rfl, rfl, rfl, Or.inl ⟨i, rfl⟩⟩

lemma foldl_genStep (key : String) (cx cz : Int) (f : Q → Q → String → Q)
    (sa : Bool) (hkey : key = chunkKey cx cz)
    (loaded0 gen0 : List String) (scene0 : List String)
    (hkg : key ∉ gen0) (hlg : ∀ k ∈ loaded0, k ∈ gen0) :
    ∀ (ns : List Nat)
      (acc : List (String × IslandData) × List (Q × Q) × Nat),
      (acc.1.map Prod.fst).Nodup →
      (∀ e ∈ acc.1, e.2.id = e.1) →
      (∀ e ∈ acc.1, ∃ x z, e.2.chunk = chunkKey x z ∧
        ((∃ i, e.1 = islandId x z i) ∨
          ∃ i rank, e.1 = adIslandId x z i rank)) →
      (∀ e ∈ acc.1, e.2.mesh.isSome = true → e.2.chunk ∈ loaded0) →
      (∀ id0 ∈ scene0, ∃ r2, assocGet acc.1 id0 = some r2 ∧
        r2.mesh = some 1 ∧ r2.chunk ∈ loaded0) →
      (((ns.foldl (generateChunkStep key cx cz f sa) acc).1.map
          Prod.fst).Nodup ∧
       (∀ e ∈ (ns.foldl (generateChunkStep key cx cz f sa) acc).1,
          e.2.id = e.1) ∧
       (∀ e ∈ (ns.foldl (generateChunkStep key cx cz f sa) acc).1,
          ∃ x z, e.2.chunk = chunkKey x z ∧
          ((∃ i, e.1 = islandId x z i) ∨
            ∃ i rank, e.1 = adIslandId x z i rank)) ∧
       (∀ e ∈ (ns.foldl (generateChunkStep key cx cz f sa) acc).1,
          e.2.mesh.isSome = true → e.2.chunk ∈ loaded0) ∧
       (∀ id0 ∈ scene0, ∃ r2,
          assocGet (ns.foldl (generateChunkStep key cx cz f sa) acc).1
            id0 = some r2 ∧ r2.mesh = some 1 ∧ r2.chunk ∈ loaded0)) := by
  intro ns
  induction ns with
  | nil => intro acc h1 h2 h3 h4 h5; exact ⟨h1, h2, h3, h4, h5⟩
  | cons i t ih =>
      intro acc h1 h2 h3 h4 h5
      rw [List.foldl_cons]
      obtain ⟨nid, rec, heq, hidf, hch, hmn, hshape⟩ :=
        genStep_props key cx cz f sa acc i
      refine ih (generateChunkStep key cx cz f sa acc i) ?_ ?_ ?_ ?_ ?_
      · rw [heq]
        exact keysNodup_assocSet _ _ _ h1
      · rw [heq]
        refine assocSet_forall _ _ _ _ h2 ?_
        show rec.id = nid
        exact hidf
      · rw [heq]
        refine assocSet_forall _ _ _ _ h3 ?_
        refine ⟨cx, cz, ?_, ?_⟩
        · show rec.chunk = chunkKey cx cz
          rw [hch, hkey]
        · show (∃ i2, nid = islandId cx cz i2) ∨
            ∃ i2 rank, nid = adIslandId cx cz i2 rank
          exact hshape
      · rw [heq]
        refine assocSet_forall_ne _ _ _ _ ?_ ?_
        · intro e he hene hm
          exact h4 e he hm
        · intro hm
          have hm2 : rec.mesh.isSome = true := hm
          rw [hmn] at hm2
          cases hm2
      · intro id0 h0
        obtain ⟨r2, hg2, hm2, hc2⟩ := h5 id0 h0
        have hne : id0 ≠ nid := by
          intro hcon
          refine hkg ?_
          have hck : r2.chunk = chunkKey cx cz :=
            shaped_chunk_eq h3 hg2 (by rw [hcon]; exact hshape)
          rw [← hkey] at hck
          rw [← hck]
          exact hlg _ hc2
        rw [heq]
        refine ⟨r2, ?_, hm2, hc2⟩
        rw [assocGet_set_other _ _ _ _ hne]
        exact hg2

lemma generateChunk_eq (cx cz : Int) (hd : Bool) (s : CMState)
    (h : ¬(s.generatedChunks.contains (chunkKey cx cz) = true)) :
    generateChunk cx cz hd s =
      removePlaceholdersForChunk (chunkKey cx cz)
        { s with
          islandData := ((List.range
            (((if hd then seedDetailed (chunkKey cx cz)
               else seedSimple (chunkKey cx cz))
              (if hd then (3 : Q) else 2)
              ((if hd then (6 : Q) else 4) + 0.99) "").floor.toNat)).foldl
            (generateChunkStep (chunkKey cx cz) cx cz
              (if hd then seedDetailed (chunkKey cx cz)
               else seedSimple (chunkKey cx cz))
              (decide (cx * cx + cz * cz ≤ 4)))
            (s.islandData, [], 0)).1,
          generatedChunks := s.generatedChunks ++ [chunkKey cx cz] } := by
  simp only [generateChunk]
  rw [if_neg h]

lemma inv7_generateChunk (cx cz : Int) (hd : Bool) {s : CMState}
    (inv : Inv7 s) : Inv7 (generateChunk cx cz hd s) := by
  by_cases h : s.generatedChunks.contains (chunkKey cx cz) = true
  · have hid : generateChunk cx cz hd s = s := by
      simp only [generateChunk]
      rw [if_pos h]
    rw [hid]
    exact inv
  · have hkg : chunkKey cx cz ∉ s.generatedChunks := fun hm =>
      h (contains_iff_mem.mpr hm)
    rw [generateChunk_eq cx cz hd s h]
    have hgen := foldl_genStep (chunkKey cx cz) cx cz
      (if hd then seedDetailed (chunkKey cx cz)
       else seedSimple (chunkKey cx cz))
      (decide (cx * cx + cz * cz ≤ 4)) rfl
      s.loadedChunks s.generatedChunks s.sceneIslands hkg inv.loadedGen
      (List.range (((if hd then seedDetailed (chunkKey cx cz)
         else seedSimple (chunkKey cx cz))
        (if hd then (3 : Q) else 2)
        ((if hd then (6 : Q) else 4) + 0.99) "").floor.toNat))
      (s.islandData, [], 0)
      inv.keysNodup inv.keyed inv.shaped inv.meshLoaded inv.sceneOk
    generalize hX : (List.range
        (((if hd then seedDetailed (chunkKey cx cz)
           else seedSimple (chunkKey cx cz))
          (if hd then (3 : Q) else 2)
          ((if hd then (6 : Q) else 4) + 0.99) "").floor.toNat)).foldl
        (generateChunkStep (chunkKey cx cz) cx cz
          (if hd then seedDetailed (chunkKey cx cz)
           else seedSimple (chunkKey cx cz))
          (decide (cx * cx + cz * cz ≤ 4)))
        (s.islandData, [], 0) = X at hgen ⊢
    obtain ⟨g1, g2, g3, g4, g5⟩ := hgen
    refine ⟨inv.loadedNodup, inv.sceneNodup, g1, g2, g3, ?_, ?_, ?_⟩
    · intro e he hm
      exact g4 e he hm
    · intro k hk
      exact List.mem_append_left _ (inv.loadedGen k hk)
    · intro id0 hm
      exact g5 id0 hm

lemma generateChunk_key_mem (cx cz : Int) (hd : Bool) (s : CMState) :
    chunkKey cx cz ∈ (generateChunk cx cz hd s).generatedChunks := by
  by_cases h : s.generatedChunks.contains (chunkKey cx cz) = true
  · have hid : generateChunk cx cz hd s = s := by
      simp only [generateChunk]
      rw [if_pos h]
    rw [hid]
    exact contains_iff_mem.mp h
  · rw [generateChunk_eq cx cz hd s h]
    show chunkKey cx cz ∈ s.generatedChunks ++ [chunkKey cx cz]
    exact List.mem_append_right _ (by simp)

lemma inv7_runScheduled {s : CMState} (inv : Inv7 s) :
    Inv7 (runScheduled s) := by
  cases heq : s.scheduled with
  | nil =>
      have hid : runScheduled s = s := by
        unfold runScheduled
        rw [heq]
      rw [hid]
      exact inv
  | cons e rest =>
      obtain ⟨cx, cz, high⟩ := e
      unfold runScheduled
      rw [heq]
      dsimp only
      have h0 : Inv7 { s with scheduled := rest } :=
        ⟨inv.loadedNodup, inv.sceneNodup, inv.keysNodup, inv.keyed,
         inv.shaped, inv.meshLoaded, inv.loadedGen, inv.sceneOk⟩
      have h1 : Inv7 (generateChunk cx cz high
          { s with scheduled := rest }) :=
        inv7_generateChunk cx cz high h0
      have hkey := generateChunk_key_mem cx cz high
        { s with scheduled := rest }
      by_cases hc : (high && !((generateChunk cx cz high
          { s with scheduled := rest }).loadedChunks.contains
            (chunkKey cx cz))) = true
      · rw [if_pos hc]
        have h2 := inv7_loadChunk (chunkKey cx cz) h1 hkey
        exact ⟨h2.loadedNodup, h2.sceneNodup, h2.keysNodup, h2.keyed,
          h2.shaped, h2.meshLoaded, h2.loadedGen, h2.sceneOk⟩
      · rw [if_neg hc]
        exact ⟨h1.loadedNodup, h1.sceneNodup, h1.keysNodup, h1.keyed,
          h1.shaped, h1.meshLoaded, h1.loadedGen, h1.sceneOk⟩

lemma inv7_updateChunks (px pz : Q) (rng : String → Nat) {s : CMState}
    (inv : Inv7 s) : Inv7 (updateChunks px pz rng s) := by
  have h4 : Inv7 (tickPre ((px / 100).floor) ((pz / 100).floor)
      rng s) := by
    unfold tickPre
    exact inv7_tickUnload _ _ (inv7_tickLoadHigh _ _
      (inv7_tickScanLow _ _ rng (inv7_tickScanHigh _ _ inv)))
  have h5 := inv7_processNext px pz h4
  obtain ⟨f1, f2, f3, f4, f5, f6, f7, f8, f9⟩ :=
    updateChunks_fields px pz rng s
  exact inv7_congr f4 f7 f8 f9 h5

lemma inv7_cmInit : Inv7 cmInit := by
  refine ⟨?_, ?_, ?_, ?_, ?_, ?_, ?_, ?_⟩ <;> simp [cmInit]

lemma inv7_runCM (evs : List CMEvent) : Inv7 (runCM evs) := by
  unfold runCM
  refine foldl_preserve Inv7 cmStep evs cmInit inv7_cmInit ?_
  intro s e _ hs
  cases e with
  | tick px pz rng => exact inv7_updateChunks px pz rng hs
  | run => exact inv7_runScheduled hs

lemma unloadChunk_loadedChunks (key : String) (s : CMState) :
    (unloadChunk key s).loadedChunks = s.loadedChunks.erase key := by
  by_cases h : s.loadedChunks.contains key = true
  · rw [unloadChunk_eq key s h]
    refine foldl_preserve (fun st : CMState =>
      st.loadedChunks = s.loadedChunks.erase key) _ _ _ rfl ?_
    intro st a _ hst
    exact ((removeIslandMeshCM_frame a st).1).trans hst
  · have hid : unloadChunk key s = s := by
      unfold unloadChunk
      rw [if_pos (by rw [Bool.eq_false_iff.mpr h]; decide)]
    rw [hid]
    refine (List.erase_of_not_mem ?_).symm
    intro hm
    exact h (contains_iff_mem.mpr hm)

/-- The unload loop, over an arbitrary snapshot list: it only shrinks the
loaded set, and afterwards every chunk of the snapshot that survived is
in the low-detail set. -/
lemma tickUnload_fold_mem (cx cz : Int) :
    ∀ (l : List String) (st : CMState), st.loadedChunks.Nodup →
      ((l.foldl (fun st2 key =>
          if !((lowKeys cx cz).contains key) then unloadChunk key st2
          else st2) st).loadedChunks.Nodup ∧
       ∀ k ∈ (l.foldl (fun st2 key =>
          if !((lowKeys cx cz).contains key) then unloadChunk key st2
          else st2) st).loadedChunks,
         k ∈ st.loadedChunks ∧
           (k ∉ l ∨ (lowKeys cx cz).contains k = true)) := by
  intro l
  induction l with
  | nil =>
      intro st hnd
      exact ⟨hnd, fun k hk => ⟨hk, Or.inl (List.not_mem_nil k)⟩⟩
  | cons a t ih =>
      intro st hnd
      rw [List.foldl_cons]
      by_cases hla : (lowKeys cx cz).contains a = true
      · rw [if_neg (by rw [hla]; decide)]
        obtain ⟨ihn, ihm⟩ := ih st hnd
        refine ⟨ihn, ?_⟩
        intro k hk
        obtain ⟨hk1, hk2⟩ := ihm k hk
        refine ⟨hk1, ?_⟩
        rcases hk2 with hk2 | hk2
        · by_cases hka : k = a
          · exact Or.inr (hka ▸ hla)
          · refine Or.inl ?_
            intro hm
            rcases List.mem_cons.mp hm with h2 | h2
            · exact hka h2
            · exact hk2 h2
        · exact Or.inr hk2
      · rw [if_pos (by rw [Bool.eq_false_iff.mpr hla]; decide)]
        have hnd2 : (unloadChunk a st).loadedChunks.Nodup := by
          rw [unloadChunk_loadedChunks]
          exact hnd.erase a
        obtain ⟨ihn, ihm⟩ := ih (unloadChunk a st) hnd2
        refine ⟨ihn, ?_⟩
        intro k hk
        obtain ⟨hk1, hk2⟩ := ihm k hk
        rw [unloadChunk_loadedChunks] at hk1
        have hk3 := hnd.mem_erase_iff.mp hk1
        refine ⟨hk3.2, ?_⟩
        rcases hk2 with hk2 | hk2
        · refine Or.inl ?_
          intro hm
          rcases List.mem_cons.mp hm with h2 | h2
          · exact hk3.1 h2
          · exact hk2 h2
        · exact Or.inr hk2

lemma tickUnload_low (cx cz : Int) (s : CMState)
    (hnd : s.loadedChunks.Nodup) :
    ∀ k ∈ (tickUnload cx cz s).loadedChunks,
      (lowKeys cx cz).contains k = true := by
  obtain ⟨-, hm⟩ := tickUnload_fold_mem cx cz s.loadedChunks s hnd
  intro k hk
  obtain ⟨hk1, hk2⟩ := hm k hk
  rcases hk2 with hk2 | hk2
  · exact absurd hk1 hk2
  · exact hk2

/-- C7: after any `updateChunks` tick at observer position `(px, pz)` —
reached from any event history — every chunk still materialized (loaded)
is in the low-detail set of the observer's chunk `(⌊px/100⌋, ⌊pz/100⌋)`,
and every island whose mesh is still in the scene belongs (through its
stored record) to such a low-detail chunk: chunks outside
`lowDetailDistance` have had their islands' meshes removed.  In
particular this holds for the final tick of any movement from chunk
`(0,0)` to `(5,5)`. -/
theorem c7_detail_demotion (evs : List CMEvent) (px pz : Q)
    (rng : String → Nat) :
    (∀ k ∈ (updateChunks px pz rng (runCM evs)).loadedChunks,
      (lowKeys ((px / 100).floor) ((pz / 100).floor)).contains k
        = true) ∧
    ∀ id0 ∈ (updateChunks px pz rng (runCM evs)).sceneIslands,
      ∃ r, assocGet (updateChunks px pz rng (runCM evs)).islandData id0
          = some r ∧
        r.chunk ∈ (updateChunks px pz rng (runCM evs)).loadedChunks ∧
        (lowKeys ((px / 100).floor) ((pz / 100).floor)).contains r.chunk
          = true := by
  have hinv : Inv7 (runCM evs) := inv7_runCM evs
  have h3 : Inv7 (tickLoadHigh ((px / 100).floor) ((pz / 100).floor)
      (tickScanLow ((px / 100).floor) ((pz / 100).floor) rng
        (tickScanHigh ((px / 100).floor) ((pz / 100).floor)
          (runCM evs)))) :=
    inv7_tickLoadHigh _ _ (inv7_tickScanLow _ _ rng
      (inv7_tickScanHigh _ _ hinv))
  have hlow : ∀ k ∈ (tickPre ((px / 100).floor) ((pz / 100).floor) rng
      (runCM evs)).loadedChunks,
      (lowKeys ((px / 100).floor) ((pz / 100).floor)).contains k
        = true := by
    unfold tickPre
    exact tickUnload_low _ _ _ h3.loadedNodup
  have h4 : Inv7 (tickPre ((px / 100).floor) ((pz / 100).floor) rng
      (runCM evs)) := by
    unfold tickPre
    exact inv7_tickUnload _ _ h3
  have h5 := inv7_processNext px pz h4
  obtain ⟨fl, -, -, -, -, -, -⟩ := processNextPendingChunk_frame px pz
    (tickPre ((px / 100).floor) ((pz / 100).floor) rng (runCM evs))
  obtain ⟨f1, f2, f3, f4, f5, f6, f7, f8, f9⟩ :=
    updateChunks_fields px pz rng (runCM evs)
  constructor
  · intro k hk
    rw [f4, fl] at hk
    exact hlow k hk
  · intro id0 hm
    rw [f7] at hm
    obtain ⟨r, hg, hmesh, hch⟩ := h5.sceneOk id0 hm
    refine ⟨r, ?_, ?_, ?_⟩
    · rw [f8]
      exact hg
    · rw [f4]
      exact hch
    · rw [fl] at hch
      exact hlow r.chunk hch

end Islands
